import Mathlib

/-!
Tick / price math of `scripts/shared/v3PriceUtils.js`.

A shallow embedding of the JavaScript module `v3PriceUtils` together with the
part of the ECMAScript runtime it relies on, followed by the helpers
`calculateOptimalTicks` and `validatePositionParams` of `config/katanaConfig.js`
and the local `encodePriceSqrt` and `sortTokens` of `scripts/katana/createPool.js`.

* `JSNum` models an ECMAScript Number (IEEE-754 binary64).  Finite values carry
  their exact rational value; every arithmetic operation computes the exact
  rational result and rounds it with `roundDouble` (round to nearest, ties to
  even, gradual underflow, overflow to an infinity).  The two zeros `+0` and
  `-0` are identified: the module never divides by a zero (every divisor is
  checked to be positive, or is the constant `Math.log(1.0001)`), and `===`,
  `<`, `<=`, `Math.min`, `Math.max` and `toString` do not tell them apart.
* `JSValue` models the values a caller can pass: `undefined`, `null`, booleans,
  numbers and strings.
* `Host` collects what neither the language standard nor the repository fixes:
  the results of `Math.log` and `Math.pow` where the standard asks only for an
  approximation, and the package `big-number`.  Theorems are stated for every
  host where the result does not depend on it; `refHost` is a concrete host for
  evaluating the module on given inputs.
* A `throw` inside `try { ... } catch (error) { throw new Error(... error.message) }`
  is modelled with `Except String`: the payload is the message of the error.
-/

namespace V3PriceUtils

/-! ## ECMAScript numbers -/

/-- An ECMAScript Number: `NaN`, the two infinities, or a finite value given by
its exact rational value (`-0` is identified with `+0`). -/
inductive JSNum where
  | nan
  | posInf
  | negInf
  | fin (q : ℚ)
deriving DecidableEq

open JSNum

/-- Number of binary digits of a natural number, by halving; the first argument
bounds the number of halvings. -/
def bitLenAux : ℕ → ℕ → ℕ
  | 0, _ => 0
  | fuel + 1, n => if n = 0 then 0 else bitLenAux fuel (n / 2) + 1

/-- Number of binary digits of `n` (`0` for `n = 0`). -/
def bitLen (n : ℕ) : ℕ := bitLenAux n n

/-- The binary exponent of a non-zero rational: the integer `e` with
`2 ^ e ≤ |q| < 2 ^ (e + 1)`. -/
def ilog2 (q : ℚ) : ℤ :=
  let e0 : ℤ := (bitLen q.num.natAbs : ℤ) - (bitLen q.den : ℤ)
  if (2 : ℚ) ^ e0 ≤ |q| then e0 else e0 - 1

/-- The spacing of binary64 values around `q`: `2 ^ (e - 52)` for a normal
value with binary exponent `e`, and `2 ^ (-1074)` in the subnormal range. -/
def quantum (q : ℚ) : ℚ := (2 : ℚ) ^ (max (ilog2 q) (-1022) - 52)

/-- Rounding of a rational to the nearest integer, ties to the even one. -/
def roundHalfEven (x : ℚ) : ℤ :=
  let f := ⌊x⌋
  if x - f < 1 / 2 then f
  else if 1 / 2 < x - f then f + 1
  else if f % 2 = 0 then f else f + 1

/-- The binary64 value of an exact rational result: round to nearest, ties to
even; results of magnitude `2 ^ 1024` or more become an infinity. -/
def roundDouble (q : ℚ) : JSNum :=
  if q = 0 then fin 0
  else
    let y : ℚ := (roundHalfEven (q / quantum q) : ℚ) * quantum q
    if (2 : ℚ) ^ (1024 : ℕ) ≤ y then posInf
    else if y ≤ -(2 : ℚ) ^ (1024 : ℕ) then negInf
    else fin y

/-- The operator `x / y` on Numbers (IEEE-754 division). -/
def jsDiv : JSNum → JSNum → JSNum
  | nan, _ => nan
  | _, nan => nan
  | posInf, posInf => nan
  | posInf, negInf => nan
  | negInf, posInf => nan
  | negInf, negInf => nan
  | posInf, fin b => if b < 0 then negInf else posInf
  | negInf, fin b => if b < 0 then posInf else negInf
  | fin _, posInf => fin 0
  | fin _, negInf => fin 0
  | fin a, fin b =>
    if b = 0 then (if a = 0 then nan else if 0 < a then posInf else negInf)
    else roundDouble (a / b)

/-- The operator `x * y` on Numbers (IEEE-754 multiplication). -/
def jsMul : JSNum → JSNum → JSNum
  | nan, _ => nan
  | _, nan => nan
  | posInf, posInf => posInf
  | posInf, negInf => negInf
  | negInf, posInf => negInf
  | negInf, negInf => posInf
  | posInf, fin b => if b = 0 then nan else if 0 < b then posInf else negInf
  | negInf, fin b => if b = 0 then nan else if 0 < b then negInf else posInf
  | fin a, posInf => if a = 0 then nan else if 0 < a then posInf else negInf
  | fin a, negInf => if a = 0 then nan else if 0 < a then negInf else posInf
  | fin a, fin b => roundDouble (a * b)

/-- The comparison `x < y` on Numbers; `false` when either side is `NaN`. -/
def jsLt : JSNum → JSNum → Bool
  | nan, _ => false
  | _, nan => false
  | posInf, _ => false
  | negInf, negInf => false
  | negInf, _ => true
  | fin _, posInf => true
  | fin _, negInf => false
  | fin a, fin b => decide (a < b)

/-- The comparison `x > y` on Numbers. -/
def jsGt (x y : JSNum) : Bool := jsLt y x

/-- The comparison `x <= y` on Numbers; `false` when either side is `NaN`. -/
def jsLe : JSNum → JSNum → Bool
  | nan, _ => false
  | _, nan => false
  | x, y => !(jsLt y x)

/-- The comparison `x >= y` on Numbers. -/
def jsGe (x y : JSNum) : Bool := jsLe y x

/-- The function `Math.floor`. -/
def Math_floor : JSNum → JSNum
  | fin q => fin (⌊q⌋ : ℤ)
  | x => x

/-- The function `Math.round`: the nearest integer, a tie going to the larger
one (towards `+∞`). -/
def Math_round : JSNum → JSNum
  | fin q => fin (⌊q + 1 / 2⌋ : ℤ)
  | x => x

/-- The function `Math.max` on two arguments. -/
def Math_max (x y : JSNum) : JSNum :=
  match x, y with
  | nan, _ => nan
  | _, nan => nan
  | x, y => if jsLt x y then y else x

/-- The function `Math.min` on two arguments. -/
def Math_min (x y : JSNum) : JSNum :=
  match x, y with
  | nan, _ => nan
  | _, nan => nan
  | x, y => if jsLt y x then y else x

/-- The function `Number.isInteger` on a Number. -/
def numIsInteger : JSNum → Bool
  | fin q => decide (((⌊q⌋ : ℤ) : ℚ) = q)
  | _ => false

/-! ## ECMAScript values -/

/-- The values a caller can pass to the module. -/
inductive JSValue where
  | undefined
  | null
  | boolean (b : Bool)
  | num (x : JSNum)
  | str (s : String)
deriving DecidableEq

open JSValue

/-- The function `Number.isInteger`: `false` for everything that is not a
Number. -/
def Number_isInteger : JSValue → Bool
  | num x => numIsInteger x
  | _ => false

deriving instance DecidableEq for Except

/-- The `catch (error) { throw new Error(... + error.message) }` wrapper around
a function body: the message `msg` is put in front of the message of a thrown
error. -/
def rethrow {α : Type} (msg : String) : Except String α → Except String α
  | .error e => .error (msg ++ e)
  | .ok a => .ok a

/-! ## The module `v3PriceUtils` -/

/-- The constant `MAX_TICK`. -/
def MAX_TICK : ℤ := 887272

/-- The constant `MIN_TICK`. -/
def MIN_TICK : ℤ := -887272

/-- The body of the `try` block of `nearestUsableTick`. -/
def nearestUsableTickBody (tick tickSpacing : JSValue) : Except String JSNum :=
  match tick, tickSpacing with
  | num t, num s =>
    if jsLe s (fin 0) then .error "Tick spacing must be positive"
    else if jsLt t (fin MIN_TICK) || jsGt t (fin MAX_TICK) then
      .error "Tick is out of valid range"
    else
      let rounded := jsMul (Math_round (jsDiv t s)) s
      .ok (Math_min (Math_max rounded (fin MIN_TICK)) (fin MAX_TICK))
  | _, _ => .error "Tick and tickSpacing must be numbers"

/-- The function `nearestUsableTick(tick, tickSpacing)`. -/
def nearestUsableTick (tick tickSpacing : JSValue) : Except String JSNum :=
  rethrow "Failed to find nearest usable tick: " (nearestUsableTickBody tick tickSpacing)

/-- The function `isValidTick(tick)`. -/
def isValidTick (tick : JSValue) : Bool :=
  Number_isInteger tick &&
    (match tick with
     | num t => jsGe t (fin MIN_TICK) && jsLe t (fin MAX_TICK)
     | _ => false)

/-! ## Conversions between strings and numbers -/

/-- Number of decimal digits of a natural number, by division by ten; the first
argument bounds the number of divisions. -/
def decLenAux : ℕ → ℕ → ℕ
  | 0, _ => 0
  | fuel + 1, n => if n = 0 then 0 else decLenAux fuel (n / 10) + 1

/-- Number of decimal digits of `n` (`0` for `n = 0`). -/
def decLen (n : ℕ) : ℕ := decLenAux n n

/-- The decimal exponent of a positive rational: the integer `n` with
`10 ^ (n - 1) ≤ q < 10 ^ n`. -/
def decExp (q : ℚ) : ℤ :=
  let n0 : ℤ := (decLen q.num.natAbs : ℤ) - (decLen q.den : ℤ)
  if q < (10 : ℚ) ^ n0 then n0 else n0 + 1

/-- Removal of the trailing zeros of a digit sequence given in reverse order. -/
def dropZeros : List Char → List Char
  | [] => []
  | c :: cs => if c = '0' then dropZeros cs else c :: cs

/-- The digits `s` and exponent `n` of `Number::toString` for a positive finite
value `q`: the fewest digits such that `s × 10 ^ (n - k)` rounds to `q`, the
candidate nearest to `q` first.  The first argument counts the digit lengths
still to try, the second is the length `k` being tried. -/
def shortestDigits (q : ℚ) (n : ℤ) : ℕ → ℕ → List Char × ℤ
  | 0, k =>
    let c := roundHalfEven (q / (10 : ℚ) ^ (n - k))
    (Nat.toDigits 10 c.toNat, n - k)
  | fuel + 1, k =>
    let scale : ℚ := (10 : ℚ) ^ (n - k)
    let lo : ℤ := ⌊q / scale⌋
    let near : ℤ := roundHalfEven (q / scale)
    let far : ℤ := if near = lo then lo + 1 else lo
    if roundDouble ((near : ℚ) * scale) = fin q then (Nat.toDigits 10 near.toNat, n - k)
    else if roundDouble ((far : ℚ) * scale) = fin q then (Nat.toDigits 10 far.toNat, n - k)
    else shortestDigits q n fuel (k + 1)

/-- The decimal text of a natural number. -/
def natToString (n : ℕ) : String := String.mk (Nat.toDigits 10 n)

/-- The text `Number::toString` produces for a positive finite value. -/
def posToString (q : ℚ) : String :=
  let r := shortestDigits q (decExp q) 16 1
  -- `r.1` are the digits of an integer `c` and `r.2` the power of ten it is scaled by
  let n : ℤ := r.2 + r.1.length
  let ds : List Char := (dropZeros r.1.reverse).reverse
  let k : ℤ := ds.length
  if k ≤ n ∧ n ≤ 21 then String.mk (ds ++ List.replicate (n - k).toNat '0')
  else if 0 < n ∧ n ≤ 21 then String.mk (ds.take n.toNat ++ '.' :: ds.drop n.toNat)
  else if -6 < n ∧ n ≤ 0 then String.mk ('0' :: '.' :: List.replicate (-n).toNat '0' ++ ds)
  else
    let e : ℤ := n - 1
    let expo : List Char := 'e' :: (if e < 0 then '-' else '+') :: Nat.toDigits 10 e.natAbs
    match ds with
    | [] => String.mk expo
    | [d] => String.mk (d :: expo)
    | d :: rest => String.mk (d :: '.' :: rest ++ expo)

/-- The text of a Number (`Number::toString` with radix ten). -/
def numToString : JSNum → String
  | nan => "NaN"
  | posInf => "Infinity"
  | negInf => "-Infinity"
  | fin q =>
    if q = 0 then "0"
    else if q < 0 then "-" ++ posToString (-q)
    else posToString q

/-- White space and line terminators, which `Number(string)` strips. -/
def isStrWhiteSpace (c : Char) : Bool :=
  let n := c.toNat
  n = 9 || n = 10 || n = 11 || n = 12 || n = 13 || n = 32 || n = 160 || n = 5760
    || (8192 ≤ n && n ≤ 8202) || n = 8232 || n = 8233 || n = 8239 || n = 8287
    || n = 12288 || n = 65279

/-- The value of a digit in radix up to sixteen, if the character is one. -/
def digitValue (c : Char) : Option ℕ :=
  if '0' ≤ c ∧ c ≤ '9' then some (c.toNat - 48)
  else if 'a' ≤ c ∧ c ≤ 'f' then some (c.toNat - 87)
  else if 'A' ≤ c ∧ c ≤ 'F' then some (c.toNat - 55)
  else none

/-- The value of a non-empty digit sequence in the given radix; `none` when the
sequence is empty or holds a character that is no digit of the radix. -/
def digitsValue (radix : ℕ) (cs : List Char) : Option ℕ :=
  if cs.isEmpty then none
  else cs.foldl (fun acc c =>
    match acc, digitValue c with
    | some a, some d => if d < radix then some (a * radix + d) else none
    | _, _ => none) (some 0)

/-- The value of an `ExponentPart` without its `e`: an optional sign and
decimal digits. -/
def exponentValue (cs : List Char) : Option ℤ :=
  match cs with
  | '+' :: ds => (digitsValue 10 ds).map (fun n => (n : ℤ))
  | '-' :: ds => (digitsValue 10 ds).map (fun n => -(n : ℤ))
  | ds => (digitsValue 10 ds).map (fun n => (n : ℤ))

/-- The mathematical value of a `StrUnsignedDecimalLiteral` other than
`Infinity`: digits, an optional fraction and an optional exponent. -/
def unsignedDecimalValue (cs : List Char) : Option ℚ :=
  let isDec : Char → Bool := fun c => decide ('0' ≤ c ∧ c ≤ '9')
  let ip := cs.takeWhile isDec
  let r1 := cs.dropWhile isDec
  let fr : Option (List Char × List Char) :=
    match r1 with
    | '.' :: r2 => some (r2.takeWhile isDec, r2.dropWhile isDec)
    | _ => if ip.isEmpty then none else some ([], r1)
  match fr with
  | none => none
  | some (fp, r3) =>
    if ip.isEmpty && fp.isEmpty then none
    else
      let mant : ℚ := ((digitsValue 10 (ip ++ fp)).getD 0 : ℚ) / (10 : ℚ) ^ fp.length
      match r3 with
      | [] => some mant
      | 'e' :: ex => (exponentValue ex).map (fun z => mant * (10 : ℚ) ^ z)
      | 'E' :: ex => (exponentValue ex).map (fun z => mant * (10 : ℚ) ^ z)
      | _ => none

/-- The value of a trimmed, non-empty `StrNumericLiteral`. -/
def numericLiteralValue (cs : List Char) : JSNum :=
  let infinity : List Char := ['I', 'n', 'f', 'i', 'n', 'i', 't', 'y']
  let unsigned : List Char → Option JSNum := fun ds =>
    if ds = infinity then some posInf
    else (unsignedDecimalValue ds).map roundDouble
  let negate : JSNum → JSNum := fun x =>
    match x with
    | posInf => negInf
    | negInf => posInf
    | fin q => fin (-q)
    | nan => nan
  let radixLiteral : ℕ → List Char → JSNum := fun radix ds =>
    match digitsValue radix ds with
    | some n => roundDouble n
    | none => nan
  match cs with
  | '0' :: 'x' :: ds => radixLiteral 16 ds
  | '0' :: 'X' :: ds => radixLiteral 16 ds
  | '0' :: 'o' :: ds => radixLiteral 8 ds
  | '0' :: 'O' :: ds => radixLiteral 8 ds
  | '0' :: 'b' :: ds => radixLiteral 2 ds
  | '0' :: 'B' :: ds => radixLiteral 2 ds
  | '+' :: ds => (unsigned ds).getD nan
  | '-' :: ds => ((unsigned ds).map negate).getD nan
  | ds => (unsigned ds).getD nan

/-- The abstract operation `StringToNumber`: the value of `Number(s)` for a
string `s`. -/
def stringToNumber (s : String) : JSNum :=
  let cs := ((s.data.dropWhile isStrWhiteSpace).reverse.dropWhile isStrWhiteSpace).reverse
  if cs.isEmpty then fin 0 else numericLiteralValue cs

/-- The conversion `Number(value)`. -/
def toNumber : JSValue → JSNum
  | undefined => nan
  | null => fin 0
  | boolean b => if b then fin 1 else fin 0
  | num x => x
  | str s => stringToNumber s

/-- The truthiness of a value: what `!value` negates. -/
def truthy : JSValue → Bool
  | undefined => false
  | null => false
  | boolean b => b
  | num nan => false
  | num (fin q) => decide (q ≠ 0)
  | num _ => true
  | str s => !s.data.isEmpty

/-- The method call `value.toString()`; it throws for `undefined` and `null`. -/
def valueToString : JSValue → Except String String
  | undefined => .error "Cannot read properties of undefined (reading 'toString')"
  | null => .error "Cannot read properties of null (reading 'toString')"
  | boolean b => .ok (if b then "true" else "false")
  | num x => .ok (numToString x)
  | str s => .ok s

/-! ## The `Math` functions with implementation-approximated results -/

/-- Integer square root by bisection on the binary digits: the first argument
is the number of digits still to decide, the last the root found so far. -/
def isqrtAux : ℕ → ℕ → ℕ → ℕ
  | 0, _, r => r
  | b + 1, n, r => if (r + 2 ^ b) * (r + 2 ^ b) ≤ n then isqrtAux b n (r + 2 ^ b) else isqrtAux b n r

/-- The integer square root `⌊√n⌋`. -/
def isqrt (n : ℕ) : ℕ := isqrtAux (bitLen n / 2 + 1) n 0

/-- The binary64 square root of a positive rational, correctly rounded as
IEEE-754 requires of `squareRoot`: with `u` the spacing of binary64 values
around the root, the root is `m * u` for the integer `m` nearest to `√(q / u²)`. -/
def sqrtDouble (q : ℚ) : ℚ :=
  let u : ℚ := (2 : ℚ) ^ (max (ilog2 q / 2) (-1022) - 52)
  let x : ℚ := q / (u * u)
  let f : ℕ := isqrt ⌊x⌋.toNat
  let half : ℚ := (f : ℚ) * f + f + 1 / 4
  let m : ℕ := if x < half then f else if half < x then f + 1 else if f % 2 = 0 then f else f + 1
  (m : ℚ) * u

/-- The function `Math.sqrt`. -/
def Math_sqrt : JSNum → JSNum
  | nan => nan
  | posInf => posInf
  | negInf => nan
  | fin q => if q < 0 then nan else if q = 0 then fin 0 else fin (sqrtDouble q)

/-- What the module takes from its host and from the packages it loads, left
open because the language standard or the repository does not fix it:
`log` and `pow` are the results of `Math.log` and `Math.pow` on the arguments
for which the standard only asks for an approximation, and `bigNumber s` is the
outcome of the call `BigNumber(s).toString()` in `getPriceFromTick`, with
`BigNumber` what `const { BigNumber } = require('big-number')` binds (an error
standing for a thrown exception, its payload the message). -/
structure Host where
  /-- The value of `Math.log(x)` for a finite `x > 0` other than `1`. -/
  log : ℚ → JSNum
  /-- The value of `Math.pow(x, y)` for finite `x > 0` and finite `y ≠ 0`. -/
  pow : ℚ → ℚ → JSNum
  /-- The outcome of `BigNumber(s).toString()`. -/
  bigNumber : String → Except String String

/-- The function `Math.log`: the cases the standard fixes, the host's
approximation otherwise. -/
def Math_log (h : Host) : JSNum → JSNum
  | nan => nan
  | posInf => posInf
  | negInf => nan
  | fin q => if q < 0 then nan else if q = 0 then negInf else if q = 1 then fin 0 else h.log q

/-- The function `Math.pow` (`Number::exponentiate`): the cases the standard
fixes, the host's approximation otherwise. -/
def Math_pow (h : Host) (base exponent : JSNum) : JSNum :=
  let oddInteger : ℚ → Bool := fun y => decide (((⌊y⌋ : ℤ) : ℚ) = y ∧ ⌊y⌋ % 2 = 1)
  let isInteger : ℚ → Bool := fun y => decide (((⌊y⌋ : ℤ) : ℚ) = y)
  match base, exponent with
  | _, nan => nan
  | nan, fin y => if y = 0 then fin 1 else nan
  | nan, _ => nan
  | posInf, fin y => if y = 0 then fin 1 else if 0 < y then posInf else fin 0
  | posInf, posInf => posInf
  | posInf, negInf => fin 0
  | negInf, fin y =>
    if y = 0 then fin 1
    else if 0 < y then (if oddInteger y then negInf else posInf)
    else fin 0
  | negInf, posInf => posInf
  | negInf, negInf => fin 0
  | fin x, posInf => if 1 < |x| then posInf else if |x| = 1 then nan else fin 0
  | fin x, negInf => if 1 < |x| then fin 0 else if |x| = 1 then nan else posInf
  | fin x, fin y =>
    if y = 0 then fin 1
    else if x = 0 then (if 0 < y then fin 0 else posInf)
    else if 0 < x then h.pow x y
    else if isInteger y then
      (match h.pow (-x) y with
       | fin r => if oddInteger y then fin (-r) else fin r
       | posInf => if oddInteger y then negInf else posInf
       | r => r)
    else nan

/-! ### A reference host

A host whose `Math.log` and `Math.pow` are computed to about 190 binary digits
and then rounded to binary64.  The package `big-number` exports its constructor
as the module object itself, and that object has no property `BigNumber`: the
binding `const { BigNumber } = require('big-number')` is `undefined`, and the
call `BigNumber(...)` throws a `TypeError` with the message "BigNumber is not a
function" whatever its argument.  The host serves to evaluate the module on
concrete inputs. -/

/-- Truncation of a rational to a multiple of `2 ^ (-192)`. -/
def trunc192 (x : ℚ) : ℚ := (⌊x * 2 ^ (192 : ℕ)⌋ : ℚ) / 2 ^ (192 : ℕ)

/-- The sum `1/(2i+1) + w/(2i+3) + w²/(2i+5) + ...` of `n` terms, by Horner's
rule with truncated intermediate results. -/
def atanhTail (w : ℚ) : ℕ → ℕ → ℚ
  | 0, _ => 0
  | n + 1, i => trunc192 (1 / (2 * (i : ℚ) + 1) + w * atanhTail w n (i + 1))

/-- An approximation of `artanh z = z + z³/3 + z⁵/5 + ...` for `|z| ≤ 1/3`. -/
def atanhApprox (z : ℚ) : ℚ := z * atanhTail (trunc192 (z * z)) 64 0

/-- An approximation of `ln 2 = 2 artanh (1/3)`. -/
def ln2Approx : ℚ := 2 * atanhApprox (1 / 3)

/-- An approximation of the natural logarithm of a positive rational `q`:
with `q = m * 2 ^ e` and `1 ≤ m < 2`, `ln q = e ln 2 + 2 artanh ((m-1)/(m+1))`. -/
def lnApprox (q : ℚ) : ℚ :=
  let e : ℤ := ilog2 q
  let m : ℚ := q / (2 : ℚ) ^ e
  (e : ℚ) * ln2Approx + 2 * atanhApprox ((m - 1) / (m + 1))

/-- The sum `1 + x/i + x²/(i(i+1)) + ...` of `n` terms, by Horner's rule with
truncated intermediate results. -/
def expTail (x : ℚ) : ℕ → ℕ → ℚ
  | 0, _ => 1
  | n + 1, i => trunc192 (1 + x / (i : ℚ) * expTail x n (i + 1))

/-- An approximation of the exponential of a rational `x`: with `k` the integer
nearest to `x / ln 2`, `exp x = 2 ^ k * exp (x - k ln 2)`. -/
def expApprox (x : ℚ) : ℚ :=
  let k : ℤ := roundHalfEven (x / ln2Approx)
  (2 : ℚ) ^ k * expTail (trunc192 (x - (k : ℚ) * ln2Approx)) 48 1

/-- The reference host.  Modelled from the package `big-number`, which is not
part of the repository: calling the `undefined` binding `BigNumber` throws. -/
def refHost : Host where
  log := fun q => roundDouble (lnApprox q)
  pow := fun x y => roundDouble (expApprox (y * lnApprox x))
  bigNumber := fun _ => .error "BigNumber is not a function"

/-! ## The package `jsbi` -/

/-- The text of an integer (`JSBI.prototype.toString`). -/
def bigIntToString (z : ℤ) : String :=
  if z < 0 then "-" ++ natToString z.natAbs else natToString z.natAbs

/-- The conversion `JSBI.BigInt(x)` of a Number: the integer `x` stands for, or
a `RangeError` when `x` is not an integer. -/
def JSBI_BigInt (x : JSNum) : Except String ℤ :=
  match x with
  | fin q =>
    if ((⌊q⌋ : ℤ) : ℚ) = q then .ok ⌊q⌋
    else .error ("The number " ++ numToString x
      ++ " cannot be converted to BigInt because it is not an integer")
  | _ => .error ("The number " ++ numToString x
      ++ " cannot be converted to BigInt because it is not an integer")

/-- The function `JSBI.divide`: division truncating towards zero, a
`RangeError` for a zero divisor. -/
def JSBI_divide (a b : ℤ) : Except String ℤ :=
  if b = 0 then .error "Division by zero" else .ok (Int.tdiv a b)

/-! ## The module `v3PriceUtils`, continued -/

/-- The constant `Q96 = JSBI.exponentiate(JSBI.BigInt(2), JSBI.BigInt(96))`. -/
def Q96 : ℤ := 2 ^ 96

/-- The constant `Q192 = JSBI.exponentiate(Q96, JSBI.BigInt(2))`. -/
def Q192 : ℤ := Q96 ^ 2

/-- The Number the literal `1.0001` denotes. -/
def lit_1_0001 : JSNum := roundDouble (10001 / 10000)

/-- The Number the literal `1e12` denotes. -/
def lit_1e12 : JSNum := roundDouble (10 ^ 12)

/-- The Number the literal `1e18` denotes. -/
def lit_1e18 : JSNum := roundDouble (10 ^ 18)

/-- The approximation `encodePriceSqrt` uses for reserves that are not textually
equal (the statements after the comment "For non-equal reserves we approximate
using JS numbers"), on the numeric values of the two reserves. -/
def encodePriceSqrtApprox (n1 n0 : JSNum) : Except String String := do
  let ratio := jsDiv n1 n0
  let sqrtRatio := Math_sqrt ratio
  let sqrtPriceX96 ← JSBI_BigInt (Math_floor (jsMul sqrtRatio lit_1e12))
  let scale ← JSBI_BigInt lit_1e12
  let result ← JSBI_divide (sqrtPriceX96 * Q96) scale
  .ok (bigIntToString result)

/-- The body of the `try` block of `encodePriceSqrt`. -/
def encodePriceSqrtBody (reserve1 reserve0 : JSValue) : Except String String :=
  if !truthy reserve0 || !truthy reserve1 then .error "Both reserves must be provided"
  else if jsLe (toNumber reserve0) (fin 0) || jsLe (toNumber reserve1) (fin 0) then
    .error "Reserves must be positive numbers"
  else do
    let s1 ← valueToString reserve1
    let s0 ← valueToString reserve0
    if s1 = s0 then .ok (bigIntToString Q96)
    else encodePriceSqrtApprox (toNumber reserve1) (toNumber reserve0)

/-- The function `encodePriceSqrt(reserve1, reserve0)`. -/
def encodePriceSqrt (reserve1 reserve0 : JSValue) : Except String String :=
  rethrow "Failed to encode sqrt price: " (encodePriceSqrtBody reserve1 reserve0)

/-- The body of the `try` block of `getTickFromPrice`. -/
def getTickFromPriceBody (h : Host) (price : JSValue) : Except String JSNum :=
  if !truthy price || jsLe (toNumber price) (fin 0) then
    .error "Price must be a positive number"
  else
    let log := Math_log h (toNumber price)
    let tick := Math_floor (jsDiv log (Math_log h lit_1_0001))
    if jsLt tick (fin MIN_TICK) || jsGt tick (fin MAX_TICK) then
      .error "Price is out of valid tick range"
    else .ok tick

/-- The function `getTickFromPrice(price)`. -/
def getTickFromPrice (h : Host) (price : JSValue) : Except String JSNum :=
  rethrow "Failed to convert price to tick: " (getTickFromPriceBody h price)

/-- The text `Math.floor(price * 1e18).toString()` that `getPriceFromTick` hands
to `BigNumber`, with `price = Math.pow(1.0001, tick)`. -/
def scaledPriceText (h : Host) (tick : JSNum) : String :=
  let price := Math_pow h lit_1_0001 tick
  numToString (Math_floor (jsMul price lit_1e18))

/-- The body of the `try` block of `getPriceFromTick`. -/
def getPriceFromTickBody (h : Host) (tick : JSValue) : Except String String :=
  match tick with
  | num t =>
    if jsLt t (fin MIN_TICK) || jsGt t (fin MAX_TICK) then .error "Tick is out of valid range"
    else h.bigNumber (scaledPriceText h t)
  | _ => .error "Tick must be a number"

/-- The function `getPriceFromTick(tick)`. -/
def getPriceFromTick (h : Host) (tick : JSValue) : Except String String :=
  rethrow "Failed to convert tick to price: " (getPriceFromTickBody h tick)

/-- The composition `getTickFromPrice(getPriceFromTick(t))` on an integer tick
`t`: the price text is handed to `getTickFromPrice` as it is returned. -/
def tickRoundTrip (h : Host) (t : ℤ) : Except String JSNum :=
  match getPriceFromTick h (num (fin t)) with
  | .ok s => getTickFromPrice h (str s)
  | .error e => .error e

/-- Modelled from the spec: whether `t` is the exact tick of the price `p`, the
integer with `1.0001 ^ t ≤ p < 1.0001 ^ (t + 1)`, the base being the decimal
number `1.0001` and the powers exact rationals. -/
def isExactTick (t : ℤ) (p : ℚ) : Bool :=
  decide ((10001 / 10000 : ℚ) ^ t ≤ p ∧ p < (10001 / 10000 : ℚ) ^ (t + 1))

/-- The function `Math.ceil`. -/
def Math_ceil : JSNum → JSNum
  | fin q => fin (⌈q⌉ : ℤ)
  | x => x

/-- The abstract operation `ToString` on a value, as used for a property key
and inside a template literal. -/
def toStr : JSValue → String
  | undefined => "undefined"
  | null => "null"
  | boolean b => if b then "true" else "false"
  | num x => numToString x
  | str s => s

/-- The names of the properties every plain object inherits from
`Object.prototype`. -/
def objectPrototypeKeys : List String :=
  ["constructor", "__defineGetter__", "__defineSetter__", "hasOwnProperty",
   "__lookupGetter__", "__lookupSetter__", "isPrototypeOf", "propertyIsEnumerable",
   "toString", "valueOf", "__proto__", "toLocaleString"]

/-- What reading a property of a plain object with integer-valued own
properties gives: the value of an own property, an inherited member of
`Object.prototype` (a function or an object), or `undefined`. -/
inductive PropertyValue where
  | number (n : ℤ)
  | inherited
  | absent
deriving DecidableEq

/-- The property read `obj[key]` on a plain object given by its own
properties. -/
def getProperty (obj : List (String × ℤ)) (key : String) : PropertyValue :=
  match obj.lookup key with
  | some n => .number n
  | none => if objectPrototypeKeys.contains key then .inherited else .absent

/-- The operator `key in obj` on a plain object given by its own properties. -/
def hasProperty (obj : List (String × ℤ)) (key : String) : Bool :=
  match getProperty obj key with
  | .absent => false
  | _ => true

/-! ## The module `config/katanaConfig.js` -/

namespace KatanaConfig

/-- The object `FEE_TIERS`. -/
def FEE_TIERS : List (String × ℤ) :=
  [("LOWEST", 100), ("LOW", 500), ("MEDIUM", 3000), ("HIGH", 10000)]

/-- The property key a computed key `[FEE_TIERS.NAME]` evaluates to: the text
of the Number stored under `NAME`. -/
def feeKey (name : String) : String :=
  match FEE_TIERS.lookup name with
  | some n => toStr (num (fin n))
  | none => toStr undefined

/-- The object `TICK_SPACINGS`, keyed by the fee values. -/
def TICK_SPACINGS : List (String × ℤ) :=
  [(feeKey "LOWEST", 1), (feeKey "LOW", 10), (feeKey "MEDIUM", 60), (feeKey "HIGH", 200)]

/-- The result of `calculateOptimalTicks`. -/
structure TickRange where
  /-- The field `tickLower`. -/
  tickLower : JSNum
  /-- The field `tickUpper`. -/
  tickUpper : JSNum
deriving DecidableEq

/-- The Number the literal `0.9` denotes. -/
def lit_0_9 : JSNum := roundDouble (9 / 10)

/-- The Number the literal `1.1` denotes. -/
def lit_1_1 : JSNum := roundDouble (11 / 10)

/-- The function `calculateOptimalTicks(price, fee)`; the error is the message
of the thrown `Error`.  An inherited member of `Object.prototype` found under
the key is truthy and converts to `NaN` in the arithmetic. -/
def calculateOptimalTicks (h : Host) (price fee : JSValue) : Except String TickRange :=
  match getProperty TICK_SPACINGS (toStr fee) with
  | .absent => .error ("Invalid fee tier: " ++ toStr fee)
  | found =>
    let tickSpacing : JSNum :=
      match found with
      | .number n => fin n
      | _ => nan
    if found = .number 0 then .error ("Invalid fee tier: " ++ toStr fee)
    else
      let baseTickLower :=
        Math_floor (jsDiv (Math_log h (jsMul (toNumber price) lit_0_9)) (Math_log h lit_1_0001))
      let baseTickUpper :=
        Math_ceil (jsDiv (Math_log h (jsMul (toNumber price) lit_1_1)) (Math_log h lit_1_0001))
      .ok { tickLower := jsMul (Math_floor (jsDiv baseTickLower tickSpacing)) tickSpacing
            tickUpper := jsMul (Math_ceil (jsDiv baseTickUpper tickSpacing)) tickSpacing }

/-- The argument of `validatePositionParams`, with the fields the function
reads.  The amounts are BigInts; the deadline is a Number or a BigInt, given by
its numeric value (which is what the comparison with a Number uses). -/
structure PositionParams where
  /-- The field `fee`. -/
  fee : JSValue
  /-- The field `tickLower`. -/
  tickLower : JSNum
  /-- The field `tickUpper`. -/
  tickUpper : JSNum
  /-- The field `amount0Desired`. -/
  amount0Desired : ℤ
  /-- The field `amount1Desired`. -/
  amount1Desired : ℤ
  /-- The field `deadline`. -/
  deadline : JSNum

/-- The result of `validatePositionParams`. -/
structure ValidationResult where
  /-- The field `isValid`. -/
  isValid : Bool
  /-- The field `errors`. -/
  errors : List String
deriving DecidableEq

/-- The function `validatePositionParams(params)`; `nowMs` is the value of
`Date.now()` at the call. -/
def validatePositionParams (nowMs : ℤ) (params : PositionParams) : ValidationResult :=
  let validations : List (Bool × String) :=
    [(hasProperty FEE_TIERS (toStr params.fee), "Invalid fee tier"),
     (jsLt params.tickLower params.tickUpper, "Invalid tick range"),
     (decide (params.amount0Desired > 0) || decide (params.amount1Desired > 0),
       "No liquidity provided"),
     (jsGt params.deadline (Math_floor (jsDiv (fin nowMs) (fin 1000))), "Deadline expired")]
  let errors := (validations.filter (fun v => !v.1)).map (fun v => v.2)
  { isValid := errors.length == 0, errors := errors }

end KatanaConfig

/-! ## The scripts `scripts/katana/createPool.js` and `scripts/katana/mintPosition.js` -/

namespace CreatePool

/-- The conversion `BigInt(x)` of a Number: the integer `x` stands for, or a
`RangeError` when `x` is not an integer. -/
def BigInt_ofNumber (x : JSNum) : Except String ℤ :=
  match x with
  | fin q =>
    if ((⌊q⌋ : ℤ) : ℚ) = q then .ok ⌊q⌋
    else .error ("The number " ++ numToString x
      ++ " cannot be converted to a BigInt because it is not an integer")
  | _ => .error ("The number " ++ numToString x
      ++ " cannot be converted to a BigInt because it is not an integer")

/-- The local function `encodePriceSqrt(reserve1, reserve0)` of `createPool.js`;
`2 ** 96` is the host's `Number::exponentiate`. -/
def encodePriceSqrt (h : Host) (reserve1 reserve0 : JSValue) : Except String ℤ :=
  BigInt_ofNumber (Math_floor (jsMul
    (Math_sqrt (jsDiv (toNumber reserve1) (toNumber reserve0)))
    (Math_pow h (fin 2) (fin 96))))

/-- The UTF-16 code units of a character. -/
def utf16Units (c : Char) : List ℕ :=
  if c.toNat < 65536 then [c.toNat]
  else [55296 + (c.toNat - 65536) / 1024, 56320 + (c.toNat - 65536) % 1024]

/-- The sequence of UTF-16 code units a string is in JavaScript. -/
def toUTF16 (s : String) : List ℕ := s.data.flatMap utf16Units

/-- The lexicographic comparison of two sequences of code units. -/
def codeUnitsLt : List ℕ → List ℕ → Bool
  | [], [] => false
  | [], _ :: _ => true
  | _ :: _, [] => false
  | a :: as, b :: bs => if a < b then true else if b < a then false else codeUnitsLt as bs

/-- The comparison `a < b` of two strings: lexicographic on code units. -/
def jsStringLt (a b : String) : Bool := codeUnitsLt (toUTF16 a) (toUTF16 b)

/-- The function `sortTokens(tokenA, tokenB)` of `createPool.js` and of
`mintPosition.js`, on strings; `toLowerCase` is the method
`String.prototype.toLowerCase` of the host. -/
def sortTokens (toLowerCase : String → String) (tokenA tokenB : String) : String × String :=
  if jsStringLt (toLowerCase tokenA) (toLowerCase tokenB) then (tokenA, tokenB)
  else (tokenB, tokenA)

/-- The method `toLowerCase` on strings of ASCII characters, such as addresses:
the letters `A` to `Z` become `a` to `z`. -/
def asciiToLowerCase (s : String) : String :=
  String.mk (s.data.map (fun c => if 'A' ≤ c ∧ c ≤ 'Z' then Char.ofNat (c.toNat + 32) else c))

end CreatePool

/-! ## Facts about binary64 rounding -/

theorem bitLenAux_zero (fuel : ℕ) : bitLenAux fuel 0 = 0 := by
  cases fuel <;> simp [bitLenAux]

theorem bitLenAux_spec (fuel : ℕ) : ∀ n : ℕ, n ≤ fuel →
    n < 2 ^ bitLenAux fuel n ∧ (n ≠ 0 → 2 ^ bitLenAux fuel n ≤ 2 * n) := by
  induction fuel with
  | zero =>
    intro n hn
    have : n = 0 := by omega
    subst this
    simp [bitLenAux]
  | succ fuel ih =>
    intro n hn
    by_cases h0 : n = 0
    · subst h0; simp [bitLenAux]
    · have hle : n / 2 ≤ fuel := by omega
      obtain ⟨h1, h2⟩ := ih (n / 2) hle
      simp only [bitLenAux, if_neg h0, pow_succ]
      refine ⟨by omega, fun _ => ?_⟩
      by_cases h3 : n / 2 = 0
      · rw [h3, bitLenAux_zero]; simp; omega
      · have := h2 h3; omega

theorem bitLen_spec (n : ℕ) :
    n < 2 ^ bitLen n ∧ (n ≠ 0 → 2 ^ bitLen n ≤ 2 * n) :=
  bitLenAux_spec n n le_rfl

theorem abs_eq_natAbs_div_den (q : ℚ) : |q| = (q.num.natAbs : ℚ) / (q.den : ℚ) := by
  have h := Rat.num_div_den q
  have hd : (0 : ℚ) < q.den := by exact_mod_cast q.den_pos
  conv_lhs => rw [← h]
  rw [abs_div, abs_of_pos hd, Nat.cast_natAbs, Int.cast_abs]

theorem ilog2_spec (q : ℚ) (hq : q ≠ 0) :
    (2 : ℚ) ^ ilog2 q ≤ |q| ∧ |q| < (2 : ℚ) ^ (ilog2 q + 1) := by
  have hd : (0 : ℚ) < q.den := by exact_mod_cast q.den_pos
  have hn0 : q.num.natAbs ≠ 0 := by
    simpa [Int.natAbs_eq_zero] using hq
  obtain ⟨hn1, hn2⟩ := bitLen_spec q.num.natAbs
  obtain ⟨hd1, hd2⟩ := bitLen_spec q.den
  have hn2 := hn2 hn0
  have hd2 := hd2 q.den_nz
  have hn1q : (q.num.natAbs : ℚ) < 2 ^ bitLen q.num.natAbs := by exact_mod_cast hn1
  have hn2q : (2 : ℚ) ^ bitLen q.num.natAbs ≤ 2 * q.num.natAbs := by exact_mod_cast hn2
  have hd1q : (q.den : ℚ) < 2 ^ bitLen q.den := by exact_mod_cast hd1
  have hd2q : (2 : ℚ) ^ bitLen q.den ≤ 2 * q.den := by exact_mod_cast hd2
  have hpa : (0 : ℚ) < 2 ^ bitLen q.num.natAbs := by positivity
  have hpb : (0 : ℚ) < 2 ^ bitLen q.den := by positivity
  have habs := abs_eq_natAbs_div_den q
  have hz : ∀ k : ℤ, (2 : ℚ) ^ ((bitLen q.num.natAbs : ℤ) - (bitLen q.den : ℤ) + k)
      = 2 ^ bitLen q.num.natAbs / 2 ^ bitLen q.den * 2 ^ k := by
    intro k
    rw [zpow_add₀ (by norm_num), zpow_sub₀ (by norm_num), zpow_natCast, zpow_natCast]
  have hn0q : (0 : ℚ) < q.num.natAbs := by
    exact_mod_cast Nat.pos_of_ne_zero hn0
  unfold ilog2
  simp only
  split_ifs with hc
  · refine ⟨hc, ?_⟩
    rw [hz 1, habs, div_mul_eq_mul_div, div_lt_div_iff₀ hd hpb]
    have : (2 : ℚ) ^ (1 : ℤ) = 2 := by norm_num
    rw [this]
    nlinarith
  · refine ⟨?_, ?_⟩
    · have h := hz (-1)
      rw [show (bitLen q.num.natAbs : ℤ) - (bitLen q.den : ℤ) + -1
        = (bitLen q.num.natAbs : ℤ) - (bitLen q.den : ℤ) - 1 by ring] at h
      rw [h, habs, div_mul_eq_mul_div, div_le_div_iff₀ hpb hd]
      have : (2 : ℚ) ^ (-1 : ℤ) = 1 / 2 := by norm_num
      rw [this]
      nlinarith
    · rw [sub_add_cancel]
      exact lt_of_not_le hc

theorem roundHalfEven_halfulp (x : ℚ) : |(roundHalfEven x : ℚ) - x| ≤ 1 / 2 := by
  have h1 := Int.floor_le x
  have h2 := Int.lt_floor_add_one x
  unfold roundHalfEven
  simp only
  rw [abs_le]
  split_ifs with ha hb hc
  · constructor <;> linarith
  · push_cast; constructor <;> linarith
  · constructor <;> linarith
  · push_cast; constructor <;> linarith

theorem roundHalfEven_intCast (n : ℤ) : roundHalfEven (n : ℚ) = n := by
  unfold roundHalfEven
  simp

theorem quantum_pos (q : ℚ) : 0 < quantum q := by
  unfold quantum
  positivity

theorem two_zpow_le_iff (a b : ℤ) : (2 : ℚ) ^ a ≤ 2 ^ b ↔ a ≤ b :=
  zpow_le_zpow_iff_right₀ (by norm_num)

theorem two_zpow_lt_iff (a b : ℤ) : (2 : ℚ) ^ a < 2 ^ b ↔ a < b :=
  zpow_lt_zpow_iff_right₀ (by norm_num)

/-- A bound on the binary exponent from a bound on the magnitude. -/
theorem ilog2_lt_of_abs_lt (q : ℚ) (hq : q ≠ 0) (n : ℤ) (h : |q| < (2 : ℚ) ^ n) :
    ilog2 q < n := by
  have := (ilog2_spec q hq).1
  exact (two_zpow_lt_iff _ _).1 (lt_of_le_of_lt this h)

/-- The rounded value of a non-zero rational of magnitude at most `2 ^ 1023`
is finite, a multiple of the local spacing, and at most half a spacing away. -/
theorem roundDouble_spec (q : ℚ) (hq : q ≠ 0) (hb : |q| ≤ (2 : ℚ) ^ (1023 : ℤ)) :
    ∃ r : ℤ, roundDouble q = fin ((r : ℚ) * quantum q)
      ∧ |(r : ℚ) * quantum q - q| ≤ quantum q / 2 := by
  have hu := quantum_pos q
  have hr := roundHalfEven_halfulp (q / quantum q)
  have herr : |(roundHalfEven (q / quantum q) : ℚ) * quantum q - q| ≤ quantum q / 2 := by
    have e : (roundHalfEven (q / quantum q) : ℚ) * quantum q - q
        = ((roundHalfEven (q / quantum q) : ℚ) - q / quantum q) * quantum q := by
      field_simp
    rw [e, abs_mul, abs_of_pos hu]
    nlinarith
  have hu2 : quantum q ≤ (2 : ℚ) ^ (971 : ℤ) := by
    unfold quantum
    rw [two_zpow_le_iff]
    have : ilog2 q < 1024 :=
      ilog2_lt_of_abs_lt q hq 1024 (lt_of_le_of_lt hb ((two_zpow_lt_iff _ _).2 (by norm_num)))
    omega
  refine ⟨roundHalfEven (q / quantum q), ?_, herr⟩
  have h3 := abs_le.1 herr
  have h4 := abs_le.1 hb
  have e1 : (2 : ℚ) ^ (971 : ℤ) = 2 ^ (971 : ℕ) := by
    rw [← zpow_natCast]; rfl
  have e2 : (2 : ℚ) ^ (1023 : ℤ) = 2 ^ (1023 : ℕ) := by
    rw [← zpow_natCast]; rfl
  have e3 : (2 : ℚ) ^ (1024 : ℕ) = 2 ^ (971 : ℕ) * 2 ^ (53 : ℕ) := by rw [← pow_add]
  have e4 : (2 : ℚ) ^ (1023 : ℕ) = 2 ^ (971 : ℕ) * 2 ^ (52 : ℕ) := by rw [← pow_add]
  have hp : (0 : ℚ) < 2 ^ (971 : ℕ) := by positivity
  rw [e1] at hu2
  rw [e2, e4] at h4
  unfold roundDouble
  rw [if_neg hq]
  simp only
  rw [e3]
  generalize (2 : ℚ) ^ (971 : ℕ) = P at *
  have h52 : (2 : ℚ) ^ (52 : ℕ) = 4503599627370496 := by norm_num
  have h53 : (2 : ℚ) ^ (53 : ℕ) = 9007199254740992 := by norm_num
  rw [h52] at h4
  rw [h53]
  rw [if_neg, if_neg]
  · intro hc; nlinarith [h3.1, h3.2, h4.1, h4.2]
  · intro hc; nlinarith [h3.1, h3.2, h4.1, h4.2]

/-- Integers of magnitude below `2 ^ 53` are binary64 values: rounding leaves
them unchanged. -/
theorem roundDouble_intCast (n : ℤ) (hn : |n| < 2 ^ 53) : roundDouble (n : ℚ) = fin (n : ℚ) := by
  by_cases h0 : n = 0
  · subst h0; simp [roundDouble]
  have hq : (n : ℚ) ≠ 0 := by exact_mod_cast h0
  have habs : |(n : ℚ)| < (2 : ℚ) ^ (53 : ℤ) := by
    have : ((|n| : ℤ) : ℚ) < ((2 ^ 53 : ℤ) : ℚ) := by exact_mod_cast hn
    rw [Int.cast_abs] at this
    calc |(n : ℚ)| < ((2 ^ 53 : ℤ) : ℚ) := this
      _ = (2 : ℚ) ^ (53 : ℤ) := by norm_num
  have he : ilog2 (n : ℚ) < 53 := ilog2_lt_of_abs_lt _ hq 53 habs
  obtain ⟨k, hk⟩ : ∃ k : ℕ, max (ilog2 (n : ℚ)) (-1022) - 52 = -(k : ℤ) :=
    ⟨(52 - max (ilog2 (n : ℚ)) (-1022)).toNat, by omega⟩
  have hqu : quantum (n : ℚ) = ((2 : ℚ) ^ k)⁻¹ := by
    unfold quantum
    rw [hk, zpow_neg, zpow_natCast]
  have hp : (0 : ℚ) < 2 ^ k := by positivity
  have hdiv : (n : ℚ) / quantum (n : ℚ) = ((n * 2 ^ k : ℤ) : ℚ) := by
    rw [hqu]; push_cast; field_simp
  have hy : (roundHalfEven ((n : ℚ) / quantum (n : ℚ)) : ℚ) * quantum (n : ℚ) = n := by
    rw [hdiv, roundHalfEven_intCast, hqu]; push_cast; field_simp
  have h53 : (2 : ℚ) ^ (53 : ℤ) = 9007199254740992 := by norm_num
  have e3 : (2 : ℚ) ^ (1024 : ℕ) = 2 ^ (971 : ℕ) * 2 ^ (53 : ℕ) := by rw [← pow_add]
  have hP : (1 : ℚ) ≤ 2 ^ (971 : ℕ) := one_le_pow₀ (by norm_num)
  have h53' : (2 : ℚ) ^ (53 : ℕ) = 9007199254740992 := by norm_num
  rw [h53] at habs
  have h4 := abs_lt.1 habs
  unfold roundDouble
  rw [if_neg hq]
  simp only
  rw [hy, e3, h53']
  generalize (2 : ℚ) ^ (971 : ℕ) = P at *
  rw [if_neg, if_neg]
  · intro hc; nlinarith [h4.1, h4.2]
  · intro hc; nlinarith [h4.1, h4.2]

/-- Floating-point division does not disturb `Math.round` on a quotient of
integers: for an integer `t` of magnitude below `2 ^ 52` and a positive integer
`s`, `Math.round(t / s)` is the exact `⌊t / s + 1/2⌋`. -/
theorem Math_round_jsDiv (t s : ℤ) (ht : |t| < 2 ^ 52) (hs : 0 < s) :
    Math_round (jsDiv (fin t) (fin s)) = fin ((⌊(t : ℚ) / s + 1 / 2⌋ : ℤ) : ℚ) := by
  have hsq : (0 : ℚ) < s := by exact_mod_cast hs
  have hs1 : (1 : ℚ) ≤ s := by exact_mod_cast hs
  have hs0 : (s : ℚ) ≠ 0 := ne_of_gt hsq
  simp only [jsDiv, if_neg hs0]
  by_cases h0 : t = 0
  · subst h0
    simp only [Int.cast_zero, zero_div, roundDouble, if_true, Math_round]
  set q : ℚ := (t : ℚ) / s with hqdef
  have htq : (t : ℚ) ≠ 0 := by exact_mod_cast h0
  have hq : q ≠ 0 := div_ne_zero htq hs0
  have htabs : |(t : ℚ)| < 4503599627370496 := by
    have : ((|t| : ℤ) : ℚ) < ((2 ^ 52 : ℤ) : ℚ) := by exact_mod_cast ht
    rw [Int.cast_abs] at this
    calc |(t : ℚ)| < ((2 ^ 52 : ℤ) : ℚ) := this
      _ = 4503599627370496 := by norm_num
  have hqabs : |q| = |(t : ℚ)| / s := by rw [hqdef, abs_div, abs_of_pos hsq]
  have hqle : |q| ≤ |(t : ℚ)| := by
    rw [hqabs]; exact div_le_self (abs_nonneg _) hs1
  have hq52 : |q| < (2 : ℚ) ^ (52 : ℤ) := by
    have : (2 : ℚ) ^ (52 : ℤ) = 4503599627370496 := by norm_num
    rw [this]; linarith
  have hb : |q| ≤ (2 : ℚ) ^ (1023 : ℤ) :=
    le_of_lt (lt_of_lt_of_le hq52 ((two_zpow_le_iff _ _).2 (by norm_num)))
  obtain ⟨r, hr, herr⟩ := roundDouble_spec q hq hb
  rw [hr]
  simp only [Math_round]
  congr 2
  have hu := quantum_pos q
  obtain ⟨he1, he2⟩ := ilog2_spec q hq
  have he : ilog2 q < 52 := ilog2_lt_of_abs_lt q hq 52 hq52
  have herr' := abs_le.1 herr
  -- the exact rounding `k` and the integer inequalities it satisfies
  set k : ℤ := ⌊q + 1 / 2⌋ with hk
  have hk1 : (k : ℚ) ≤ q + 1 / 2 := Int.floor_le _
  have hk2 : q + 1 / 2 < k + 1 := Int.lt_floor_add_one _
  have hgap : (1 : ℚ) ≤ (2 * k + 1) * s - 2 * t := by
    have h1 : (2 * t : ℚ) < (2 * k + 1) * s := by
      have : q * s = t := by rw [hqdef]; field_simp
      nlinarith
    have h2 : (2 * t : ℤ) < (2 * k + 1) * s := by exact_mod_cast h1
    have h3 : (1 : ℤ) ≤ (2 * k + 1) * s - 2 * t := by omega
    exact_mod_cast h3
  rw [Int.floor_eq_iff]
  by_cases hsub : ilog2 q ≤ -1022
  · -- subnormal quotient: everything is tiny
    have hqu : quantum q = (2 : ℚ) ^ (-1074 : ℤ) := by
      unfold quantum; rw [max_eq_right hsub]; norm_num
    have hsmall : |q| < (2 : ℚ) ^ (-2 : ℤ) :=
      lt_of_lt_of_le he2 ((two_zpow_le_iff _ _).2 (by omega))
    have husmall : quantum q ≤ (2 : ℚ) ^ (-2 : ℤ) := by
      rw [hqu]; exact (two_zpow_le_iff _ _).2 (by norm_num)
    have e : (2 : ℚ) ^ (-2 : ℤ) = 1 / 4 := by norm_num
    rw [e] at hsmall husmall
    have hq4 := abs_lt.1 hsmall
    have hk0 : k = 0 := by
      rw [hk, Int.floor_eq_iff]; constructor <;> push_cast <;> linarith [hq4.1, hq4.2]
    rw [hk0]
    constructor <;> push_cast <;> linarith [hq4.1, hq4.2, herr'.1, herr'.2]
  · -- normal quotient
    push_neg at hsub
    have hmax : max (ilog2 q) (-1022) = ilog2 q := max_eq_left (le_of_lt hsub)
    have hqu : quantum q = (2 : ℚ) ^ (ilog2 q - 52) := by unfold quantum; rw [hmax]
    have hule : quantum q * 4503599627370496 ≤ |q| := by
      have : (2 : ℚ) ^ (ilog2 q - 52) * 2 ^ (52 : ℤ) = 2 ^ ilog2 q := by
        rw [← zpow_add₀ (by norm_num)]; congr 1; ring
      have e52 : (2 : ℚ) ^ (52 : ℤ) = 4503599627370496 := by norm_num
      rw [hqu, ← e52, this]; exact he1
    -- half-integers are multiples of the spacing
    obtain ⟨j, hj⟩ : ∃ j : ℕ, ilog2 q - 52 = -((j : ℤ) + 1) :=
      ⟨(51 - ilog2 q).toNat, by omega⟩
    have hquj : quantum q = (2 * (2 : ℚ) ^ j)⁻¹ := by
      rw [hqu, hj, zpow_neg, zpow_add₀ (by norm_num), zpow_natCast]; norm_num [mul_comm]
    have hpj : (0 : ℚ) < 2 ^ j := by positivity
    have hlat : ((2 * k - 1) * 2 ^ j : ℤ) * quantum q = (k : ℚ) - 1 / 2 := by
      rw [hquj]; push_cast; field_simp; ring
    constructor
    · -- lower side: the rounded quotient stays on or above `k - 1/2`
      have h1 : (((2 * k - 1) * 2 ^ j : ℤ) : ℚ) * quantum q - quantum q < r * quantum q := by
        rw [hlat]; linarith [herr'.1]
      have h2 : (((2 * k - 1) * 2 ^ j : ℤ) : ℚ) - 1 < r := by
        by_contra hc
        push_neg at hc
        nlinarith
      have h3 : (2 * k - 1) * 2 ^ j - 1 < r := by exact_mod_cast h2
      have h4 : (2 * k - 1) * 2 ^ j ≤ r := by omega
      have h5 : (((2 * k - 1) * 2 ^ j : ℤ) : ℚ) ≤ r := by exact_mod_cast h4
      have h6 := mul_le_mul_of_nonneg_right h5 (le_of_lt hu)
      rw [hlat] at h6
      linarith
    · -- upper side: the gap to `k + 1/2` exceeds half a spacing
      have hg : quantum q * s < 1 := by
        have h1 : |q| * s = |(t : ℚ)| := by rw [hqabs]; field_simp
        have h2 := mul_le_mul_of_nonneg_right hule (le_of_lt hsq)
        linarith
      have hg2 : 1 / (2 * (s : ℚ)) ≤ (k : ℚ) + 1 / 2 - q := by
        have h1 : q * s = t := by rw [hqdef]; field_simp
        have h2 : ((k : ℚ) + 1 / 2 - q) * (2 * s) = (2 * k + 1) * s - 2 * t := by
          rw [← h1]; ring
        rw [div_le_iff₀ (by positivity), h2]
        exact hgap
      have hg3 : quantum q / 2 < 1 / (2 * (s : ℚ)) := by
        have h1 : quantum q < 1 / s := by rw [lt_div_iff₀ hsq]; exact hg
        have e : 1 / (2 * (s : ℚ)) = (1 / s) / 2 := by field_simp; ring
        rw [e]; linarith
      linarith [herr'.2]

/-! ## The closed form of `nearestUsableTick` on integers -/

theorem Math_max_fin (a b : ℚ) : Math_max (fin a) (fin b) = fin (max a b) := by
  simp only [Math_max, jsLt]
  by_cases h : a < b
  · simp [h, max_eq_right (le_of_lt h)]
  · simp [h, max_eq_left (not_lt.1 h)]

theorem Math_min_fin (a b : ℚ) : Math_min (fin a) (fin b) = fin (min a b) := by
  simp only [Math_min, jsLt]
  by_cases h : b < a
  · simp [h, min_eq_right (le_of_lt h)]
  · simp [h, min_eq_left (not_lt.1 h)]

/-- The exact rounding `⌊t / s + 1/2⌋` of a quotient of integers, in integer
terms: `2 k s ≤ 2 t + s < 2 k s + 2 s`. -/
theorem floor_half_bounds (t s : ℤ) (hs : 0 < s) :
    2 * (⌊(t : ℚ) / s + 1 / 2⌋ * s) ≤ 2 * t + s
      ∧ 2 * t + s < 2 * (⌊(t : ℚ) / s + 1 / 2⌋ * s) + 2 * s := by
  have hsq : (0 : ℚ) < s := by exact_mod_cast hs
  have h1 := Int.floor_le ((t : ℚ) / s + 1 / 2)
  have h2 := Int.lt_floor_add_one ((t : ℚ) / s + 1 / 2)
  set k : ℤ := ⌊(t : ℚ) / s + 1 / 2⌋
  have e : (t : ℚ) / s * s = t := by field_simp
  constructor
  · have : (2 * (k * s) : ℚ) ≤ 2 * t + s := by
      have := mul_le_mul_of_nonneg_right h1 (le_of_lt hsq)
      nlinarith
    exact_mod_cast this
  · have : (2 * t + s : ℚ) < 2 * (k * s) + 2 * s := by
      have := mul_lt_mul_of_pos_right h2 hsq
      nlinarith
    exact_mod_cast this

/-- On an integer tick within bounds and a positive integer spacing,
`nearestUsableTick` returns `⌊tick / spacing + 1/2⌋ * spacing` clamped into
`[MIN_TICK, MAX_TICK]`: the floating-point division and multiplication of the
source introduce no error. -/
theorem nearestUsableTick_int (t s : ℤ) (hlo : MIN_TICK ≤ t) (hhi : t ≤ MAX_TICK)
    (hs : 0 < s) :
    nearestUsableTick (num (fin t)) (num (fin s))
      = .ok (fin ((min (max (⌊(t : ℚ) / s + 1 / 2⌋ * s) MIN_TICK) MAX_TICK : ℤ) : ℚ)) := by
  have hsq : (0 : ℚ) < s := by exact_mod_cast hs
  have hlo' : MIN_TICK ≤ t := hlo
  have hhi' : t ≤ MAX_TICK := hhi
  unfold MIN_TICK at hlo
  unfold MAX_TICK at hhi
  have ht : |t| < 2 ^ 52 := by
    rw [abs_lt]; constructor <;> omega
  obtain ⟨hb1, hb2⟩ := floor_half_bounds t s hs
  set k : ℤ := ⌊(t : ℚ) / s + 1 / 2⌋ with hk
  -- the product `k * s` is an integer below `2 ^ 53`, hence exact
  have hprod : jsMul (fin (k : ℚ)) (fin (s : ℚ)) = fin ((k * s : ℤ) : ℚ) := by
    have hks : |k * s| < 2 ^ 53 := by
      by_cases hbig : 2 * |t| < s
      · have hk0 : k = 0 := by
          have h3 := abs_lt.1 (show |t| < s by linarith [abs_nonneg t])
          have h4 : 2 * t < s ∧ -s < 2 * t := by
            constructor <;> cases abs_cases t <;> omega
          by_contra hne
          rcases lt_or_gt_of_ne hne with hneg | hpos
          · have : k * s ≤ -1 * s := by
              apply mul_le_mul_of_nonneg_right _ (le_of_lt hs); omega
            omega
          · have : 1 * s ≤ k * s := by
              apply mul_le_mul_of_nonneg_right _ (le_of_lt hs); omega
            omega
        rw [hk0]; simp
      · push_neg at hbig
        rw [abs_lt]
        constructor <;> cases abs_cases t <;> omega
    have := roundDouble_intCast (k * s) hks
    simp only [jsMul]
    rw [← this]; push_cast; rfl
  have hnotle : jsLe (fin (s : ℚ)) (fin 0) = false := by
    simp [jsLe, jsLt, hsq]
  have hnotlt : jsLt (fin (t : ℚ)) (fin (MIN_TICK : ℚ)) = false := by
    simp only [jsLt, decide_eq_false_iff_not, not_lt]
    exact_mod_cast hlo'
  have hnotgt : jsGt (fin (t : ℚ)) (fin (MAX_TICK : ℚ)) = false := by
    simp only [jsGt, jsLt, decide_eq_false_iff_not, not_lt]
    exact_mod_cast hhi'
  simp only [nearestUsableTick, nearestUsableTickBody, hnotle, hnotlt, hnotgt,
    Math_round_jsDiv t s ht hs, ← hk, hprod, Math_max_fin, Math_min_fin, rethrow,
    Bool.or_self, Bool.false_eq_true, if_false]
  push_cast
  rfl

/-! ## The claims about `nearestUsableTick` and `isValidTick` -/

/-- C1 (violated by the code): at `tick = MAX_TICK = 887272` and
`tickSpacing = 60` the rounded value `887280` is clamped, and
`nearestUsableTick` returns `887272`, which is not a multiple of `60`; likewise
at `tick = MIN_TICK` it returns `-887272`. -/
theorem nearestUsableTick_clamp_not_multiple :
    nearestUsableTick (num (fin 887272)) (num (fin 60)) = .ok (fin 887272)
      ∧ ¬ ((60 : ℤ) ∣ 887272)
      ∧ nearestUsableTick (num (fin (-887272))) (num (fin 60)) = .ok (fin (-887272))
      ∧ ¬ ((60 : ℤ) ∣ -887272) := by
  decide!

/-- C3: for an integer tick within `[MIN_TICK, MAX_TICK]` and a positive integer
spacing, `nearestUsableTick` succeeds and returns `round(tick / spacing) * spacing`
clamped into `[MIN_TICK, MAX_TICK]`; when the rounded value lies within the
bounds, the result is a multiple of the spacing and no multiple of the spacing
is nearer to the tick. -/
theorem nearestUsableTick_nearest_multiple (t s : ℤ) (hlo : MIN_TICK ≤ t)
    (hhi : t ≤ MAX_TICK) (hs : 0 < s) :
    ∃ m : ℤ, nearestUsableTick (num (fin t)) (num (fin s)) = .ok (fin m)
      ∧ m = min (max (⌊(t : ℚ) / s + 1 / 2⌋ * s) MIN_TICK) MAX_TICK
      ∧ (MIN_TICK ≤ ⌊(t : ℚ) / s + 1 / 2⌋ * s → ⌊(t : ℚ) / s + 1 / 2⌋ * s ≤ MAX_TICK →
          s ∣ m ∧ ∀ m' : ℤ, s ∣ m' → |m - t| ≤ |m' - t|) := by
  refine ⟨_, nearestUsableTick_int t s hlo hhi hs, rfl, ?_⟩
  intro h1 h2
  obtain ⟨hb1, hb2⟩ := floor_half_bounds t s hs
  set k : ℤ := ⌊(t : ℚ) / s + 1 / 2⌋
  rw [max_eq_left h1, min_eq_left h2]
  refine ⟨Dvd.intro_left k rfl, ?_⟩
  rintro m' ⟨c, rfl⟩
  have hc : s * c = c * s := mul_comm s c
  rw [hc]
  rcases lt_trichotomy c k with hlt | heq | hgt
  · have : c * s ≤ (k - 1) * s :=
      mul_le_mul_of_nonneg_right (by omega) (le_of_lt hs)
    have e : (k - 1) * s = k * s - s := by ring
    cases abs_cases (k * s - t) <;> cases abs_cases (c * s - t) <;> omega
  · rw [heq]
  · have : (k + 1) * s ≤ c * s :=
      mul_le_mul_of_nonneg_right (by omega) (le_of_lt hs)
    have e : (k + 1) * s = k * s + s := by ring
    cases abs_cases (k * s - t) <;> cases abs_cases (c * s - t) <;> omega

/-- The examples of C3, obtained from the theorem: `nearestUsableTick(0, 60) = 0`,
`nearestUsableTick(59, 60) = 60` and `nearestUsableTick(29, 60) = 0`. -/
theorem nearestUsableTick_nearest_multiple_witness :
    nearestUsableTick (num (fin 0)) (num (fin 60)) = .ok (fin 0)
      ∧ nearestUsableTick (num (fin 59)) (num (fin 60)) = .ok (fin 60)
      ∧ nearestUsableTick (num (fin 29)) (num (fin 60)) = .ok (fin 0) := by
  refine ⟨?_, ?_, ?_⟩
  · obtain ⟨m, h1, h2, -⟩ :=
      nearestUsableTick_nearest_multiple 0 60 (by decide) (by decide) (by decide)
    have hm : m = 0 := by rw [h2]; decide!
    subst hm; simpa using h1
  · obtain ⟨m, h1, h2, -⟩ :=
      nearestUsableTick_nearest_multiple 59 60 (by decide) (by decide) (by decide)
    have hm : m = 60 := by rw [h2]; decide!
    subst hm; simpa using h1
  · obtain ⟨m, h1, h2, -⟩ :=
      nearestUsableTick_nearest_multiple 29 60 (by decide) (by decide) (by decide)
    have hm : m = 0 := by rw [h2]; decide!
    subst hm; simpa using h1

/-- C4: `isValidTick` is a total predicate, true exactly on the Numbers that are
integers within `[MIN_TICK, MAX_TICK]`; it is false at `MIN_TICK - 1`, at
`MAX_TICK + 1` and on every Number that is not an integer. -/
theorem isValidTick_iff_integer_in_range (v : JSValue) :
    (isValidTick v = true ↔ ∃ t : ℤ, v = num (fin t) ∧ MIN_TICK ≤ t ∧ t ≤ MAX_TICK)
      ∧ isValidTick (num (fin (-887273))) = false
      ∧ isValidTick (num (fin 887273)) = false
      ∧ ∀ x : JSNum, numIsInteger x = false → isValidTick (num x) = false := by
  refine ⟨?_, by decide!, by decide!, ?_⟩
  · constructor
    · intro h
      cases v with
      | num x =>
        cases x with
        | fin q =>
          simp only [isValidTick, Number_isInteger, numIsInteger, jsGe, jsLe, jsLt,
            Bool.and_eq_true, decide_eq_true_eq, Bool.not_eq_true', decide_eq_false_iff_not,
            not_lt] at h
          obtain ⟨hq, h1, h2⟩ := h
          refine ⟨⌊q⌋, by rw [hq], ?_, ?_⟩
          · rw [← hq] at h1; exact_mod_cast h1
          · rw [← hq] at h2; exact_mod_cast h2
        | nan => simp [isValidTick, Number_isInteger, numIsInteger] at h
        | posInf => simp [isValidTick, Number_isInteger, numIsInteger] at h
        | negInf => simp [isValidTick, Number_isInteger, numIsInteger] at h
      | undefined => simp [isValidTick, Number_isInteger] at h
      | null => simp [isValidTick, Number_isInteger] at h
      | boolean b => simp [isValidTick, Number_isInteger] at h
      | str s => simp [isValidTick, Number_isInteger] at h
    · rintro ⟨t, rfl, h1, h2⟩
      simp [isValidTick, Number_isInteger, numIsInteger, jsGe, jsLe, jsLt, h1, h2]
  · intro x hx
    simp [isValidTick, Number_isInteger, hx]

/-! ## Facts about `encodePriceSqrt` -/

/-- A value whose numeric value is a positive finite number is truthy and has a
`toString()`. -/
theorem truthy_of_toNumber_pos (v : JSValue) (q : ℚ) (hv : toNumber v = fin q) (hq : 0 < q) :
    truthy v = true ∧ ∃ s, valueToString v = .ok s := by
  have hq0 : q ≠ 0 := ne_of_gt hq
  cases v with
  | undefined => simp [toNumber] at hv
  | null =>
    simp only [toNumber, fin.injEq] at hv
    exact absurd hv.symm hq0
  | boolean b =>
    cases b with
    | false =>
      simp only [toNumber, Bool.false_eq_true, if_false, fin.injEq] at hv
      exact absurd hv.symm hq0
    | true => exact ⟨rfl, _, rfl⟩
  | num x =>
    simp only [toNumber] at hv
    subst hv
    exact ⟨by simp [truthy, hq0], _, rfl⟩
  | str s =>
    refine ⟨?_, _, rfl⟩
    by_cases he : s.data = []
    · simp only [toNumber, stringToNumber, he, List.dropWhile_nil, List.reverse_nil,
        List.isEmpty_nil, if_true, fin.injEq] at hv
      exact absurd hv.symm hq0
    · simp only [truthy, Bool.not_eq_true', List.isEmpty_eq_false]
      cases hd : s.data with
      | nil => exact absurd hd he
      | cons c cs => simp

/-- With both reserves of positive finite numeric value, `encodePriceSqrt`
passes its validation: it returns `2 ^ 96` when the two texts are equal and the
approximation on the numeric values otherwise. -/
theorem encodePriceSqrt_of_pos (r1 r0 : JSValue) (a b : ℚ) (h1 : toNumber r1 = fin a)
    (h0 : toNumber r0 = fin b) (ha : 0 < a) (hb : 0 < b) :
    encodePriceSqrt r1 r0 = rethrow "Failed to encode sqrt price: "
      (if valueToString r1 = valueToString r0 then .ok (bigIntToString Q96)
       else encodePriceSqrtApprox (fin a) (fin b)) := by
  obtain ⟨ht1, s1, hs1⟩ := truthy_of_toNumber_pos r1 a h1 ha
  obtain ⟨ht0, s0, hs0⟩ := truthy_of_toNumber_pos r0 b h0 hb
  have hle0 : jsLe (fin b) (fin 0) = false := by simp [jsLe, jsLt, hb]
  have hle1 : jsLe (fin a) (fin 0) = false := by simp [jsLe, jsLt, ha]
  simp only [encodePriceSqrt, encodePriceSqrtBody, ht1, ht0, h1, h0, hle0, hle1, hs1, hs0,
    Bool.not_true, Bool.or_self, Bool.false_eq_true, if_false, bind, Except.bind,
    Except.ok.injEq]

theorem bigIntToString_Q96 : bigIntToString Q96 = "79228162514264337593543950336" := by
  decide!

theorem encodePriceSqrtApprox_one :
    encodePriceSqrtApprox (fin 1) (fin 1) = .ok "79228162514264337593543950336" := by
  decide!

/-! ## The claims about `encodePriceSqrt` -/

/-- C2 (counterexample): equal positive decimal strings outside the range of
binary64.  `"1e-400"` converts to `0` and the pair `("1e-400", "1e-400")` is
rejected as not positive; `"1e400"` and `"1E400"` both convert to `Infinity`,
their quotient is `NaN`, and `JSBI.BigInt` refuses it. -/
theorem encodePriceSqrt_equal_decimal_strings_fail :
    toNumber (str "1e-400") = fin 0
      ∧ encodePriceSqrt (str "1e-400") (str "1e-400")
        = .error "Failed to encode sqrt price: Reserves must be positive numbers"
      ∧ toNumber (str "1e400") = posInf
      ∧ toNumber (str "1E400") = posInf
      ∧ encodePriceSqrt (str "1e400") (str "1E400")
        = .error ("Failed to encode sqrt price: The number NaN cannot be converted "
            ++ "to BigInt because it is not an integer") := by
  decide!

/-- C2 (amended): when the two reserves have the same positive finite numeric
value, in whatever representation (number or string), `encodePriceSqrt` returns
exactly the decimal text of `2 ^ 96`. -/
theorem encodePriceSqrt_equal_reserves (r1 r0 : JSValue) (q : ℚ) (hq : 0 < q)
    (h1 : toNumber r1 = fin q) (h0 : toNumber r0 = fin q) :
    encodePriceSqrt r1 r0 = .ok "79228162514264337593543950336" := by
  rw [encodePriceSqrt_of_pos r1 r0 q q h1 h0 hq hq, bigIntToString_Q96]
  have hdiv : jsDiv (fin q) (fin q) = jsDiv (fin 1) (fin 1) := by
    simp [jsDiv, ne_of_gt hq]
  have happrox : encodePriceSqrtApprox (fin q) (fin q) = encodePriceSqrtApprox (fin 1) (fin 1) := by
    simp only [encodePriceSqrtApprox, hdiv]
  rw [happrox, encodePriceSqrtApprox_one]
  split_ifs <;> rfl

/-- The examples of C2, obtained from the theorem: the pairs `(100, 100)`,
`("100", 100)` and `("1.0", 1)`. -/
theorem encodePriceSqrt_equal_reserves_witness :
    encodePriceSqrt (num (fin 100)) (num (fin 100)) = .ok "79228162514264337593543950336"
      ∧ encodePriceSqrt (str "100") (num (fin 100)) = .ok "79228162514264337593543950336"
      ∧ encodePriceSqrt (str "1.0") (num (fin 1)) = .ok "79228162514264337593543950336" :=
  ⟨encodePriceSqrt_equal_reserves _ _ 100 (by norm_num) rfl rfl,
   encodePriceSqrt_equal_reserves _ _ 100 (by norm_num) (by decide!) rfl,
   encodePriceSqrt_equal_reserves _ _ 1 (by norm_num) (by decide!) rfl⟩

theorem roundHalfEven_nonneg (x : ℚ) (hx : 0 ≤ x) : 0 ≤ roundHalfEven x := by
  have hf : 0 ≤ ⌊x⌋ := Int.floor_nonneg.2 hx
  unfold roundHalfEven
  simp only
  split_ifs <;> omega

theorem roundDouble_nonneg (q y : ℚ) (hq : 0 ≤ q) (h : roundDouble q = fin y) : 0 ≤ y := by
  unfold roundDouble at h
  by_cases h0 : q = 0
  · rw [if_pos h0] at h
    simp only [fin.injEq] at h
    linarith
  · rw [if_neg h0] at h
    simp only at h
    have hu := quantum_pos q
    have hr : (0 : ℚ) ≤ (roundHalfEven (q / quantum q) : ℚ) := by
      exact_mod_cast roundHalfEven_nonneg _ (div_nonneg hq (le_of_lt hu))
    split_ifs at h
    simp only [fin.injEq] at h
    rw [← h]
    exact mul_nonneg hr (le_of_lt hu)

theorem sqrtDouble_nonneg (q : ℚ) : 0 ≤ sqrtDouble q := by
  unfold sqrtDouble
  simp only
  positivity

theorem lit_1e12_eq : lit_1e12 = fin ((10 ^ 12 : ℤ) : ℚ) := by decide!

/-- The scaled root `Math.floor(sqrtRatio * 1e12)` of two positive values is
never negative. -/
theorem scaled_root_nonneg (a b : ℚ) (M : ℤ) (ha : 0 < a) (hb : 0 < b)
    (hM : Math_floor (jsMul (Math_sqrt (jsDiv (fin a) (fin b))) lit_1e12) = fin M) :
    0 ≤ M := by
  have hb0 : b ≠ 0 := ne_of_gt hb
  have h12 : lit_1e12 = fin 1000000000000 := by rw [lit_1e12_eq]; norm_num
  rw [h12] at hM
  simp only [jsDiv, if_neg hb0] at hM
  cases hR : roundDouble (a / b) with
  | nan => rw [hR] at hM; simp [Math_sqrt, jsMul, Math_floor] at hM
  | posInf => rw [hR] at hM; simp [Math_sqrt, jsMul, Math_floor] at hM
  | negInf => rw [hR] at hM; simp [Math_sqrt, jsMul, Math_floor] at hM
  | fin y =>
    rw [hR] at hM
    have hy : 0 ≤ y := roundDouble_nonneg _ _ (le_of_lt (div_pos ha hb)) hR
    have hz : ∃ z : ℚ, 0 ≤ z ∧ Math_sqrt (fin y) = fin z := by
      simp only [Math_sqrt, if_neg (not_lt.2 hy)]
      by_cases hy0 : y = 0
      · exact ⟨0, le_rfl, by rw [if_pos hy0]⟩
      · exact ⟨sqrtDouble y, sqrtDouble_nonneg y, by rw [if_neg hy0]⟩
    obtain ⟨z, hz0, hz⟩ := hz
    rw [hz] at hM
    simp only [jsMul] at hM
    cases hW : roundDouble (z * 1000000000000) with
    | nan => rw [hW] at hM; simp [Math_floor] at hM
    | posInf => rw [hW] at hM; simp [Math_floor] at hM
    | negInf => rw [hW] at hM; simp [Math_floor] at hM
    | fin w =>
      rw [hW] at hM
      have hw : 0 ≤ w := roundDouble_nonneg _ _ (by positivity) hW
      simp only [Math_floor, fin.injEq] at hM
      have : (0 : ℤ) ≤ ⌊w⌋ := Int.floor_nonneg.2 hw
      have e : ⌊w⌋ = M := by exact_mod_cast hM
      omega

/-- C9 (counterexample): the positive Numbers `1e300` and `1e-300` are not
textually equal, yet `encodePriceSqrt` returns nothing: the quotient overflows
to `Infinity`, which `JSBI.BigInt` refuses. -/
theorem encodePriceSqrt_overflow_fails :
    encodePriceSqrt (num (roundDouble (10 ^ 300))) (num (roundDouble (1 / 10 ^ 300)))
      = .error ("Failed to encode sqrt price: The number Infinity cannot be converted "
          ++ "to BigInt because it is not an integer") := by
  decide!

/-- C9 (amended): for two reserves of positive finite numeric value that are not
textually equal and whose scaled root `m = Math.floor(Math.sqrt(reserve1 /
reserve0) * 1e12)` is finite, `m` is a non-negative integer and
`encodePriceSqrt` returns the decimal text of `⌊m * 2 ^ 96 / 10 ^ 12⌋`, computed
on integers. -/
theorem encodePriceSqrt_scaled_root (r1 r0 : JSValue) (a b : ℚ) (M : ℤ)
    (h1 : toNumber r1 = fin a) (h0 : toNumber r0 = fin b) (ha : 0 < a) (hb : 0 < b)
    (htxt : valueToString r1 ≠ valueToString r0)
    (hM : Math_floor (jsMul (Math_sqrt (jsDiv (fin a) (fin b))) lit_1e12) = fin M) :
    0 ≤ M ∧ encodePriceSqrt r1 r0 = .ok (bigIntToString (M * 2 ^ 96 / 10 ^ 12)) := by
  have hM0 := scaled_root_nonneg a b M ha hb hM
  refine ⟨hM0, ?_⟩
  rw [encodePriceSqrt_of_pos r1 r0 a b h1 h0 ha hb, if_neg htxt]
  have hbig : JSBI_BigInt (fin (M : ℚ)) = .ok M := by
    simp [JSBI_BigInt]
  have hscale : JSBI_BigInt (fin ((10 ^ 12 : ℤ) : ℚ)) = .ok (10 ^ 12) := by
    simp only [JSBI_BigInt, Int.floor_intCast, if_true]
  have hdiv : JSBI_divide (M * Q96) (10 ^ 12) = .ok (M * 2 ^ 96 / 10 ^ 12) := by
    have hm : (0 : ℤ) ≤ M * Q96 := mul_nonneg hM0 (by unfold Q96; positivity)
    simp only [JSBI_divide, if_neg (show (10 ^ 12 : ℤ) ≠ 0 by norm_num),
      Int.tdiv_eq_ediv hm (show (0 : ℤ) ≤ 10 ^ 12 by norm_num)]
    rfl
  simp only [encodePriceSqrtApprox, hM, hbig, bind, Except.bind, rethrow]
  rw [lit_1e12_eq, hscale]
  simp only [hdiv]

/-- The example of C9 at the reserves `(2, 1)`: the scaled root is
`1414213562373`. -/
theorem encodePriceSqrt_scaled_root_witness :
    (0 : ℤ) ≤ 1414213562373
      ∧ encodePriceSqrt (num (fin 2)) (num (fin 1))
        = .ok (bigIntToString (1414213562373 * 2 ^ 96 / 10 ^ 12)) :=
  encodePriceSqrt_scaled_root (num (fin 2)) (num (fin 1)) 2 1 1414213562373 rfl rfl
    (by norm_num) (by norm_num) (by decide!) (by decide!)

/-! ## The claims about `getTickFromPrice` and `getPriceFromTick` -/

/-- C7 (violated by the code): for the non-numeric string `"abc"`
`getTickFromPrice` does not fail; whatever the host, it returns `NaN`.  The
Number `NaN` itself is rejected. -/
theorem getTickFromPrice_non_numeric_returns_nan (h : Host) :
    getTickFromPrice h (str "abc") = .ok nan
      ∧ getTickFromPrice h (num nan)
        = .error "Failed to convert price to tick: Price must be a positive number" := by
  have hn : toNumber (str "abc") = nan := by decide!
  have ht : truthy (str "abc") = true := by decide
  refine ⟨?_, rfl⟩
  simp only [getTickFromPrice, getTickFromPriceBody, hn, ht, jsLe, Math_log, jsDiv,
    Math_floor, jsLt, jsGt, rethrow, Bool.not_true, Bool.or_self, Bool.false_eq_true,
    if_false]

/-- C6 (counterexample): `nearestUsableTick(1.5, 60)` does not fail; it
returns `0`. -/
theorem nearestUsableTick_accepts_non_integer_tick :
    nearestUsableTick (num (fin (3 / 2))) (num (fin 60)) = .ok (fin 0) := by
  decide!

/-- C6 (amended): neither function rejects a Number for not being an integer.
Every finite Number `x` within `[MIN_TICK, MAX_TICK]` passes the validation of
`getPriceFromTick`, whose result is what `BigNumber` makes of the text of
`Math.floor(Math.pow(1.0001, x) * 1e18)`, and for every positive finite Number
`s` the call `nearestUsableTick(x, s)` succeeds with
`Math.round(x / s) * s` clamped to the bounds; values that are not Numbers are
rejected by both. -/
theorem non_integer_numbers_pass_validation (h : Host) (x s : ℚ)
    (hlo : ((MIN_TICK : ℤ) : ℚ) ≤ x) (hhi : x ≤ ((MAX_TICK : ℤ) : ℚ)) (hs : 0 < s) :
    getPriceFromTick h (num (fin x))
        = rethrow "Failed to convert tick to price: " (h.bigNumber (scaledPriceText h (fin x)))
      ∧ nearestUsableTick (num (fin x)) (num (fin s))
        = .ok (Math_min (Math_max (jsMul (Math_round (jsDiv (fin x) (fin s))) (fin s))
            (fin MIN_TICK)) (fin MAX_TICK))
      ∧ ∀ v : JSValue, (∀ y : JSNum, v ≠ num y) →
          getPriceFromTick h v = .error "Failed to convert tick to price: Tick must be a number"
          ∧ nearestUsableTick v (num (fin s))
            = .error "Failed to find nearest usable tick: Tick and tickSpacing must be numbers"
          ∧ nearestUsableTick (num (fin x)) v
            = .error "Failed to find nearest usable tick: Tick and tickSpacing must be numbers" := by
  have hnotlt : jsLt (fin x) (fin ((MIN_TICK : ℤ) : ℚ)) = false := by
    simp only [jsLt, decide_eq_false_iff_not, not_lt]; exact hlo
  have hnotgt : jsGt (fin x) (fin ((MAX_TICK : ℤ) : ℚ)) = false := by
    simp only [jsGt, jsLt, decide_eq_false_iff_not, not_lt]; exact hhi
  have hnotle : jsLe (fin s) (fin 0) = false := by simp [jsLe, jsLt, hs]
  refine ⟨?_, ?_, ?_⟩
  · simp only [getPriceFromTick, getPriceFromTickBody, hnotlt, hnotgt, Bool.or_self,
      Bool.false_eq_true, if_false]
  · simp only [nearestUsableTick, nearestUsableTickBody, hnotle, hnotlt, hnotgt, rethrow,
      Bool.or_self, Bool.false_eq_true, if_false]
  · intro v hv
    cases v with
    | num y => exact absurd rfl (hv y)
    | undefined => exact ⟨rfl, rfl, rfl⟩
    | null => exact ⟨rfl, rfl, rfl⟩
    | boolean b => exact ⟨rfl, rfl, rfl⟩
    | str t => exact ⟨rfl, rfl, rfl⟩

/-- The examples of C6 on the reference host: `getPriceFromTick(1.5)` passes the
validation and reaches the call of `BigNumber`, on the text
`"1000150003749937500"`, which throws; `nearestUsableTick(1.5, 60)` returns `0`
and `nearestUsableTick(10, 0.5)` returns `10`. -/
theorem non_integer_numbers_pass_validation_witness :
    getPriceFromTick refHost (num (fin (3 / 2)))
        = .error "Failed to convert tick to price: BigNumber is not a function"
      ∧ scaledPriceText refHost (fin (3 / 2)) = "1000150003749937500"
      ∧ nearestUsableTick (num (fin (3 / 2))) (num (fin 60)) = .ok (fin 0)
      ∧ nearestUsableTick (num (fin 10)) (num (fin (1 / 2))) = .ok (fin 10) := by
  obtain ⟨h1, h2, -⟩ := non_integer_numbers_pass_validation refHost (3 / 2) 60
    (by decide!) (by decide!) (by norm_num)
  obtain ⟨-, h3, -⟩ := non_integer_numbers_pass_validation refHost 10 (1 / 2)
    (by decide!) (by decide!) (by norm_num)
  refine ⟨?_, by decide!, ?_, ?_⟩
  · rw [h1]; rfl
  · rw [h2]; decide!
  · rw [h3]; decide!

/-- When the call of `BigNumber` throws, `getPriceFromTick` returns for no
argument: it fails in its validation or in that call. -/
theorem getPriceFromTick_of_bigNumber_error (h : Host) (msg : String)
    (hb : ∀ s, h.bigNumber s = .error msg) (v : JSValue) :
    ∃ e, getPriceFromTick h v = .error e := by
  cases v with
  | num t =>
    simp only [getPriceFromTick, getPriceFromTickBody]
    split_ifs
    · exact ⟨_, rfl⟩
    · rw [hb]; exact ⟨_, rfl⟩
  | undefined => exact ⟨_, rfl⟩
  | null => exact ⟨_, rfl⟩
  | boolean b => exact ⟨_, rfl⟩
  | str s => exact ⟨_, rfl⟩

/-- When the call of `BigNumber` throws, `getPriceFromTick` fails with the
message of that error for every integer tick within the bounds. -/
theorem getPriceFromTick_in_range_bigNumber_error (h : Host) (msg : String)
    (hb : ∀ s, h.bigNumber s = .error msg) (t : ℤ) (hlo : MIN_TICK ≤ t) (hhi : t ≤ MAX_TICK) :
    getPriceFromTick h (num (fin t)) = .error ("Failed to convert tick to price: " ++ msg) := by
  have hnotlt : jsLt (fin (t : ℚ)) (fin ((MIN_TICK : ℤ) : ℚ)) = false := by
    simp only [jsLt, decide_eq_false_iff_not, not_lt]; exact_mod_cast hlo
  have hnotgt : jsGt (fin (t : ℚ)) (fin ((MAX_TICK : ℤ) : ℚ)) = false := by
    simp only [jsGt, jsLt, decide_eq_false_iff_not, not_lt]; exact_mod_cast hhi
  simp only [getPriceFromTick, getPriceFromTickBody, hnotlt, hnotgt, Bool.or_self,
    Bool.false_eq_true, if_false, hb, rethrow]

/-- C5 (counterexample): at `t = 0` the round trip returns no tick.
`getPriceFromTick(0)` throws, because the name `BigNumber` it calls is
`undefined`, and so does the composition.  The 18-decimal text of the price `1`,
which the docstring promises, would not give `0` either: `getTickFromPrice`
returns `414486` for `"1000000000000000000"`. -/
theorem tickRoundTrip_zero_fails :
    getPriceFromTick refHost (num (fin 0))
        = .error "Failed to convert tick to price: BigNumber is not a function"
      ∧ tickRoundTrip refHost 0
        = .error "Failed to convert tick to price: BigNumber is not a function"
      ∧ tickRoundTrip refHost 0 ≠ .ok (fin 0)
      ∧ getTickFromPrice refHost (str "1000000000000000000") = .ok (fin 414486) := by
  decide!

/-- C5 (amended): on a host where the call of `BigNumber` throws, whatever
`Math.log` and `Math.pow` compute, the composition
`getTickFromPrice(getPriceFromTick(t))` returns `t` for no integer `t`: it fails
for every `t`, and for `MIN_TICK ≤ t ≤ MAX_TICK`, so for each of the ticks in
`[-10000, 10000]`, with the error of `getPriceFromTick`, "Failed to convert tick
to price: " followed by the message of the thrown error. -/
theorem tickRoundTrip_never_returns (h : Host) (msg : String)
    (hb : ∀ s, h.bigNumber s = .error msg) (t : ℤ) :
    (MIN_TICK ≤ t → t ≤ MAX_TICK →
        getPriceFromTick h (num (fin t)) = .error ("Failed to convert tick to price: " ++ msg)
        ∧ tickRoundTrip h t = .error ("Failed to convert tick to price: " ++ msg))
      ∧ (∃ e, tickRoundTrip h t = .error e)
      ∧ tickRoundTrip h t ≠ .ok (fin t) := by
  obtain ⟨e, he⟩ := getPriceFromTick_of_bigNumber_error h msg hb (num (fin t))
  have hrt : tickRoundTrip h t = .error e := by
    simp only [tickRoundTrip, he]
  refine ⟨fun hlo hhi => ?_, ⟨e, hrt⟩, by rw [hrt]; simp⟩
  have := getPriceFromTick_in_range_bigNumber_error h msg hb t hlo hhi
  refine ⟨this, ?_⟩
  simp only [tickRoundTrip, this]

/-- The examples of C5 on the reference host, whose `BigNumber` is `undefined`:
the ticks `100`, `-10000` and `10000`. -/
theorem tickRoundTrip_never_returns_witness :
    (getPriceFromTick refHost (num (fin (100 : ℤ)))
        = .error ("Failed to convert tick to price: " ++ "BigNumber is not a function")
      ∧ tickRoundTrip refHost 100
        = .error ("Failed to convert tick to price: " ++ "BigNumber is not a function"))
      ∧ tickRoundTrip refHost (-10000) ≠ .ok (fin ((-10000 : ℤ) : ℚ))
      ∧ tickRoundTrip refHost 10000 ≠ .ok (fin ((10000 : ℤ) : ℚ)) :=
  ⟨(tickRoundTrip_never_returns refHost "BigNumber is not a function" (fun _ => rfl) 100).1
      (by decide) (by decide),
   (tickRoundTrip_never_returns refHost "BigNumber is not a function" (fun _ => rfl)
      (-10000)).2.2,
   (tickRoundTrip_never_returns refHost "BigNumber is not a function" (fun _ => rfl)
      10000).2.2⟩

/-- C8 (violated by the code): at `tick = MAX_TICK = 887272` the Number
`Math.floor(price * 1e18)` is about `3.4e56`, so its `toString()` is the
exponent-notation text `"3.402567868330635e+56"`; that text, not a string of
decimal digits, is what `getPriceFromTick` hands to `BigNumber`. -/
theorem getPriceFromTick_exponent_text :
    scaledPriceText refHost (fin 887272) = "3.402567868330635e+56"
      ∧ getPriceFromTick refHost (num (fin 887272))
        = rethrow "Failed to convert tick to price: "
            (refHost.bigNumber "3.402567868330635e+56") := by
  decide!

/-! ## Rejected inputs -/

/-- A value that is missing, zero or negative is falsy or has a numeric value
that `<= 0` accepts. -/
theorem falsy_or_non_positive (r : JSValue)
    (hr : r = undefined ∨ r = null ∨ r = str "" ∨ toNumber r = negInf
      ∨ ∃ q : ℚ, toNumber r = fin q ∧ q ≤ 0) :
    truthy r = false ∨ jsLe (toNumber r) (fin 0) = true := by
  rcases hr with rfl | rfl | rfl | h | ⟨q, h, hq⟩
  · exact Or.inl rfl
  · exact Or.inl rfl
  · exact Or.inl rfl
  · right; rw [h]; rfl
  · right; rw [h]; simp [jsLe, jsLt, hq]

/-- C11: `encodePriceSqrt` fails whenever one of the reserves is missing
(`undefined`, `null` or the empty string), zero or negative (as a Number or as a
string denoting one), whatever the other reserve is and whichever of the two
positions it is in; the error is one of the two validation errors. -/
theorem encodePriceSqrt_rejects_missing_zero_negative (r other : JSValue)
    (hr : r = undefined ∨ r = null ∨ r = str "" ∨ toNumber r = negInf
      ∨ ∃ q : ℚ, toNumber r = fin q ∧ q ≤ 0) :
    (encodePriceSqrt r other
        = .error "Failed to encode sqrt price: Both reserves must be provided"
      ∨ encodePriceSqrt r other
        = .error "Failed to encode sqrt price: Reserves must be positive numbers")
    ∧ (encodePriceSqrt other r
        = .error "Failed to encode sqrt price: Both reserves must be provided"
      ∨ encodePriceSqrt other r
        = .error "Failed to encode sqrt price: Reserves must be positive numbers") := by
  have h := falsy_or_non_positive r hr
  constructor
  · simp only [encodePriceSqrt, encodePriceSqrtBody]
    cases ht : truthy other <;> cases htr : truthy r <;>
      cases hl : jsLe (toNumber other) (fin 0) <;> cases hlr : jsLe (toNumber r) (fin 0) <;>
      simp_all [rethrow]
  · simp only [encodePriceSqrt, encodePriceSqrtBody]
    cases ht : truthy other <;> cases htr : truthy r <;>
      cases hl : jsLe (toNumber other) (fin 0) <;> cases hlr : jsLe (toNumber r) (fin 0) <;>
      simp_all [rethrow]

/-- The examples of C11: the reserve `"0"` beside `1`, and `-5` beside `"abc"`. -/
theorem encodePriceSqrt_rejects_missing_zero_negative_witness :
    encodePriceSqrt (str "0") (num (fin 1))
        = .error "Failed to encode sqrt price: Reserves must be positive numbers"
      ∧ encodePriceSqrt (str "abc") (num (fin (-5)))
        = .error "Failed to encode sqrt price: Reserves must be positive numbers" := by
  have h1 := (encodePriceSqrt_rejects_missing_zero_negative (str "0") (num (fin 1))
    (Or.inr (Or.inr (Or.inr (Or.inr ⟨0, by decide!, le_rfl⟩))))).1
  have h2 := (encodePriceSqrt_rejects_missing_zero_negative (num (fin (-5))) (str "abc")
    (Or.inr (Or.inr (Or.inr (Or.inr ⟨-5, rfl, by norm_num⟩))))).2
  constructor
  · rcases h1 with h | h
    · exact absurd h (by decide!)
    · exact h
  · rcases h2 with h | h
    · exact absurd h (by decide!)
    · exact h

/-- C13: `getTickFromPrice` fails with "Price must be a positive number" for
every price that is missing (`undefined`, `null` or the empty string) or whose
numeric value is zero or negative, on every host. -/
theorem getTickFromPrice_rejects_missing_or_non_positive (h : Host) (price : JSValue)
    (hp : price = undefined ∨ price = null ∨ price = str "" ∨ toNumber price = negInf
      ∨ ∃ q : ℚ, toNumber price = fin q ∧ q ≤ 0) :
    getTickFromPrice h price
      = .error "Failed to convert price to tick: Price must be a positive number" := by
  have hc := falsy_or_non_positive price hp
  simp only [getTickFromPrice, getTickFromPriceBody]
  cases ht : truthy price <;> cases hl : jsLe (toNumber price) (fin 0) <;>
    simp_all [rethrow]

/-- The examples of C13 on the reference host: the prices `0`, `-3`, `"0"` and
`"-1"`. -/
theorem getTickFromPrice_rejects_missing_or_non_positive_witness :
    getTickFromPrice refHost (num (fin 0))
        = .error "Failed to convert price to tick: Price must be a positive number"
      ∧ getTickFromPrice refHost (num (fin (-3)))
        = .error "Failed to convert price to tick: Price must be a positive number"
      ∧ getTickFromPrice refHost (str "0")
        = .error "Failed to convert price to tick: Price must be a positive number"
      ∧ getTickFromPrice refHost (str "-1")
        = .error "Failed to convert price to tick: Price must be a positive number" :=
  ⟨getTickFromPrice_rejects_missing_or_non_positive refHost _
      (Or.inr (Or.inr (Or.inr (Or.inr ⟨0, rfl, le_rfl⟩)))),
   getTickFromPrice_rejects_missing_or_non_positive refHost _
      (Or.inr (Or.inr (Or.inr (Or.inr ⟨-3, rfl, by norm_num⟩)))),
   getTickFromPrice_rejects_missing_or_non_positive refHost _
      (Or.inr (Or.inr (Or.inr (Or.inr ⟨0, by decide!, le_rfl⟩)))),
   getTickFromPrice_rejects_missing_or_non_positive refHost _
      (Or.inr (Or.inr (Or.inr (Or.inr ⟨-1, by decide!, by norm_num⟩))))⟩

/-- On Numbers, `nearestUsableTick` fails exactly when one of its three guards
fires. -/
theorem nearestUsableTick_error_iff (x y : JSNum) :
    (∃ e, nearestUsableTick (num x) (num y) = .error e)
      ↔ (jsLe y (fin 0) = true ∨ jsLt x (fin MIN_TICK) = true ∨ jsGt x (fin MAX_TICK) = true) := by
  simp only [nearestUsableTick, nearestUsableTickBody]
  cases h1 : jsLe y (fin 0) <;> cases h2 : jsLt x (fin MIN_TICK) <;>
    cases h3 : jsGt x (fin MAX_TICK) <;> simp [rethrow]

/-- C15: for finite Numbers `t` and `s`, `nearestUsableTick(t, s)` fails if and
only if `s <= 0` or `t < MIN_TICK` or `t > MAX_TICK`, and otherwise returns a
value; it fails for the spacings `0` and `-60` and for the ticks `MIN_TICK - 1`
and `MAX_TICK + 1`. -/
theorem nearestUsableTick_fails_iff (t s : ℚ) :
    ((∃ e, nearestUsableTick (num (fin t)) (num (fin s)) = .error e)
        ↔ (s ≤ 0 ∨ t < MIN_TICK ∨ MAX_TICK < t))
      ∧ ((∃ r, nearestUsableTick (num (fin t)) (num (fin s)) = .ok r)
        ↔ (0 < s ∧ (MIN_TICK : ℚ) ≤ t ∧ t ≤ MAX_TICK))
      ∧ nearestUsableTick (num (fin 0)) (num (fin 0))
        = .error "Failed to find nearest usable tick: Tick spacing must be positive"
      ∧ nearestUsableTick (num (fin 0)) (num (fin (-60)))
        = .error "Failed to find nearest usable tick: Tick spacing must be positive"
      ∧ nearestUsableTick (num (fin (-887273))) (num (fin 60))
        = .error "Failed to find nearest usable tick: Tick is out of valid range"
      ∧ nearestUsableTick (num (fin 887273)) (num (fin 60))
        = .error "Failed to find nearest usable tick: Tick is out of valid range" := by
  have hiff : (∃ e, nearestUsableTick (num (fin t)) (num (fin s)) = .error e)
      ↔ (s ≤ 0 ∨ t < MIN_TICK ∨ MAX_TICK < t) := by
    rw [nearestUsableTick_error_iff]
    simp [jsLe, jsLt, jsGt]
  refine ⟨hiff, ?_, by decide!, by decide!, by decide!, by decide!⟩
  constructor
  · rintro ⟨r, hr⟩
    have hne : ¬ (s ≤ 0 ∨ t < MIN_TICK ∨ MAX_TICK < t) := by
      rw [← hiff]
      rintro ⟨e, he⟩
      rw [he] at hr
      cases hr
    push_neg at hne
    exact hne
  · rintro ⟨h1, h2, h3⟩
    have hne : ¬ (∃ e, nearestUsableTick (num (fin t)) (num (fin s)) = .error e) := by
      rw [hiff]
      push_neg
      exact ⟨h1, h2, h3⟩
    cases hres : nearestUsableTick (num (fin t)) (num (fin s)) with
    | ok r => exact ⟨r, rfl⟩
    | error e => exact absurd ⟨e, hres⟩ hne

/-- C16: `getPriceFromTick` fails with "Tick is out of valid range" for every
finite Number below `MIN_TICK` or above `MAX_TICK`, and for the two infinities,
on every host. -/
theorem getPriceFromTick_rejects_out_of_range (h : Host) (t : ℚ)
    (ht : t < MIN_TICK ∨ MAX_TICK < t) :
    getPriceFromTick h (num (fin t))
        = .error "Failed to convert tick to price: Tick is out of valid range"
      ∧ getPriceFromTick h (num negInf)
        = .error "Failed to convert tick to price: Tick is out of valid range"
      ∧ getPriceFromTick h (num posInf)
        = .error "Failed to convert tick to price: Tick is out of valid range" := by
  refine ⟨?_, rfl, rfl⟩
  simp only [getPriceFromTick, getPriceFromTickBody, jsLt, jsGt]
  rcases ht with ht | ht
  · simp [ht, rethrow]
  · simp [ht, rethrow]

/-- The examples of C16 on the reference host: the ticks `-887273` and
`887273`. -/
theorem getPriceFromTick_rejects_out_of_range_witness :
    getPriceFromTick refHost (num (fin (-887273)))
        = .error "Failed to convert tick to price: Tick is out of valid range"
      ∧ getPriceFromTick refHost (num (fin 887273))
        = .error "Failed to convert tick to price: Tick is out of valid range" :=
  ⟨(getPriceFromTick_rejects_out_of_range refHost (-887273) (Or.inl (by decide!))).1,
   (getPriceFromTick_rejects_out_of_range refHost 887273 (Or.inr (by decide!))).1⟩

/-! ## Ties -/

/-- At an exact tie `t = k * (2 * d) + d` between two multiples of the even
spacing `2 * d`, the rounding of `nearestUsableTick` goes up: the result is
`(k + 1) * (2 * d)`, clamped to `MAX_TICK`. -/
theorem nearestUsableTick_tie (k d : ℤ) (hd : 0 < d) (hlo : MIN_TICK ≤ k * (2 * d) + d)
    (hhi : k * (2 * d) + d ≤ MAX_TICK) :
    nearestUsableTick (num (fin ((k * (2 * d) + d : ℤ) : ℚ))) (num (fin ((2 * d : ℤ) : ℚ)))
      = .ok (fin ((min ((k + 1) * (2 * d)) MAX_TICK : ℤ) : ℚ)) := by
  have hs : (0 : ℤ) < 2 * d := by omega
  rw [nearestUsableTick_int _ _ hlo hhi hs]
  have hdq : (d : ℚ) ≠ 0 := by exact_mod_cast (ne_of_gt hd)
  have hfl : ⌊((k * (2 * d) + d : ℤ) : ℚ) / ((2 * d : ℤ) : ℚ) + 1 / 2⌋ = k + 1 := by
    have : ((k * (2 * d) + d : ℤ) : ℚ) / ((2 * d : ℤ) : ℚ) + 1 / 2 = ((k + 1 : ℤ) : ℚ) := by
      push_cast; field_simp; ring
    rw [this, Int.floor_intCast]
  rw [hfl]
  have hge : MIN_TICK ≤ (k + 1) * (2 * d) := by
    have : (k + 1) * (2 * d) = k * (2 * d) + d + d := by ring
    omega
  rw [max_eq_left hge]

/-- C17 (counterexample): `nearestUsableTick(-30, 60)` returns `0`, not `-60`. -/
theorem nearestUsableTick_negative_tie :
    nearestUsableTick (num (fin (-30))) (num (fin 60)) = .ok (fin 0)
      ∧ nearestUsableTick (num (fin (-30))) (num (fin 60)) ≠ .ok (fin (-60)) := by
  decide!

/-- C17 (amended): at an exact tie `tick = k * s + s / 2` of an even spacing
`s = 2 * d`, with `(k + 1) * s` not above `MAX_TICK`, the result is `(k + 1) * s`
whatever the sign of the tick: the rounding goes towards `+∞`, so for a negative
tick the result is not the multiple `k * s` away from zero. -/
theorem nearestUsableTick_tie_rounds_up (k d : ℤ) (hd : 0 < d)
    (hlo : MIN_TICK ≤ k * (2 * d) + d) (hhi : k * (2 * d) + d ≤ MAX_TICK)
    (hup : (k + 1) * (2 * d) ≤ MAX_TICK) :
    nearestUsableTick (num (fin ((k * (2 * d) + d : ℤ) : ℚ))) (num (fin ((2 * d : ℤ) : ℚ)))
        = .ok (fin (((k + 1) * (2 * d) : ℤ) : ℚ))
      ∧ nearestUsableTick (num (fin ((k * (2 * d) + d : ℤ) : ℚ))) (num (fin ((2 * d : ℤ) : ℚ)))
        ≠ .ok (fin ((k * (2 * d) : ℤ) : ℚ)) := by
  have h := nearestUsableTick_tie k d hd hlo hhi
  rw [min_eq_left hup] at h
  refine ⟨h, ?_⟩
  rw [h]
  intro hc
  simp only [Except.ok.injEq, fin.injEq] at hc
  have hc' : (k + 1) * (2 * d) = k * (2 * d) := by exact_mod_cast hc
  have : (k + 1) * (2 * d) = k * (2 * d) + 2 * d := by ring
  omega

/-- The examples of C17: `nearestUsableTick(30, 60) = 60` and
`nearestUsableTick(-30, 60) = 0`. -/
theorem nearestUsableTick_tie_rounds_up_witness :
    nearestUsableTick (num (fin 30)) (num (fin 60)) = .ok (fin 60)
      ∧ nearestUsableTick (num (fin (-30))) (num (fin 60)) = .ok (fin 0) := by
  have h1 := (nearestUsableTick_tie_rounds_up 0 30 (by decide) (by decide) (by decide)
    (by decide)).1
  have h2 := (nearestUsableTick_tie_rounds_up (-1) 30 (by decide) (by decide) (by decide)
    (by decide)).1
  constructor
  · norm_num at h1; exact h1
  · norm_num at h2; exact h2

/-! ## Further claims about `encodePriceSqrt`, `getTickFromPrice` and `getPriceFromTick` -/

/-- C12 (violated by the code): for the reserves `("abc", "abc")` the call does
not fail; the two texts are equal and `encodePriceSqrt` returns `2 ^ 96`.  With
`"abc"` beside `1`, in either position, it fails in `JSBI.BigInt`. -/
theorem encodePriceSqrt_non_numeric_equal_texts :
    encodePriceSqrt (str "abc") (str "abc") = .ok "79228162514264337593543950336"
      ∧ encodePriceSqrt (str "abc") (num (fin 1))
        = .error ("Failed to encode sqrt price: The number NaN cannot be converted "
            ++ "to BigInt because it is not an integer")
      ∧ encodePriceSqrt (num (fin 1)) (str "abc")
        = .error ("Failed to encode sqrt price: The number NaN cannot be converted "
            ++ "to BigInt because it is not an integer") := by
  decide!

/-- A value whose numeric value is greater than zero is truthy, and the `<= 0`
test rejects it not. -/
theorem truthy_of_toNumber_gt (v : JSValue) (hv : jsGt (toNumber v) (fin 0) = true) :
    truthy v = true ∧ jsLe (toNumber v) (fin 0) = false := by
  have hle : jsLe (toNumber v) (fin 0) = false := by
    cases hx : toNumber v with
    | nan => rfl
    | posInf => rfl
    | negInf => rw [hx] at hv; simp [jsGt, jsLt] at hv
    | fin q =>
      rw [hx] at hv
      have hq : 0 < q := by simpa [jsGt, jsLt] using hv
      simp [jsLe, jsLt, hq]
  refine ⟨?_, hle⟩
  cases v with
  | undefined => simp [toNumber, jsGt, jsLt] at hv
  | null => simp [toNumber, jsGt, jsLt] at hv
  | boolean b =>
    cases b with
    | false => simp [toNumber, jsGt, jsLt] at hv
    | true => rfl
  | num x =>
    cases x with
    | nan => simp [toNumber, jsGt, jsLt] at hv
    | posInf => rfl
    | negInf => simp [toNumber, jsGt, jsLt] at hv
    | fin q =>
      have hq : 0 < q := by simpa [toNumber, jsGt, jsLt] using hv
      simp [truthy, ne_of_gt hq]
  | str s =>
    by_cases he : s.data = []
    · simp [toNumber, stringToNumber, he, jsGt, jsLt] at hv
    · simp only [truthy, Bool.not_eq_true', List.isEmpty_eq_false]
      cases hd : s.data with
      | nil => exact absurd hd he
      | cons c cs => simp

/-- C14: for a price whose numeric value is greater than zero and whose computed
tick `Math.floor(Math.log(price) / Math.log(1.0001))` is below `MIN_TICK` or
above `MAX_TICK`, `getTickFromPrice` fails with "Price is out of valid tick
range", on every host; and a tick it does return, for whatever price, is the
computed one, never a clamped one. -/
theorem getTickFromPrice_out_of_range_fails (h : Host) (price : JSValue)
    (hpos : jsGt (toNumber price) (fin 0) = true)
    (hout : jsLt (Math_floor (jsDiv (Math_log h (toNumber price)) (Math_log h lit_1_0001)))
          (fin MIN_TICK) = true
      ∨ jsGt (Math_floor (jsDiv (Math_log h (toNumber price)) (Math_log h lit_1_0001)))
          (fin MAX_TICK) = true) :
    getTickFromPrice h price
        = .error "Failed to convert price to tick: Price is out of valid tick range"
      ∧ ∀ (v : JSValue) (r : JSNum), getTickFromPrice h v = .ok r →
          r = Math_floor (jsDiv (Math_log h (toNumber v)) (Math_log h lit_1_0001)) := by
  constructor
  · obtain ⟨ht, hle⟩ := truthy_of_toNumber_gt price hpos
    simp only [getTickFromPrice, getTickFromPriceBody, ht, hle, Bool.not_true,
      Bool.or_self, Bool.false_eq_true, if_false]
    rcases hout with ho | ho
    · simp [ho, rethrow]
    · simp [ho, rethrow]
  · intro v r hr
    simp only [getTickFromPrice, getTickFromPriceBody] at hr
    split_ifs at hr with h1 h2
    · simp [rethrow] at hr
    · simp [rethrow] at hr
    · simp only [rethrow, Except.ok.injEq] at hr
      exact hr.symm

/-- The examples of C14 on the reference host: the prices `2 ^ 130` (about
`1.36e39`, computed tick `901136`), `2 ^ (-130)` and `Infinity` are rejected. -/
theorem getTickFromPrice_out_of_range_fails_witness :
    getTickFromPrice refHost (num (fin (2 ^ 130)))
        = .error "Failed to convert price to tick: Price is out of valid tick range"
      ∧ getTickFromPrice refHost (num (fin (1 / 2 ^ 130)))
        = .error "Failed to convert price to tick: Price is out of valid tick range"
      ∧ getTickFromPrice refHost (num posInf)
        = .error "Failed to convert price to tick: Price is out of valid tick range" :=
  ⟨(getTickFromPrice_out_of_range_fails refHost (num (fin (2 ^ 130))) (by decide!)
      (Or.inr (by decide!))).1,
   (getTickFromPrice_out_of_range_fails refHost (num (fin (1 / 2 ^ 130))) (by decide!)
      (Or.inl (by decide!))).1,
   (getTickFromPrice_out_of_range_fails refHost (num posInf) (by decide!)
      (Or.inr (by decide!))).1⟩

/-- C19: on every host whose `Math.log(1.0001)` is a finite Number other than
zero, `getTickFromPrice` returns exactly `0` for the Number `1` and for the
string `"1"`. -/
theorem getTickFromPrice_one (h : Host) (L : ℚ) (hL : Math_log h lit_1_0001 = fin L)
    (hL0 : L ≠ 0) :
    getTickFromPrice h (num (fin 1)) = .ok (fin 0)
      ∧ getTickFromPrice h (str "1") = .ok (fin 0) := by
  have hs : toNumber (str "1") = fin 1 := by decide!
  have hts : truthy (str "1") = true := by decide
  have htn : truthy (num (fin 1)) = true := by decide
  have hle : jsLe (fin 1) (fin 0) = false := by decide
  have hlog : Math_log h (fin 1) = fin 0 := by simp [Math_log]
  have hdiv : jsDiv (fin 0) (fin L) = fin 0 := by simp [jsDiv, hL0, roundDouble]
  have hfl : Math_floor (fin 0) = fin 0 := by simp [Math_floor]
  have h1 : jsLt (fin 0) (fin MIN_TICK) = false := by decide
  have h2 : jsGt (fin 0) (fin MAX_TICK) = false := by decide
  constructor
  · simp only [getTickFromPrice, getTickFromPriceBody, htn, toNumber, hle, hlog, hL, hdiv,
      hfl, h1, h2, rethrow, Bool.not_true, Bool.or_self, Bool.false_eq_true, if_false]
  · simp only [getTickFromPrice, getTickFromPriceBody, hts, hs, hle, hlog, hL, hdiv,
      hfl, h1, h2, rethrow, Bool.not_true, Bool.or_self, Bool.false_eq_true, if_false]

/-- The reference host satisfies the condition of C19: its `Math.log(1.0001)`
is `7378328719195348 / 2 ^ 66`, about `9.9995e-5`. -/
theorem getTickFromPrice_one_witness :
    Math_log refHost lit_1_0001 = fin (7378328719195348 / 2 ^ 66)
      ∧ getTickFromPrice refHost (num (fin 1)) = .ok (fin 0)
      ∧ getTickFromPrice refHost (str "1") = .ok (fin 0) :=
  ⟨by decide!, getTickFromPrice_one refHost (7378328719195348 / 2 ^ 66) (by decide!)
    (by norm_num)⟩

theorem lit_1_0001_eq : lit_1_0001 = fin (4504049987333233 / 2 ^ 52) := by decide!

/-- For a price of positive finite numeric value whose computed quotient
`Math.log(price) / Math.log(1.0001)` is a finite Number `q`, `getTickFromPrice`
returns `⌊q⌋` when that lies within the bounds and fails otherwise. -/
theorem getTickFromPrice_of_quotient (h : Host) (price : JSValue) (p q : ℚ)
    (hp : toNumber price = fin p) (hpos : 0 < p)
    (hq : jsDiv (Math_log h (fin p)) (Math_log h lit_1_0001) = fin q) :
    getTickFromPrice h price
      = (if MIN_TICK ≤ ⌊q⌋ ∧ ⌊q⌋ ≤ MAX_TICK then .ok (fin (⌊q⌋ : ℤ))
         else .error "Failed to convert price to tick: Price is out of valid tick range") := by
  obtain ⟨ht, -⟩ := truthy_of_toNumber_pos price p hp hpos
  have hle : jsLe (fin p) (fin 0) = false := by simp [jsLe, jsLt, hpos]
  simp only [getTickFromPrice, getTickFromPriceBody, ht, hp, hle, hq, Math_floor,
    Bool.not_true, Bool.or_self, Bool.false_eq_true, if_false, jsLt, jsGt, Bool.or_eq_true,
    decide_eq_true_eq]
  by_cases h1 : MIN_TICK ≤ ⌊q⌋
  · by_cases h2 : ⌊q⌋ ≤ MAX_TICK
    · have a1 : ¬ ((⌊q⌋ : ℚ) < ((MIN_TICK : ℤ) : ℚ)) := by
        rw [not_lt]; exact_mod_cast h1
      have a2 : ¬ (((MAX_TICK : ℤ) : ℚ) < (⌊q⌋ : ℚ)) := by
        rw [not_lt]; exact_mod_cast h2
      rw [if_neg (by tauto), if_pos ⟨h1, h2⟩]; rfl
    · have a2 : (((MAX_TICK : ℤ) : ℚ) < (⌊q⌋ : ℚ)) := by
        exact_mod_cast not_le.1 h2
      rw [if_pos (Or.inr a2), if_neg (by tauto)]; rfl
  · have a1 : ((⌊q⌋ : ℚ) < ((MIN_TICK : ℤ) : ℚ)) := by
      exact_mod_cast not_le.1 h1
    rw [if_pos (Or.inl a1), if_neg (by tauto)]; rfl

/-- C10 (counterexample): the price `1.0001`, as a Number or as a string.  The
Number the literal denotes, `4504049987333233 / 2 ^ 52`, lies below `1.0001`,
so its exact tick is `0`; `getTickFromPrice` divides `Math.log(price)` by
itself and returns `1`. -/
theorem getTickFromPrice_literal_not_exact :
    toNumber (str "1.0001") = fin (4504049987333233 / 2 ^ 52)
      ∧ getTickFromPrice refHost (num (fin (4504049987333233 / 2 ^ 52))) = .ok (fin 1)
      ∧ getTickFromPrice refHost (str "1.0001") = .ok (fin 1)
      ∧ isExactTick 1 (4504049987333233 / 2 ^ 52) = false
      ∧ isExactTick 0 (4504049987333233 / 2 ^ 52) = true := by
  decide!

/-- C10 (amended): for a price of positive finite numeric value `p` whose
quotient `Math.log(p) / Math.log(1.0001)`, computed in double precision, is a
finite Number `q`: `getTickFromPrice` succeeds exactly when `⌊q⌋` lies within
`[MIN_TICK, MAX_TICK]`, and the tick it returns is `⌊q⌋`, the integer with
`⌊q⌋ ≤ q < ⌊q⌋ + 1` for the computed `q`.  That tick need not be the exact one:
for the Number `1.0001` it is `1` on every such host, although `1.0001 ^ 1`
exceeds that Number, whose exact tick is `0`. -/
theorem getTickFromPrice_floor_of_computed_quotient (h : Host) (price : JSValue) (p q : ℚ)
    (hp : toNumber price = fin p) (hpos : 0 < p)
    (hq : jsDiv (Math_log h (fin p)) (Math_log h lit_1_0001) = fin q) :
    (MIN_TICK ≤ ⌊q⌋ → ⌊q⌋ ≤ MAX_TICK → getTickFromPrice h price = .ok (fin (⌊q⌋ : ℤ)))
      ∧ (∀ t : JSNum, getTickFromPrice h price = .ok t →
          t = fin (⌊q⌋ : ℤ) ∧ MIN_TICK ≤ ⌊q⌋ ∧ ⌊q⌋ ≤ MAX_TICK
            ∧ ((⌊q⌋ : ℤ) : ℚ) ≤ q ∧ q < ((⌊q⌋ : ℤ) : ℚ) + 1)
      ∧ (fin p = lit_1_0001 →
          getTickFromPrice h price = .ok (fin 1) ∧ isExactTick 1 p = false
            ∧ isExactTick 0 p = true) := by
  have hgen := getTickFromPrice_of_quotient h price p q hp hpos hq
  refine ⟨fun h1 h2 => by rw [hgen, if_pos ⟨h1, h2⟩], fun t ht => ?_, fun hlit => ?_⟩
  · rw [hgen] at ht
    by_cases hr : MIN_TICK ≤ ⌊q⌋ ∧ ⌊q⌋ ≤ MAX_TICK
    · rw [if_pos hr] at ht
      simp only [Except.ok.injEq] at ht
      exact ⟨ht.symm, hr.1, hr.2, Int.floor_le q, Int.lt_floor_add_one q⟩
    · rw [if_neg hr] at ht
      simp at ht
  · have hpe : p = 4504049987333233 / 2 ^ 52 := by
      have := hlit.trans lit_1_0001_eq
      simpa using this
    have hq1 : q = 1 := by
      rw [← hlit] at hq
      cases hL : Math_log h (fin p) with
      | nan => rw [hL] at hq; simp [jsDiv] at hq
      | posInf => rw [hL] at hq; simp [jsDiv] at hq
      | negInf => rw [hL] at hq; simp [jsDiv] at hq
      | fin L =>
        rw [hL] at hq
        by_cases hL0 : L = 0
        · subst hL0; simp [jsDiv] at hq
        · have h1 : roundDouble 1 = fin 1 := by decide!
          simp only [jsDiv, if_neg hL0, div_self hL0, h1, fin.injEq] at hq
          exact hq.symm
    refine ⟨?_, ?_, ?_⟩
    · rw [hgen, hq1]
      decide
    · rw [hpe]; decide!
    · rw [hpe]; decide!

/-- The examples of C10 on the reference host: for the price `2` the computed
quotient is `3810807451600313 / 2 ^ 39`, about `6931.82`, and the tick `6931`;
for the Number `1.0001` the tick is `1`. -/
theorem getTickFromPrice_floor_of_computed_quotient_witness :
    getTickFromPrice refHost (num (fin 2)) = .ok (fin ((6931 : ℤ) : ℚ))
      ∧ getTickFromPrice refHost (num lit_1_0001) = .ok (fin 1) := by
  have h2 := (getTickFromPrice_floor_of_computed_quotient refHost (num (fin 2)) 2
    (3810807451600313 / 549755813888) rfl (by norm_num) (by decide!)).1
  have hf : ⌊(3810807451600313 / 549755813888 : ℚ)⌋ = 6931 := by decide!
  rw [hf] at h2
  have h1 := (getTickFromPrice_floor_of_computed_quotient refHost (num lit_1_0001)
    (4504049987333233 / 2 ^ 52) 1 (by decide!) (by norm_num) (by decide!)).2.2 (by decide!)
  exact ⟨h2 (by decide) (by decide), h1.1⟩

/-- C18 (violated by the code): `getPriceFromTick` succeeds at neither bound.
The name `BigNumber` it calls is `undefined`, and at `MAX_TICK` as at `MIN_TICK`
the call throws; the function fails with "Failed to convert tick to price:
BigNumber is not a function". -/
theorem getPriceFromTick_extreme_ticks :
    getPriceFromTick refHost (num (fin 887272))
        = .error "Failed to convert tick to price: BigNumber is not a function"
      ∧ getPriceFromTick refHost (num (fin (-887272)))
        = .error "Failed to convert tick to price: BigNumber is not a function" := by
  decide!

/-! ## The shape of the result of `encodePriceSqrt` -/

theorem digitChar_isDigit : ∀ d : ℕ, d < 10 → (Nat.digitChar d).isDigit = true := by
  decide

theorem toDigitsCore_isDigit (fuel : ℕ) : ∀ (n : ℕ) (ds : List Char),
    (∀ c ∈ ds, c.isDigit = true) → ∀ c ∈ Nat.toDigitsCore 10 fuel n ds, c.isDigit = true := by
  induction fuel with
  | zero => intro n ds hds c hc; exact hds c (by simpa [Nat.toDigitsCore] using hc)
  | succ fuel ih =>
    intro n ds hds c hc
    have hd : (Nat.digitChar (n % 10)).isDigit = true :=
      digitChar_isDigit _ (Nat.mod_lt _ (by norm_num))
    have hds' : ∀ c ∈ Nat.digitChar (n % 10) :: ds, c.isDigit = true := by
      intro c hc
      rcases List.mem_cons.1 hc with rfl | h
      · exact hd
      · exact hds c h
    simp only [Nat.toDigitsCore] at hc
    split_ifs at hc
    · exact hds' c hc
    · exact ih _ _ hds' c hc

theorem toDigitsCore_ne_nil (fuel : ℕ) : ∀ (n : ℕ) (ds : List Char),
    ds ≠ [] → Nat.toDigitsCore 10 fuel n ds ≠ [] := by
  induction fuel with
  | zero => intro n ds hds; simpa [Nat.toDigitsCore] using hds
  | succ fuel ih =>
    intro n ds _
    simp only [Nat.toDigitsCore]
    split_ifs
    · simp
    · exact ih _ _ (by simp)

/-- The text of a natural number is a non-empty string of decimal digits. -/
theorem natToString_digits (n : ℕ) :
    (natToString n).data ≠ [] ∧ ∀ c ∈ (natToString n).data, c.isDigit = true := by
  constructor
  · show Nat.toDigitsCore 10 (n + 1) n [] ≠ []
    simp only [Nat.toDigitsCore]
    split_ifs
    · simp
    · exact toDigitsCore_ne_nil _ _ _ (by simp)
  · exact toDigitsCore_isDigit _ _ _ (by simp)

theorem bigIntToString_of_nonneg (z : ℤ) (hz : 0 ≤ z) :
    bigIntToString z = natToString z.natAbs := by
  simp [bigIntToString, not_lt.2 hz]

/-- The approximation branch on two positive finite values whose scaled root is
the integer `M`. -/
theorem encodePriceSqrtApprox_of_floor (a b : ℚ) (M : ℤ)
    (hM : Math_floor (jsMul (Math_sqrt (jsDiv (fin a) (fin b))) lit_1e12) = fin M)
    (hM0 : 0 ≤ M) :
    encodePriceSqrtApprox (fin a) (fin b) = .ok (natToString (M * 2 ^ 96 / 10 ^ 12).natAbs) := by
  have hbig : JSBI_BigInt (fin (M : ℚ)) = .ok M := by
    simp [JSBI_BigInt]
  have hscale : JSBI_BigInt (fin ((10 ^ 12 : ℤ) : ℚ)) = .ok (10 ^ 12) := by
    simp only [JSBI_BigInt, Int.floor_intCast, if_true]
  have hm : (0 : ℤ) ≤ M * Q96 := mul_nonneg hM0 (by unfold Q96; positivity)
  have hdiv : JSBI_divide (M * Q96) (10 ^ 12) = .ok (M * 2 ^ 96 / 10 ^ 12) := by
    simp only [JSBI_divide, if_neg (show (10 ^ 12 : ℤ) ≠ 0 by norm_num),
      Int.tdiv_eq_ediv hm (show (0 : ℤ) ≤ 10 ^ 12 by norm_num)]
    rfl
  have hres : (0 : ℤ) ≤ M * 2 ^ 96 / 10 ^ 12 :=
    Int.ediv_nonneg (mul_nonneg hM0 (by positivity)) (by norm_num)
  simp only [encodePriceSqrtApprox, hM, hbig, bind, Except.bind]
  rw [lit_1e12_eq, hscale]
  simp only [hdiv, bigIntToString_of_nonneg _ hres]

theorem Math_floor_eq_fin (x : JSNum) (w : ℚ) (h : Math_floor x = fin w) :
    ∃ M : ℤ, w = (M : ℚ) := by
  cases x with
  | fin q =>
    simp only [Math_floor, fin.injEq] at h
    exact ⟨⌊q⌋, h.symm⟩
  | nan => simp [Math_floor] at h
  | posInf => simp [Math_floor] at h
  | negInf => simp [Math_floor] at h

theorem JSBI_BigInt_ok (x : JSNum) (m : ℤ) (h : JSBI_BigInt x = .ok m) :
    ∃ w : ℚ, x = fin w := by
  cases x with
  | fin q => exact ⟨q, rfl⟩
  | nan => simp [JSBI_BigInt] at h
  | posInf => simp [JSBI_BigInt] at h
  | negInf => simp [JSBI_BigInt] at h

/-- Whatever the approximation branch returns for two values that passed the
`<= 0` test is the text of a natural number. -/
theorem encodePriceSqrtApprox_unsigned (n1 n0 : JSNum) (s : String)
    (h0 : jsLe n0 (fin 0) = false) (h1 : jsLe n1 (fin 0) = false)
    (hs : encodePriceSqrtApprox n1 n0 = .ok s) : ∃ n : ℕ, s = natToString n := by
  -- the scaled root is a finite Number, since `JSBI.BigInt` accepted it
  have hfin : ∃ w : ℚ, Math_floor (jsMul (Math_sqrt (jsDiv n1 n0)) lit_1e12) = fin w := by
    cases hb : JSBI_BigInt (Math_floor (jsMul (Math_sqrt (jsDiv n1 n0)) lit_1e12)) with
    | ok m => exact JSBI_BigInt_ok _ m hb
    | error e =>
      simp only [encodePriceSqrtApprox, hb, bind, Except.bind] at hs
      cases hs
  obtain ⟨w, hw⟩ := hfin
  obtain ⟨M, rfl⟩ := Math_floor_eq_fin _ w hw
  have h12 : lit_1e12 = fin 1000000000000 := by rw [lit_1e12_eq]; norm_num
  cases n1 with
  | nan => simp [jsDiv, Math_sqrt, jsMul, Math_floor] at hw
  | negInf => simp [jsLe, jsLt] at h1
  | posInf =>
    cases n0 with
    | nan => simp [jsDiv, Math_sqrt, jsMul, Math_floor] at hw
    | negInf => simp [jsLe, jsLt] at h0
    | posInf => rw [h12] at hw; simp [jsDiv, Math_sqrt, jsMul, Math_floor] at hw
    | fin b =>
      have hb : 0 < b := by simpa [jsLe, jsLt] using h0
      rw [h12] at hw
      simp [jsDiv, not_lt.2 (le_of_lt hb), Math_sqrt, jsMul, Math_floor] at hw
  | fin a =>
    have ha : 0 < a := by simpa [jsLe, jsLt] using h1
    cases n0 with
    | nan => simp [jsDiv, Math_sqrt, jsMul, Math_floor] at hw
    | negInf => simp [jsLe, jsLt] at h0
    | posInf =>
      have hM : M = 0 := by
        rw [h12] at hw
        simp [jsDiv, Math_sqrt, jsMul, Math_floor, roundDouble] at hw
        exact_mod_cast hw.symm
      subst hM
      refine ⟨0, ?_⟩
      have hz : encodePriceSqrtApprox (fin a) posInf = .ok (natToString 0) := by
        have hfl : Math_floor (jsMul (Math_sqrt (jsDiv (fin a) posInf)) lit_1e12)
            = fin ((0 : ℤ) : ℚ) := hw
        have hbig : JSBI_BigInt (fin ((0 : ℤ) : ℚ)) = .ok 0 := by simp [JSBI_BigInt]
        have hscale : JSBI_BigInt (fin ((10 ^ 12 : ℤ) : ℚ)) = .ok (10 ^ 12) := by
          simp only [JSBI_BigInt, Int.floor_intCast, if_true]
        simp only [encodePriceSqrtApprox, hfl, hbig, bind, Except.bind]
        rw [lit_1e12_eq, hscale]
        simp [JSBI_divide, bigIntToString]
      rw [hz] at hs
      exact (Except.ok.inj hs).symm
    | fin b =>
      have hb : 0 < b := by simpa [jsLe, jsLt] using h0
      have hM0 := scaled_root_nonneg a b M ha hb hw
      rw [encodePriceSqrtApprox_of_floor a b M hw hM0] at hs
      exact ⟨_, (Except.ok.inj hs).symm⟩

theorem valueToString_of_truthy (v : JSValue) (h : truthy v = true) :
    ∃ s, valueToString v = .ok s := by
  cases v with
  | undefined => simp [truthy] at h
  | null => simp [truthy] at h
  | boolean b => exact ⟨_, rfl⟩
  | num x => exact ⟨_, rfl⟩
  | str s => exact ⟨_, rfl⟩

/-- C20: whenever `encodePriceSqrt` returns, whatever the two arguments, the
returned text is that of a natural number: a non-empty string of decimal
digits, with no sign, fraction or exponent. -/
theorem encodePriceSqrt_result_unsigned (r1 r0 : JSValue) (s : String)
    (hs : encodePriceSqrt r1 r0 = .ok s) :
    (∃ n : ℕ, s = natToString n) ∧ s.data ≠ [] ∧ ∀ c ∈ s.data, c.isDigit = true := by
  have hnat : ∃ n : ℕ, s = natToString n := by
    simp only [encodePriceSqrt, encodePriceSqrtBody] at hs
    cases ht0 : truthy r0 with
    | false => simp [ht0, rethrow] at hs
    | true =>
      cases ht1 : truthy r1 with
      | false => simp [ht0, ht1, rethrow] at hs
      | true =>
        cases hl0 : jsLe (toNumber r0) (fin 0) with
        | true => simp [ht0, ht1, hl0, rethrow] at hs
        | false =>
          cases hl1 : jsLe (toNumber r1) (fin 0) with
          | true => simp [ht0, ht1, hl0, hl1, rethrow] at hs
          | false =>
            obtain ⟨s1, hs1⟩ := valueToString_of_truthy r1 ht1
            obtain ⟨s0, hs0⟩ := valueToString_of_truthy r0 ht0
            simp only [ht0, ht1, hl0, hl1, hs1, hs0, Bool.not_true, Bool.or_self,
              Bool.false_eq_true, if_false, bind, Except.bind] at hs
            by_cases heq : s1 = s0
            · rw [if_pos heq] at hs
              simp only [rethrow, Except.ok.injEq] at hs
              refine ⟨Q96.natAbs, ?_⟩
              rw [← hs, bigIntToString_of_nonneg Q96 (by unfold Q96; positivity)]
            · rw [if_neg heq] at hs
              cases happ : encodePriceSqrtApprox (toNumber r1) (toNumber r0) with
              | error e => rw [happ] at hs; simp [rethrow] at hs
              | ok s' =>
                rw [happ] at hs
                simp only [rethrow, Except.ok.injEq] at hs
                subst hs
                exact encodePriceSqrtApprox_unsigned _ _ _ hl0 hl1 happ
  obtain ⟨n, rfl⟩ := hnat
  exact ⟨⟨n, rfl⟩, natToString_digits n⟩

/-- The examples of C20: the results for the reserves `(2, 1)` and `(1, 1)`. -/
theorem encodePriceSqrt_result_unsigned_witness :
    ((∃ n : ℕ, "112045541949564749295556896130" = natToString n)
        ∧ "112045541949564749295556896130".data ≠ []
        ∧ ∀ c ∈ "112045541949564749295556896130".data, c.isDigit = true)
      ∧ ((∃ n : ℕ, "79228162514264337593543950336" = natToString n)
        ∧ "79228162514264337593543950336".data ≠ []
        ∧ ∀ c ∈ "79228162514264337593543950336".data, c.isDigit = true) :=
  ⟨encodePriceSqrt_result_unsigned (num (fin 2)) (num (fin 1)) _ (by decide!),
   encodePriceSqrt_result_unsigned (num (fin 1)) (num (fin 1)) _ (by decide!)⟩

/-! ## Floor and ceiling of a floating-point quotient of integers -/

/-- The binary64 quotient of an integer `t` of magnitude below `2 ^ 52` by a
positive integer `s ≤ 2 ^ 20` compares with every integer as the exact
quotient does. -/
theorem jsDiv_int_cmp (t s : ℤ) (ht : |t| < 2 ^ 52) (hs : 0 < s) (hs2 : s ≤ 2 ^ 20) :
    ∃ y : ℚ, jsDiv (fin t) (fin s) = fin y
      ∧ ∀ N : ℤ, ((N : ℚ) ≤ y ↔ (N : ℚ) ≤ (t : ℚ) / s) ∧ (y ≤ (N : ℚ) ↔ (t : ℚ) / s ≤ (N : ℚ)) := by
  have hsq : (0 : ℚ) < s := by exact_mod_cast hs
  have hs1 : (1 : ℚ) ≤ s := by exact_mod_cast hs
  have hs0 : (s : ℚ) ≠ 0 := ne_of_gt hsq
  have hs2q : (s : ℚ) ≤ 1048576 := by
    have : ((s : ℤ) : ℚ) ≤ ((2 ^ 20 : ℤ) : ℚ) := by exact_mod_cast hs2
    calc (s : ℚ) ≤ ((2 ^ 20 : ℤ) : ℚ) := this
      _ = 1048576 := by norm_num
  simp only [jsDiv, if_neg hs0]
  by_cases h0 : t = 0
  · subst h0
    refine ⟨0, by simp [roundDouble], fun N => ?_⟩
    simp
  set q : ℚ := (t : ℚ) / s with hqdef
  have htq : (t : ℚ) ≠ 0 := by exact_mod_cast h0
  have hq : q ≠ 0 := div_ne_zero htq hs0
  have htabs : |(t : ℚ)| < 4503599627370496 := by
    have : ((|t| : ℤ) : ℚ) < ((2 ^ 52 : ℤ) : ℚ) := by exact_mod_cast ht
    rw [Int.cast_abs] at this
    calc |(t : ℚ)| < ((2 ^ 52 : ℤ) : ℚ) := this
      _ = 4503599627370496 := by norm_num
  have ht1 : (1 : ℚ) ≤ |(t : ℚ)| := by
    have : (1 : ℤ) ≤ |t| := Int.one_le_abs h0
    have : ((1 : ℤ) : ℚ) ≤ ((|t| : ℤ) : ℚ) := by exact_mod_cast this
    rw [Int.cast_abs] at this
    simpa using this
  have hqabs : |q| = |(t : ℚ)| / s := by rw [hqdef, abs_div, abs_of_pos hsq]
  have hqle : |q| ≤ |(t : ℚ)| := by
    rw [hqabs]; exact div_le_self (abs_nonneg _) hs1
  have hq52 : |q| < (2 : ℚ) ^ (52 : ℤ) := by
    have : (2 : ℚ) ^ (52 : ℤ) = 4503599627370496 := by norm_num
    rw [this]; linarith
  have hb : |q| ≤ (2 : ℚ) ^ (1023 : ℤ) :=
    le_of_lt (lt_of_lt_of_le hq52 ((two_zpow_le_iff _ _).2 (by norm_num)))
  obtain ⟨r, hr, herr⟩ := roundDouble_spec q hq hb
  refine ⟨(r : ℚ) * quantum q, hr, ?_⟩
  have hu := quantum_pos q
  obtain ⟨he1, he2⟩ := ilog2_spec q hq
  have he : ilog2 q < 52 := ilog2_lt_of_abs_lt q hq 52 hq52
  have herr' := abs_le.1 herr
  -- the quotient is a normal number
  have hqlow : (2 : ℚ) ^ (-20 : ℤ) ≤ |q| := by
    have e : (2 : ℚ) ^ (-20 : ℤ) = 1 / 1048576 := by norm_num
    rw [e, hqabs, div_le_div_iff₀ (by norm_num) hsq]
    nlinarith
  have hnorm : -1022 < ilog2 q := by
    have := (two_zpow_lt_iff _ _).1 (lt_of_le_of_lt hqlow he2)
    omega
  have hmax : max (ilog2 q) (-1022) = ilog2 q := max_eq_left (le_of_lt hnorm)
  have hqu : quantum q = (2 : ℚ) ^ (ilog2 q - 52) := by unfold quantum; rw [hmax]
  have hule : quantum q * 4503599627370496 ≤ |q| := by
    have : (2 : ℚ) ^ (ilog2 q - 52) * 2 ^ (52 : ℤ) = 2 ^ ilog2 q := by
      rw [← zpow_add₀ (by norm_num)]; congr 1; ring
    have e52 : (2 : ℚ) ^ (52 : ℤ) = 4503599627370496 := by norm_num
    rw [hqu, ← e52, this]; exact he1
  have hg : quantum q * s < 1 := by
    have h1 : |q| * s = |(t : ℚ)| := by rw [hqabs]; field_simp
    have h2 := mul_le_mul_of_nonneg_right hule (le_of_lt hsq)
    linarith
  have hg3 : quantum q / 2 < 1 / (2 * (s : ℚ)) := by
    have h1 : quantum q < 1 / s := by rw [lt_div_iff₀ hsq]; exact hg
    have e : 1 / (2 * (s : ℚ)) = (1 / s) / 2 := by field_simp; ring
    rw [e]; linarith
  have hqs : q * s = t := by rw [hqdef]; field_simp
  -- integers are multiples of the spacing
  obtain ⟨j, hj⟩ : ∃ j : ℕ, ilog2 q - 52 = -(j : ℤ) := ⟨(52 - ilog2 q).toNat, by omega⟩
  have hquj : quantum q = ((2 : ℚ) ^ j)⁻¹ := by rw [hqu, hj, zpow_neg, zpow_natCast]
  have hpj : (0 : ℚ) < 2 ^ j := by positivity
  intro N
  have hlat : ((N * 2 ^ j : ℤ) : ℚ) * quantum q = (N : ℚ) := by
    rw [hquj]; push_cast; field_simp
  have hup : (N : ℚ) ≤ q → (N : ℚ) ≤ (r : ℚ) * quantum q := by
    intro hNq
    have h1 : ((N * 2 ^ j : ℤ) : ℚ) * quantum q - quantum q < r * quantum q := by
      rw [hlat]; linarith [herr'.1]
    have h2 : ((N * 2 ^ j : ℤ) : ℚ) - 1 < r := by
      by_contra hc
      push_neg at hc
      nlinarith
    have h3 : N * 2 ^ j - 1 < r := by exact_mod_cast h2
    have h4 : N * 2 ^ j ≤ r := by omega
    have h5 : ((N * 2 ^ j : ℤ) : ℚ) ≤ r := by exact_mod_cast h4
    have h6 := mul_le_mul_of_nonneg_right h5 (le_of_lt hu)
    rw [hlat] at h6
    exact h6
  have hdown : q ≤ (N : ℚ) → (r : ℚ) * quantum q ≤ (N : ℚ) := by
    intro hNq
    have h1 : (r : ℚ) * quantum q < ((N * 2 ^ j : ℤ) : ℚ) * quantum q + quantum q := by
      rw [hlat]; linarith [herr'.2]
    have h2 : (r : ℚ) < ((N * 2 ^ j : ℤ) : ℚ) + 1 := by
      by_contra hc
      push_neg at hc
      nlinarith
    have h3 : r < N * 2 ^ j + 1 := by exact_mod_cast h2
    have h4 : r ≤ N * 2 ^ j := by omega
    have h5 : (r : ℚ) ≤ ((N * 2 ^ j : ℤ) : ℚ) := by exact_mod_cast h4
    have h6 := mul_le_mul_of_nonneg_right h5 (le_of_lt hu)
    rw [hlat] at h6
    exact h6
  have hlt : q < (N : ℚ) → (r : ℚ) * quantum q < (N : ℚ) := by
    intro hNq
    have h1 : (t : ℚ) < N * s := by rw [← hqs]; exact mul_lt_mul_of_pos_right hNq hsq
    have h2 : t < N * s := by exact_mod_cast h1
    have h3 : (1 : ℤ) ≤ N * s - t := by omega
    have h4 : (1 : ℚ) ≤ N * s - t := by exact_mod_cast h3
    have h5 : 1 / (2 * (s : ℚ)) < (N : ℚ) - q := by
      have e : ((N : ℚ) - q) * (2 * s) = 2 * (N * s - t) := by rw [← hqs]; ring
      rw [div_lt_iff₀ (by positivity), e]
      linarith
    linarith [herr'.2]
  have hgt : (N : ℚ) < q → (N : ℚ) < (r : ℚ) * quantum q := by
    intro hNq
    have h1 : (N : ℚ) * s < t := by rw [← hqs]; exact mul_lt_mul_of_pos_right hNq hsq
    have h2 : N * s < t := by exact_mod_cast h1
    have h3 : (1 : ℤ) ≤ t - N * s := by omega
    have h4 : (1 : ℚ) ≤ t - N * s := by exact_mod_cast h3
    have h5 : 1 / (2 * (s : ℚ)) < q - (N : ℚ) := by
      have e : (q - (N : ℚ)) * (2 * s) = 2 * (t - N * s) := by rw [← hqs]; ring
      rw [div_lt_iff₀ (by positivity), e]
      linarith
    linarith [herr'.1]
  constructor
  · constructor
    · intro hy
      by_contra hc
      exact absurd hy (not_le.2 (hlt (not_le.1 hc)))
    · exact hup
  · constructor
    · intro hy
      by_contra hc
      exact absurd hy (not_le.2 (hgt (not_le.1 hc)))
    · exact hdown

theorem Math_floor_jsDiv (t s : ℤ) (ht : |t| < 2 ^ 52) (hs : 0 < s) (hs2 : s ≤ 2 ^ 20) :
    Math_floor (jsDiv (fin t) (fin s)) = fin ((⌊(t : ℚ) / s⌋ : ℤ) : ℚ) := by
  obtain ⟨y, hy, hcmp⟩ := jsDiv_int_cmp t s ht hs hs2
  rw [hy]
  simp only [Math_floor]
  congr 2
  apply eq_of_forall_le_iff
  intro N
  rw [Int.le_floor, Int.le_floor]
  exact (hcmp N).1

theorem Math_ceil_jsDiv (t s : ℤ) (ht : |t| < 2 ^ 52) (hs : 0 < s) (hs2 : s ≤ 2 ^ 20) :
    Math_ceil (jsDiv (fin t) (fin s)) = fin ((⌈(t : ℚ) / s⌉ : ℤ) : ℚ) := by
  obtain ⟨y, hy, hcmp⟩ := jsDiv_int_cmp t s ht hs hs2
  rw [hy]
  simp only [Math_ceil]
  congr 2
  apply eq_of_forall_ge_iff
  intro N
  rw [Int.ceil_le, Int.ceil_le]
  exact (hcmp N).2

/-! ## Constants and algebraic properties of `nearestUsableTick` -/

/-- C21: the constants have the documented values. -/
theorem constants_values :
    MIN_TICK = -887272 ∧ MAX_TICK = 887272 ∧ MIN_TICK = -MAX_TICK
      ∧ Q96 = 2 ^ 96 ∧ Q96 = 79228162514264337593543950336
      ∧ Q192 = Q96 * Q96 ∧ Q192 = 2 ^ 192 := by
  refine ⟨rfl, rfl, rfl, rfl, by norm_num [Q96], ?_, ?_⟩
  · simp only [Q192]; ring
  · simp only [Q192, Q96]; norm_num

/-- The integer `nearestUsableTick` returns for an integer tick and a positive
integer spacing. -/
theorem snap_mono (s t1 t2 : ℤ) (h : t1 ≤ t2) (hs : 0 < s) :
    min (max (⌊(t1 : ℚ) / s + 1 / 2⌋ * s) MIN_TICK) MAX_TICK
      ≤ min (max (⌊(t2 : ℚ) / s + 1 / 2⌋ * s) MIN_TICK) MAX_TICK := by
  have hsq : (0 : ℚ) < s := by exact_mod_cast hs
  have hq : (t1 : ℚ) / s + 1 / 2 ≤ (t2 : ℚ) / s + 1 / 2 := by
    have : (t1 : ℚ) ≤ t2 := by exact_mod_cast h
    have := div_le_div_of_nonneg_right this (le_of_lt hsq)
    linarith
  have hk := Int.floor_le_floor hq
  have hks := mul_le_mul_of_nonneg_right hk (le_of_lt hs)
  exact min_le_min (max_le_max hks le_rfl) le_rfl

theorem floor_multiple (c s : ℤ) (hs : 0 < s) :
    ⌊((c * s : ℤ) : ℚ) / s + 1 / 2⌋ = c := by
  have hsq : (s : ℚ) ≠ 0 := by exact_mod_cast (ne_of_gt hs)
  have e : ((c * s : ℤ) : ℚ) / s + 1 / 2 = (c : ℚ) + 1 / 2 := by
    push_cast; field_simp
  rw [e, Int.floor_eq_iff]
  constructor <;> linarith

theorem snap_in_range (x : ℤ) :
    MIN_TICK ≤ min (max x MIN_TICK) MAX_TICK ∧ min (max x MIN_TICK) MAX_TICK ≤ MAX_TICK := by
  refine ⟨le_min (le_max_right _ _) (by decide), min_le_right _ _⟩

/-- C22: for an integer tick within bounds and a positive integer spacing, the
call succeeds, and applying `nearestUsableTick` to its result with the same
spacing succeeds and returns that result again, clamped or not. -/
theorem nearestUsableTick_idempotent (t s : ℤ) (hlo : MIN_TICK ≤ t) (hhi : t ≤ MAX_TICK)
    (hs : 0 < s) :
    ∃ r : ℤ, nearestUsableTick (num (fin t)) (num (fin s)) = .ok (fin r)
      ∧ nearestUsableTick (num (fin r)) (num (fin s)) = .ok (fin r) := by
  refine ⟨_, nearestUsableTick_int t s hlo hhi hs, ?_⟩
  set k : ℤ := ⌊(t : ℚ) / s + 1 / 2⌋ with hk
  obtain ⟨hr1, hr2⟩ := snap_in_range (k * s)
  rw [nearestUsableTick_int _ s hr1 hr2 hs]
  congr 3
  by_cases h1 : k * s < MIN_TICK
  · -- clamped to `MIN_TICK`
    have e : min (max (k * s) MIN_TICK) MAX_TICK = MIN_TICK := by
      rw [max_eq_right (le_of_lt h1)]; exact min_eq_left (by decide)
    rw [e]
    have hm := snap_mono s MIN_TICK t hlo hs
    rw [← hk, e] at hm
    exact le_antisymm hm (snap_in_range _).1
  · by_cases h2 : MAX_TICK < k * s
    · -- clamped to `MAX_TICK`
      have e : min (max (k * s) MIN_TICK) MAX_TICK = MAX_TICK := by
        rw [max_eq_left (le_of_lt (lt_of_le_of_lt (by decide) h2))]
        exact min_eq_right (le_of_lt h2)
      rw [e]
      have hm := snap_mono s t MAX_TICK hhi hs
      rw [← hk, e] at hm
      exact le_antisymm (snap_in_range _).2 hm
    · -- not clamped
      push_neg at h1 h2
      have e : min (max (k * s) MIN_TICK) MAX_TICK = k * s := by
        rw [max_eq_left h1, min_eq_left h2]
      rw [e, floor_multiple k s hs, e]

/-- The example of C22: `nearestUsableTick(887272, 60)` is the clamped value
`887272`, which `nearestUsableTick` returns again. -/
theorem nearestUsableTick_idempotent_witness :
    nearestUsableTick (num (fin 887272)) (num (fin 60)) = .ok (fin 887272) := by
  obtain ⟨r, h1, h2⟩ :=
    nearestUsableTick_idempotent 887272 60 (by decide) (by decide) (by decide)
  have hr : r = 887272 := by
    have h3 : nearestUsableTick (num (fin ((887272 : ℤ) : ℚ))) (num (fin ((60 : ℤ) : ℚ)))
        = .ok (fin 887272) := by decide!
    rw [h3] at h1
    simp only [Except.ok.injEq, fin.injEq] at h1
    exact_mod_cast h1.symm
  subst hr
  norm_num at h2
  exact h2

/-- C23: at an exact tie `tick = k * s + s / 2` of an even positive spacing `s`,
with the tick within bounds and `(k + 1) * s` not above `MAX_TICK`, the result
is `(k + 1) * s`: the rounding goes towards `+∞`. -/
theorem nearestUsableTick_half_up (k s : ℤ) (hs : 0 < s) (heven : s % 2 = 0)
    (hlo : MIN_TICK ≤ k * s + s / 2) (hhi : k * s + s / 2 ≤ MAX_TICK)
    (hup : (k + 1) * s ≤ MAX_TICK) :
    nearestUsableTick (num (fin ((k * s + s / 2 : ℤ) : ℚ))) (num (fin (s : ℚ)))
      = .ok (fin (((k + 1) * s : ℤ) : ℚ)) := by
  obtain ⟨d, rfl⟩ : ∃ d : ℤ, s = 2 * d := ⟨s / 2, by omega⟩
  have hd : 0 < d := by omega
  have e : 2 * d / 2 = d := by omega
  rw [e] at hlo hhi ⊢
  have h := nearestUsableTick_tie k d hd hlo hhi
  rw [min_eq_left hup] at h
  exact h

/-- The examples of C23: `nearestUsableTick(30, 60) = 60` and
`nearestUsableTick(-30, 60) = 0`. -/
theorem nearestUsableTick_half_up_witness :
    nearestUsableTick (num (fin 30)) (num (fin 60)) = .ok (fin 60)
      ∧ nearestUsableTick (num (fin (-30))) (num (fin 60)) = .ok (fin 0) := by
  have h1 := nearestUsableTick_half_up 0 60 (by decide) (by decide) (by decide) (by decide)
    (by decide)
  have h2 := nearestUsableTick_half_up (-1) 60 (by decide) (by decide) (by decide) (by decide)
    (by decide)
  constructor
  · norm_num at h1; exact h1
  · norm_num at h2; exact h2

/-- C24: an integer tick within bounds that is a multiple of the positive
integer spacing is returned unchanged. -/
theorem nearestUsableTick_fixes_multiples (t s : ℤ) (hlo : MIN_TICK ≤ t) (hhi : t ≤ MAX_TICK)
    (hs : 0 < s) (hdvd : s ∣ t) :
    nearestUsableTick (num (fin t)) (num (fin s)) = .ok (fin t) := by
  rw [nearestUsableTick_int t s hlo hhi hs]
  obtain ⟨c, rfl⟩ := hdvd
  have e : s * c = c * s := mul_comm s c
  rw [e] at hlo hhi ⊢
  rw [floor_multiple c s hs, max_eq_left hlo, min_eq_left hhi]

/-- The examples of C24: with spacing `1` the ticks `MIN_TICK`, `-5` and
`MAX_TICK` come back unchanged, and so does `120` with spacing `60`. -/
theorem nearestUsableTick_fixes_multiples_witness :
    nearestUsableTick (num (fin (-887272))) (num (fin 1)) = .ok (fin (-887272))
      ∧ nearestUsableTick (num (fin (-5))) (num (fin 1)) = .ok (fin (-5))
      ∧ nearestUsableTick (num (fin 887272)) (num (fin 1)) = .ok (fin 887272)
      ∧ nearestUsableTick (num (fin 120)) (num (fin 60)) = .ok (fin 120) := by
  have h1 := nearestUsableTick_fixes_multiples (-887272) 1 (by decide) (by decide) (by decide)
    (one_dvd _)
  have h2 := nearestUsableTick_fixes_multiples (-5) 1 (by decide) (by decide) (by decide)
    (one_dvd _)
  have h3 := nearestUsableTick_fixes_multiples 887272 1 (by decide) (by decide) (by decide)
    (one_dvd _)
  have h4 := nearestUsableTick_fixes_multiples 120 60 (by decide) (by decide) (by decide)
    (by decide)
  refine ⟨?_, ?_, ?_, ?_⟩
  · norm_num at h1; exact h1
  · norm_num at h2; exact h2
  · norm_num at h3; exact h3
  · norm_num at h4; exact h4

/-- C25: for a positive integer spacing and integer ticks `t1 ≤ t2` within
bounds, both calls succeed and the result for `t1` is at most the result for
`t2`. -/
theorem nearestUsableTick_monotone (s t1 t2 : ℤ) (hs : 0 < s) (h12 : t1 ≤ t2)
    (hlo : MIN_TICK ≤ t1) (hhi : t2 ≤ MAX_TICK) :
    ∃ r1 r2 : ℤ, nearestUsableTick (num (fin t1)) (num (fin s)) = .ok (fin r1)
      ∧ nearestUsableTick (num (fin t2)) (num (fin s)) = .ok (fin r2)
      ∧ r1 ≤ r2 :=
  ⟨_, _, nearestUsableTick_int t1 s hlo (le_trans h12 hhi) hs,
    nearestUsableTick_int t2 s (le_trans hlo h12) hhi hs, snap_mono s t1 t2 h12 hs⟩

/-- The example of C25: the ticks `-1054` and `954` with spacing `60`. -/
theorem nearestUsableTick_monotone_witness :
    ∃ r1 r2 : ℤ, nearestUsableTick (num (fin ((-1054 : ℤ) : ℚ))) (num (fin ((60 : ℤ) : ℚ)))
        = .ok (fin r1)
      ∧ nearestUsableTick (num (fin ((954 : ℤ) : ℚ))) (num (fin ((60 : ℤ) : ℚ))) = .ok (fin r2)
      ∧ r1 ≤ r2 :=
  nearestUsableTick_monotone 60 (-1054) 954 (by decide) (by decide) (by decide) (by decide)

/-! ## Vanishing results of `encodePriceSqrt` -/

/-- C26 (counterexample): the reserves `(1e-24, 1)`.  The Number `1e-24` is
`5444517870735015 / 2 ^ 132`, below `10 ^ (-24)`, so the ratio is below
`10 ^ (-24)`; yet the scaled root computed in double precision is `1`, and the
result is `"79228162514264337"`, not `"0"`. -/
theorem encodePriceSqrt_below_threshold_positive :
    roundDouble (1 / 10 ^ 24) = fin (5444517870735015 / 2 ^ 132)
      ∧ (5444517870735015 / 2 ^ 132 : ℚ) / 1 < 1 / 10 ^ 24
      ∧ Math_floor (jsMul (Math_sqrt (jsDiv (fin (5444517870735015 / 2 ^ 132)) (fin 1)))
          lit_1e12) = fin 1
      ∧ encodePriceSqrt (num (fin (5444517870735015 / 2 ^ 132))) (num (fin 1))
        = .ok "79228162514264337" := by
  decide!

/-- C26 (amended): for two reserves of positive finite numeric value that are
not textually equal, with scaled root `m = Math.floor(Math.sqrt(reserve1 /
reserve0) * 1e12)` as computed in double precision: when `m = 0` the result is
the string `"0"`, and when `m ≥ 1` the result is the text of a strictly positive
integer. -/
theorem encodePriceSqrt_zero_or_positive (r1 r0 : JSValue) (a b : ℚ) (M : ℤ)
    (h1 : toNumber r1 = fin a) (h0 : toNumber r0 = fin b) (ha : 0 < a) (hb : 0 < b)
    (htxt : valueToString r1 ≠ valueToString r0)
    (hM : Math_floor (jsMul (Math_sqrt (jsDiv (fin a) (fin b))) lit_1e12) = fin M) :
    (M = 0 → encodePriceSqrt r1 r0 = .ok "0")
      ∧ (1 ≤ M → ∃ n : ℕ, 0 < n ∧ encodePriceSqrt r1 r0 = .ok (natToString n)) := by
  have hM0 := scaled_root_nonneg a b M ha hb hM
  have hres : encodePriceSqrt r1 r0 = .ok (natToString (M * 2 ^ 96 / 10 ^ 12).natAbs) := by
    rw [encodePriceSqrt_of_pos r1 r0 a b h1 h0 ha hb, if_neg htxt,
      encodePriceSqrtApprox_of_floor a b M hM hM0]
    rfl
  constructor
  · intro hz
    rw [hres, hz]
    decide!
  · intro hpos
    refine ⟨(M * 2 ^ 96 / 10 ^ 12).natAbs, ?_, hres⟩
    have h2 : (1 : ℤ) ≤ M * 2 ^ 96 / 10 ^ 12 := by
      rw [Int.le_ediv_iff_mul_le (by norm_num)]
      nlinarith
    omega

/-- The examples of C26: the reserves `(1, 1e25)` give `"0"`, and the reserves
`(2, 1)`, with scaled root `1414213562373`, give a positive integer. -/
theorem encodePriceSqrt_zero_or_positive_witness :
    encodePriceSqrt (num (fin 1)) (num (fin 10000000000000000905969664)) = .ok "0"
      ∧ ∃ n : ℕ, 0 < n ∧ encodePriceSqrt (num (fin 2)) (num (fin 1)) = .ok (natToString n) :=
  ⟨(encodePriceSqrt_zero_or_positive (num (fin 1)) (num (fin 10000000000000000905969664))
      1 10000000000000000905969664 0 rfl rfl (by norm_num) (by norm_num) (by decide!)
      (by decide!)).1 rfl,
   (encodePriceSqrt_zero_or_positive (num (fin 2)) (num (fin 1)) 2 1 1414213562373 rfl rfl
      (by norm_num) (by norm_num) (by decide!) (by decide!)).2 (by norm_num)⟩

/-! ## The claims about `katanaConfig.js` and `createPool.js` -/

/-- C27 (counterexample): with the configured fee value `3000`, ticks
`-60 < 60`, a positive amount and a deadline in the future, the result is
`{isValid: false, errors: ['Invalid fee tier']}`: `3000 in FEE_TIERS` looks for
a property named `"3000"`, and the properties are named `LOWEST`, `LOW`,
`MEDIUM` and `HIGH`. -/
theorem validatePositionParams_fee_3000_invalid :
    KatanaConfig.validatePositionParams 1700000000000
        { fee := num (fin 3000), tickLower := fin (-60), tickUpper := fin 60,
          amount0Desired := 1, amount1Desired := 0, deadline := fin 2000000000 }
      = { isValid := false, errors := ["Invalid fee tier"] } := by
  decide!

/-- The four tier names are properties of `FEE_TIERS`. -/
theorem hasProperty_fee_names :
    ∀ v ∈ [str "LOWEST", str "LOW", str "MEDIUM", str "HIGH"],
      hasProperty KatanaConfig.FEE_TIERS (toStr v) = true := by
  decide!

/-- The four fee values, as Numbers or as strings, name no property of
`FEE_TIERS`. -/
theorem hasProperty_fee_values :
    ∀ v ∈ [num (fin 100), num (fin 500), num (fin 3000), num (fin 10000),
        str "100", str "500", str "3000", str "10000"],
      hasProperty KatanaConfig.FEE_TIERS (toStr v) = false := by
  decide!

/-- C27 (amended): `validatePositionParams` accepts the names of the fee tiers,
not their values.  For params with `tickLower < tickUpper`, a positive amount
and a deadline later than the current time in seconds, the result is
`{isValid: true, errors: []}` when `params.fee` is `'LOWEST'`, `'LOW'`,
`'MEDIUM'` or `'HIGH'`, and `{isValid: false, errors: ['Invalid fee tier']}`
when it is one of the fee values `100`, `500`, `3000`, `10000`, as a Number or
as a string; in general it is the former exactly when the fee, as a property
key, names a property of `FEE_TIERS`, own or inherited.  For all params the
errors contain "Invalid fee tier" exactly when it names none, and `isValid` is
true exactly when there are no errors. -/
theorem validatePositionParams_accepts_tier_names (nowMs : ℤ)
    (p : KatanaConfig.PositionParams)
    (hticks : jsLt p.tickLower p.tickUpper = true)
    (hamount : 0 < p.amount0Desired ∨ 0 < p.amount1Desired)
    (hdeadline : jsGt p.deadline (Math_floor (jsDiv (fin nowMs) (fin 1000))) = true) :
    (p.fee ∈ [str "LOWEST", str "LOW", str "MEDIUM", str "HIGH"] →
        KatanaConfig.validatePositionParams nowMs p = { isValid := true, errors := [] })
      ∧ (p.fee ∈ [num (fin 100), num (fin 500), num (fin 3000), num (fin 10000),
            str "100", str "500", str "3000", str "10000"] →
        KatanaConfig.validatePositionParams nowMs p
          = { isValid := false, errors := ["Invalid fee tier"] })
      ∧ KatanaConfig.validatePositionParams nowMs p
          = (if hasProperty KatanaConfig.FEE_TIERS (toStr p.fee)
             then { isValid := true, errors := [] }
             else { isValid := false, errors := ["Invalid fee tier"] })
      ∧ ∀ (n : ℤ) (p' : KatanaConfig.PositionParams),
          ("Invalid fee tier" ∈ (KatanaConfig.validatePositionParams n p').errors
            ↔ hasProperty KatanaConfig.FEE_TIERS (toStr p'.fee) = false)
          ∧ ((KatanaConfig.validatePositionParams n p').isValid = true
            ↔ (KatanaConfig.validatePositionParams n p').errors = []) := by
  have hamt : (decide (p.amount0Desired > 0) || decide (p.amount1Desired > 0)) = true := by
    rcases hamount with h | h <;> simp [h]
  have hgen : KatanaConfig.validatePositionParams nowMs p
      = (if hasProperty KatanaConfig.FEE_TIERS (toStr p.fee)
         then { isValid := true, errors := [] }
         else { isValid := false, errors := ["Invalid fee tier"] }) := by
    cases hf : hasProperty KatanaConfig.FEE_TIERS (toStr p.fee) <;>
      simp [KatanaConfig.validatePositionParams, hf, hticks, hamt, hdeadline, List.filter_cons]
  refine ⟨fun hfee => ?_, fun hfee => ?_, hgen, fun n p' => ⟨?_, ?_⟩⟩
  · rw [hgen, hasProperty_fee_names _ hfee]; rfl
  · rw [hgen, hasProperty_fee_values _ hfee]; rfl
  · simp only [KatanaConfig.validatePositionParams]
    generalize hasProperty KatanaConfig.FEE_TIERS (toStr p'.fee) = b1
    generalize jsLt p'.tickLower p'.tickUpper = b2
    generalize (decide (p'.amount0Desired > 0) || decide (p'.amount1Desired > 0)) = b3
    generalize jsGt p'.deadline (Math_floor (jsDiv (fin n) (fin 1000))) = b4
    cases b1 <;> cases b2 <;> cases b3 <;> cases b4 <;> decide
  · simp [KatanaConfig.validatePositionParams, List.length_eq_zero]

/-- The examples of C27: the fee `'MEDIUM'` is accepted, the fee `500` is
rejected, and the inherited property name `'toString'` is accepted. -/
theorem validatePositionParams_accepts_tier_names_witness :
    KatanaConfig.validatePositionParams 1700000000000
        { fee := str "MEDIUM", tickLower := fin (-60), tickUpper := fin 60,
          amount0Desired := 1, amount1Desired := 0, deadline := fin 2000000000 }
      = { isValid := true, errors := [] }
    ∧ KatanaConfig.validatePositionParams 1700000000000
        { fee := num (fin 500), tickLower := fin (-60), tickUpper := fin 60,
          amount0Desired := 0, amount1Desired := 1, deadline := fin 2000000000 }
      = { isValid := false, errors := ["Invalid fee tier"] }
    ∧ KatanaConfig.validatePositionParams 1700000000000
        { fee := str "toString", tickLower := fin (-60), tickUpper := fin 60,
          amount0Desired := 1, amount1Desired := 0, deadline := fin 2000000000 }
      = { isValid := true, errors := [] } :=
  ⟨(validatePositionParams_accepts_tier_names 1700000000000
      { fee := str "MEDIUM", tickLower := fin (-60), tickUpper := fin 60,
        amount0Desired := 1, amount1Desired := 0, deadline := fin 2000000000 }
      (by decide!) (Or.inl (by decide)) (by decide!)).1 (by decide),
   (validatePositionParams_accepts_tier_names 1700000000000
      { fee := num (fin 500), tickLower := fin (-60), tickUpper := fin 60,
        amount0Desired := 0, amount1Desired := 1, deadline := fin 2000000000 }
      (by decide!) (Or.inr (by decide)) (by decide!)).2.1 (by decide!),
   ((validatePositionParams_accepts_tier_names 1700000000000
      { fee := str "toString", tickLower := fin (-60), tickUpper := fin 60,
        amount0Desired := 1, amount1Desired := 0, deadline := fin 2000000000 }
      (by decide!) (Or.inl (by decide)) (by decide!)).2.2.1).trans (by decide!)⟩

theorem getProperty_fee_spacing (f s : ℤ)
    (hfee : (f, s) ∈ [((100 : ℤ), (1 : ℤ)), (500, 10), (3000, 60), (10000, 200)]) :
    getProperty KatanaConfig.TICK_SPACINGS (toStr (num (fin (f : ℚ)))) = .number s
      ∧ 0 < s ∧ s ≤ 200 := by
  simp only [List.mem_cons, List.mem_singleton, List.not_mem_nil, or_false,
    Prod.mk.injEq] at hfee
  rcases hfee with ⟨rfl, rfl⟩ | ⟨rfl, rfl⟩ | ⟨rfl, rfl⟩ | ⟨rfl, rfl⟩ <;>
    exact ⟨by decide!, by decide, by decide⟩

/-- The product of an integer quotient and a spacing is computed exactly. -/
theorem jsMul_int_exact (k s : ℤ) (h : |k * s| < 2 ^ 53) :
    jsMul (fin (k : ℚ)) (fin (s : ℚ)) = fin ((k * s : ℤ) : ℚ) := by
  have := roundDouble_intCast (k * s) h
  simp only [jsMul]
  rw [← this]; push_cast; rfl

/-- A quotient of magnitude below `2 ^ 24` is rounded to a finite Number that
differs from it by at most `2 ^ (-30)`. -/
theorem roundDouble_near (a : ℚ) (ha : |a| < 2 ^ 24) :
    ∃ y : ℚ, roundDouble a = fin y ∧ |y - a| ≤ 1 / 2 ^ 30 := by
  by_cases h0 : a = 0
  · subst h0
    exact ⟨0, by simp [roundDouble], by norm_num⟩
  · have hb : |a| ≤ (2 : ℚ) ^ (1023 : ℤ) := by
      have h1 : ((2 : ℚ) ^ 24) ≤ (2 : ℚ) ^ (1023 : ℤ) := by
        rw [← zpow_natCast]
        exact (two_zpow_le_iff _ _).2 (by norm_num)
      linarith
    obtain ⟨r, hr, herr⟩ := roundDouble_spec a h0 hb
    refine ⟨(r : ℚ) * quantum a, hr, le_trans herr ?_⟩
    have hlog : ilog2 a < 24 := by
      apply ilog2_lt_of_abs_lt a h0 24
      rw [zpow_ofNat]
      exact ha
    have hq : quantum a ≤ (2 : ℚ) ^ (-29 : ℤ) := by
      unfold quantum
      apply (two_zpow_le_iff _ _).2
      have : max (ilog2 a) (-1022) ≤ 23 := max_le (by omega) (by norm_num)
      omega
    have e : (2 : ℚ) ^ (-29 : ℤ) = 1 / 2 ^ 29 := by
      rw [zpow_neg, one_div]; norm_cast
    rw [e] at hq
    have : quantum a / 2 ≤ 1 / 2 ^ 29 / 2 := by linarith
    calc quantum a / 2 ≤ 1 / 2 ^ 29 / 2 := this
      _ = 1 / 2 ^ 30 := by norm_num

/-- From the two base ticks to the result of `calculateOptimalTicks`: when they
are integers of magnitude below `2 ^ 52`, the divisions by the spacing and the
products are exact, and the results are the multiples of the spacing next
below `baseTickLower` and next above `baseTickUpper`. -/
theorem calculateOptimalTicks_of_base_ticks (h : Host) (price : JSValue) (f s bl bu : ℤ)
    (hfee : (f, s) ∈ [((100 : ℤ), (1 : ℤ)), (500, 10), (3000, 60), (10000, 200)])
    (hbl : Math_floor (jsDiv (Math_log h (jsMul (toNumber price) KatanaConfig.lit_0_9))
      (Math_log h lit_1_0001)) = fin bl)
    (hbu : Math_ceil (jsDiv (Math_log h (jsMul (toNumber price) KatanaConfig.lit_1_1))
      (Math_log h lit_1_0001)) = fin bu)
    (hbl2 : |bl| < 2 ^ 52) (hbu2 : |bu| < 2 ^ 52) :
    ∃ tl tu : ℤ,
        KatanaConfig.calculateOptimalTicks h price (num (fin f))
          = .ok { tickLower := fin tl, tickUpper := fin tu }
        ∧ s ∣ tl ∧ s ∣ tu ∧ tl ≤ bl ∧ bl < tl + s ∧ bu ≤ tu ∧ tu < bu + s := by
  obtain ⟨hprop, hs, hs200⟩ := getProperty_fee_spacing f s hfee
  have hs2 : s ≤ 2 ^ 20 := by omega
  have hsq : (0 : ℚ) < s := by exact_mod_cast hs
  have hfl1 := Int.floor_le ((bl : ℚ) / s)
  have hfl2 := Int.lt_floor_add_one ((bl : ℚ) / s)
  have hce1 := Int.le_ceil ((bu : ℚ) / s)
  have hce2 := Int.ceil_lt_add_one ((bu : ℚ) / s)
  set kl : ℤ := ⌊(bl : ℚ) / s⌋ with hkl
  set ku : ℤ := ⌈(bu : ℚ) / s⌉ with hku
  have el : (bl : ℚ) / s * s = bl := by field_simp
  have eu : (bu : ℚ) / s * s = bu := by field_simp
  have h1 : kl * s ≤ bl := by
    have : ((kl * s : ℤ) : ℚ) ≤ bl := by
      push_cast
      have := mul_le_mul_of_nonneg_right hfl1 (le_of_lt hsq)
      linarith
    exact_mod_cast this
  have h2 : bl < kl * s + s := by
    have : (bl : ℚ) < ((kl * s + s : ℤ) : ℚ) := by
      push_cast
      have := mul_lt_mul_of_pos_right hfl2 hsq
      linarith
    exact_mod_cast this
  have h3 : bu ≤ ku * s := by
    have : (bu : ℚ) ≤ ((ku * s : ℤ) : ℚ) := by
      push_cast
      have := mul_le_mul_of_nonneg_right hce1 (le_of_lt hsq)
      linarith
    exact_mod_cast this
  have h4 : ku * s < bu + s := by
    have : ((ku * s : ℤ) : ℚ) < ((bu + s : ℤ) : ℚ) := by
      push_cast
      have := mul_lt_mul_of_pos_right hce2 hsq
      linarith
    exact_mod_cast this
  have hbl3 := abs_lt.1 hbl2
  have hbu3 := abs_lt.1 hbu2
  have hml : |kl * s| < 2 ^ 53 := by
    rw [abs_lt]; constructor <;> omega
  have hmu : |ku * s| < 2 ^ 53 := by
    rw [abs_lt]; constructor <;> omega
  refine ⟨kl * s, ku * s, ?_, Dvd.intro_left kl rfl, Dvd.intro_left ku rfl, h1, h2, h3, h4⟩
  have hne : ¬ (PropertyValue.number s = PropertyValue.number 0) := by
    intro hc
    have : s = 0 := by simpa using hc
    omega
  unfold KatanaConfig.calculateOptimalTicks
  rw [hprop]
  simp only [if_neg hne, hbl, hbu]
  rw [Math_floor_jsDiv bl s hbl2 hs hs2, Math_ceil_jsDiv bu s hbu2 hs hs2, ← hkl, ← hku,
    jsMul_int_exact kl s hml, jsMul_int_exact ku s hmu]

/-- The base ticks from the logarithms: with `Math.log(1.0001) ≥ 0.00009` and
two logarithms of magnitude at most `1000` that differ by at least
`Math.log(1.0001)`, the base ticks are integers of magnitude below `2 ^ 52` and
`baseTickLower < baseTickUpper`. -/
theorem base_ticks_of_logs (Ll Lu L0 : ℚ) (hL0 : 9 / 100000 ≤ L0)
    (hLl : |Ll| ≤ 1000) (hLu : |Lu| ≤ 1000) (hgap : Ll + L0 ≤ Lu) :
    ∃ bl bu : ℤ, Math_floor (jsDiv (fin Ll) (fin L0)) = fin bl
      ∧ Math_ceil (jsDiv (fin Lu) (fin L0)) = fin bu
      ∧ |bl| < 2 ^ 52 ∧ |bu| < 2 ^ 52 ∧ bl < bu := by
  have hL0pos : 0 < L0 := by linarith
  have hL0ne : L0 ≠ 0 := ne_of_gt hL0pos
  have hbound : ∀ L : ℚ, |L| ≤ 1000 → |L / L0| < 2 ^ 24 := by
    intro L hL
    rw [abs_div, abs_of_pos hL0pos, div_lt_iff₀ hL0pos]
    have : (1000 : ℚ) < 2 ^ 24 * (9 / 100000) := by norm_num
    nlinarith
  obtain ⟨yl, hyl, hel⟩ := roundDouble_near (Ll / L0) (hbound Ll hLl)
  obtain ⟨yu, hyu, heu⟩ := roundDouble_near (Lu / L0) (hbound Lu hLu)
  have hal := abs_lt.1 (hbound Ll hLl)
  have hau := abs_lt.1 (hbound Lu hLu)
  have hel2 := abs_le.1 hel
  have heu2 := abs_le.1 heu
  have hab : Ll / L0 + 1 ≤ Lu / L0 := by
    rw [div_add_one hL0ne]
    exact div_le_div_of_nonneg_right hgap (le_of_lt hL0pos)
  have hlt : yl < yu := by
    have : (1 : ℚ) / 2 ^ 30 < 1 / 4 := by norm_num
    linarith
  refine ⟨⌊yl⌋, ⌈yu⌉, ?_, ?_, ?_, ?_, ?_⟩
  · simp only [jsDiv, if_neg hL0ne, hyl, Math_floor]
  · simp only [jsDiv, if_neg hL0ne, hyu, Math_ceil]
  · have h1 := Int.floor_le yl
    have h2 := Int.lt_floor_add_one yl
    have e24 : ((2 : ℚ) ^ 24 : ℚ) = ((2 ^ 24 : ℤ) : ℚ) := by norm_num
    have e30 : (1 : ℚ) / 2 ^ 30 < 1 := by norm_num
    have u1 : ((⌊yl⌋ : ℤ) : ℚ) < ((2 ^ 24 + 1 : ℤ) : ℚ) := by push_cast; linarith
    have u2 : ((-(2 ^ 24) - 2 : ℤ) : ℚ) < ((⌊yl⌋ : ℤ) : ℚ) := by push_cast; linarith
    have u1' : ⌊yl⌋ < 2 ^ 24 + 1 := by exact_mod_cast u1
    have u2' : -(2 ^ 24) - 2 < ⌊yl⌋ := by exact_mod_cast u2
    rw [abs_lt]; constructor <;> omega
  · have h1 := Int.le_ceil yu
    have h2 := Int.ceil_lt_add_one yu
    have e30 : (1 : ℚ) / 2 ^ 30 < 1 := by norm_num
    have u1 : ((⌈yu⌉ : ℤ) : ℚ) < ((2 ^ 24 + 2 : ℤ) : ℚ) := by push_cast; linarith
    have u2 : ((-(2 ^ 24) - 1 : ℤ) : ℚ) < ((⌈yu⌉ : ℤ) : ℚ) := by push_cast; linarith
    have u1' : ⌈yu⌉ < 2 ^ 24 + 2 := by exact_mod_cast u1
    have u2' : -(2 ^ 24) - 1 < ⌈yu⌉ := by exact_mod_cast u2
    rw [abs_lt]; constructor <;> omega
  · have h1 := Int.floor_le yl
    have h2 := Int.le_ceil yu
    have : ((⌊yl⌋ : ℤ) : ℚ) < ((⌈yu⌉ : ℤ) : ℚ) := by linarith
    exact_mod_cast this

/-- The object `TICK_SPACINGS` with its computed keys evaluated. -/
theorem TICK_SPACINGS_eq :
    KatanaConfig.TICK_SPACINGS = [("100", 1), ("500", 10), ("3000", 60), ("10000", 200)] := by
  decide!

/-- What `TICK_SPACINGS[key]` is, for every key. -/
theorem getProperty_TICK_SPACINGS (k : String) :
    (getProperty KatanaConfig.TICK_SPACINGS k = .absent
        ↔ k ∉ ["100", "500", "3000", "10000"] ++ objectPrototypeKeys)
      ∧ (k ∈ objectPrototypeKeys → getProperty KatanaConfig.TICK_SPACINGS k = .inherited)
      ∧ getProperty KatanaConfig.TICK_SPACINGS k ≠ .number 0 := by
  rw [TICK_SPACINGS_eq]
  have hdisj : ∀ k' ∈ objectPrototypeKeys, k' ∉ ["100", "500", "3000", "10000"] := by decide
  by_cases h1 : k = "100"
  · subst h1; decide
  by_cases h2 : k = "500"
  · subst h2; decide
  by_cases h3 : k = "3000"
  · subst h3; decide
  by_cases h4 : k = "10000"
  · subst h4; decide
  have hl : List.lookup k [("100", (1 : ℤ)), ("500", 10), ("3000", 60), ("10000", 200)] = none := by
    have e1 : (k == "100") = false := by simpa using h1
    have e2 : (k == "500") = false := by simpa using h2
    have e3 : (k == "3000") = false := by simpa using h3
    have e4 : (k == "10000") = false := by simpa using h4
    simp only [List.lookup, e1, e2, e3, e4]
  by_cases hc : k ∈ objectPrototypeKeys
  · have hc' : objectPrototypeKeys.contains k = true := by simpa using hc
    simp [getProperty, hl, hc', hc]
  · have hc' : objectPrototypeKeys.contains k = false := by simpa using hc
    simp [getProperty, hl, hc', hc, h1, h2, h3, h4]


/-- C28 (counterexample), on the reference host.  For the largest finite
Number as price, `price * 1.1` overflows and `tickUpper` is `Infinity`.  For
the price `1.1112222222222221` and the fee `100`, `price * 0.9` is rounded to
the Number `1.0001`, `tickLower` is `1`, and `1.0001 ^ 1 ≤ 0.9 * price` fails.
For the fee `'toString'`, which is none of the four fees, nothing is thrown:
`TICK_SPACINGS['toString']` is an inherited function, and both ticks are
`NaN`. -/
theorem calculateOptimalTicks_counterexamples :
    KatanaConfig.calculateOptimalTicks refHost (num (fin ((2 ^ 53 - 1) * 2 ^ 971)))
        (num (fin 3000))
      = .ok { tickLower := fin 7097100, tickUpper := posInf }
    ∧ KatanaConfig.calculateOptimalTicks refHost (num (fin (2502249992962907 / 2 ^ 51)))
        (num (fin 100))
      = .ok { tickLower := fin 1, tickUpper := fin 2008 }
    ∧ ¬ ((10001 / 10000 : ℚ) ^ (1 : ℤ) ≤ 9 / 10 * (2502249992962907 / 2 ^ 51))
    ∧ KatanaConfig.calculateOptimalTicks refHost (num (fin 1)) (str "toString")
      = .ok { tickLower := nan, tickUpper := nan } := by
  decide!

/-- C28 (amended): take a fee of `100`, `500`, `3000` or `10000`, with spacing
`s = 1`, `10`, `60` or `200`, and a price and a host for which `Math.log`
returns finite Numbers at `price * 0.9`, at `price * 1.1` and at `1.0001`, the
first two of magnitude at most `1000`, the third at least `0.00009`, and
`Math.log(price * 1.1) - Math.log(price * 0.9) ≥ Math.log(1.0001)`.  Then the
base ticks `bl = Math.floor(Math.log(price * 0.9) / Math.log(1.0001))` and
`bu = Math.ceil(Math.log(price * 1.1) / Math.log(1.0001))` are integers, and
`calculateOptimalTicks` returns integers `tickLower < tickUpper` that are
multiples of `s`, with `tickLower ≤ bl < tickLower + s` and
`tickUpper - s < bu ≤ tickUpper`.  Whatever the price and the host, the call
throws `Invalid fee tier: ` followed by the fee exactly when the fee, as a
property key, is none of `"100"`, `"500"`, `"3000"`, `"10000"` and no name
inherited from `Object.prototype`; for an inherited name it returns `NaN` for
both ticks; and the result depends on the fee only through its property key. -/
theorem calculateOptimalTicks_multiples (h : Host) (price : JSValue) (f s : ℤ)
    (Ll Lu L0 : ℚ)
    (hfee : (f, s) ∈ [((100 : ℤ), (1 : ℤ)), (500, 10), (3000, 60), (10000, 200)])
    (hL0 : Math_log h lit_1_0001 = fin L0) (hL0lo : 9 / 100000 ≤ L0)
    (hLl : Math_log h (jsMul (toNumber price) KatanaConfig.lit_0_9) = fin Ll)
    (hLlb : |Ll| ≤ 1000)
    (hLu : Math_log h (jsMul (toNumber price) KatanaConfig.lit_1_1) = fin Lu)
    (hLub : |Lu| ≤ 1000)
    (hgap : Ll + L0 ≤ Lu) :
    (∃ bl bu tl tu : ℤ,
        Math_floor (jsDiv (fin Ll) (fin L0)) = fin bl
        ∧ Math_ceil (jsDiv (fin Lu) (fin L0)) = fin bu
        ∧ KatanaConfig.calculateOptimalTicks h price (num (fin f))
          = .ok { tickLower := fin tl, tickUpper := fin tu }
        ∧ s ∣ tl ∧ s ∣ tu ∧ tl ≤ bl ∧ bl < tl + s ∧ bu ≤ tu ∧ tu < bu + s ∧ tl < tu)
      ∧ (∀ v : JSValue,
          KatanaConfig.calculateOptimalTicks h price v = .error ("Invalid fee tier: " ++ toStr v)
            ↔ toStr v ∉ ["100", "500", "3000", "10000"] ++ objectPrototypeKeys)
      ∧ (∀ v : JSValue, toStr v ∈ objectPrototypeKeys →
          KatanaConfig.calculateOptimalTicks h price v
            = .ok { tickLower := nan, tickUpper := nan })
      ∧ (∀ v w : JSValue, toStr v = toStr w →
          KatanaConfig.calculateOptimalTicks h price v
            = KatanaConfig.calculateOptimalTicks h price w) := by
  refine ⟨?_, ?_, ?_, ?_⟩
  · obtain ⟨bl, bu, hbl, hbu, hbl2, hbu2, hlt⟩ :=
      base_ticks_of_logs Ll Lu L0 hL0lo hLlb hLub hgap
    obtain ⟨tl, tu, hres, hd1, hd2, h1, h2, h3, h4⟩ :=
      calculateOptimalTicks_of_base_ticks h price f s bl bu hfee
        (by rw [hLl, hL0]; exact hbl) (by rw [hLu, hL0]; exact hbu) hbl2 hbu2
    exact ⟨bl, bu, tl, tu, hbl, hbu, hres, hd1, hd2, h1, h2, h3, h4, by omega⟩
  · intro v
    obtain ⟨habs, -, hne⟩ := getProperty_TICK_SPACINGS (toStr v)
    rw [← habs]
    unfold KatanaConfig.calculateOptimalTicks
    cases hg : getProperty KatanaConfig.TICK_SPACINGS (toStr v) with
    | absent => simp
    | inherited => simp
    | number n =>
      have : ¬ (PropertyValue.number n = PropertyValue.number 0) := by
        rw [← hg]; exact hne
      simp [this]
  · intro v hv
    obtain ⟨-, hinh, -⟩ := getProperty_TICK_SPACINGS (toStr v)
    unfold KatanaConfig.calculateOptimalTicks
    rw [hinh hv]
    have e1 : ∀ x : JSNum, jsDiv x nan = nan := by intro x; cases x <;> rfl
    simp [e1, Math_floor, Math_ceil, jsMul]
  · intro v w hvw
    unfold KatanaConfig.calculateOptimalTicks
    rw [hvw]

/-- The examples of C28 on the reference host, whose `Math.log(1.0001)` is about
`0.000099995`.  For the price `1` and the fee `3000` the two logarithms are
about `-0.10536` and `0.09531`, the base ticks `-1054` and `954`, and the
result `-1080` and `960`.  For the price `2 ^ (-1000)` and the fee `100` the
result is `-6932873` and `-6930865`; for the price `2 ^ 1000` and the fee
`10000` it is `6930600` and `6932800`.  The fee `200` is rejected. -/
theorem calculateOptimalTicks_multiples_witness :
    KatanaConfig.calculateOptimalTicks refHost (num (fin 1)) (num (fin ((3000 : ℤ) : ℚ)))
        = .ok { tickLower := fin ((-1080 : ℤ) : ℚ), tickUpper := fin ((960 : ℤ) : ℚ) }
      ∧ KatanaConfig.calculateOptimalTicks refHost (num (fin (1 / 2 ^ 1000)))
          (num (fin ((100 : ℤ) : ℚ)))
        = .ok { tickLower := fin ((-6932873 : ℤ) : ℚ), tickUpper := fin ((-6930865 : ℤ) : ℚ) }
      ∧ KatanaConfig.calculateOptimalTicks refHost (num (fin (2 ^ 1000)))
          (num (fin ((10000 : ℤ) : ℚ)))
        = .ok { tickLower := fin ((6930600 : ℤ) : ℚ), tickUpper := fin ((6932800 : ℤ) : ℚ) }
      ∧ KatanaConfig.calculateOptimalTicks refHost (num (fin 1)) (num (fin 200))
        = .error "Invalid fee tier: 200" := by
  have r1 : KatanaConfig.calculateOptimalTicks refHost (num (fin (1)))
      (num (fin ((3000 : ℤ) : ℚ)))
      = .ok { tickLower := fin ((-1080 : ℤ) : ℚ), tickUpper := fin ((960 : ℤ) : ℚ) } := by
    obtain ⟨bl, bu, tl, tu, hbl, hbu, hres, hd1, hd2, h1, h2, h3, h4, -⟩ :=
      (calculateOptimalTicks_multiples refHost (num (fin (1))) 3000 60
        (-1898006316224599 / 2 ^ 54) (1716955561005491 / 2 ^ 54) (1844582179798837 / 2 ^ 64)
        (by decide) (by decide!) (by norm_num) (by decide!) (by norm_num [abs_le])
        (by decide!) (by norm_num [abs_le]) (by norm_num)).1
    have ebl : Math_floor (jsDiv (fin (-1898006316224599 / 2 ^ 54))
        (fin (1844582179798837 / 2 ^ 64))) = fin ((-1054 : ℤ) : ℚ) := by decide!
    have ebu : Math_ceil (jsDiv (fin (1716955561005491 / 2 ^ 54))
        (fin (1844582179798837 / 2 ^ 64))) = fin ((954 : ℤ) : ℚ) := by decide!
    have hbl' : bl = -1054 := by
      have := hbl.symm.trans ebl
      simp only [fin.injEq] at this
      exact_mod_cast this
    have hbu' : bu = 954 := by
      have := hbu.symm.trans ebu
      simp only [fin.injEq] at this
      exact_mod_cast this
    subst hbl' hbu'
    have htl : tl = -1080 := by
      obtain ⟨k, hk⟩ := hd1
      omega
    have htu : tu = 960 := by
      obtain ⟨k, hk⟩ := hd2
      omega
    subst htl htu
    exact hres
  have r2 : KatanaConfig.calculateOptimalTicks refHost (num (fin (1 / 2 ^ 1000)))
      (num (fin ((100 : ℤ) : ℚ)))
      = .ok { tickLower := fin ((-6932873 : ℤ) : ℚ), tickUpper := fin ((-6930865 : ℤ) : ℚ) } := by
    obtain ⟨bl, bu, tl, tu, hbl, hbu, hres, hd1, hd2, h1, h2, h3, h4, -⟩ :=
      (calculateOptimalTicks_multiples refHost (num (fin (1 / 2 ^ 1000))) 100 1
        (-3048956919591539 / 2 ^ 42) (-6096148721078961 / 2 ^ 43) (1844582179798837 / 2 ^ 64)
        (by decide) (by decide!) (by norm_num) (by decide!) (by norm_num [abs_le])
        (by decide!) (by norm_num [abs_le]) (by norm_num)).1
    have ebl : Math_floor (jsDiv (fin (-3048956919591539 / 2 ^ 42))
        (fin (1844582179798837 / 2 ^ 64))) = fin ((-6932873 : ℤ) : ℚ) := by decide!
    have ebu : Math_ceil (jsDiv (fin (-6096148721078961 / 2 ^ 43))
        (fin (1844582179798837 / 2 ^ 64))) = fin ((-6930865 : ℤ) : ℚ) := by decide!
    have hbl' : bl = -6932873 := by
      have := hbl.symm.trans ebl
      simp only [fin.injEq] at this
      exact_mod_cast this
    have hbu' : bu = -6930865 := by
      have := hbu.symm.trans ebu
      simp only [fin.injEq] at this
      exact_mod_cast this
    subst hbl' hbu'
    have htl : tl = -6932873 := by
      obtain ⟨k, hk⟩ := hd1
      omega
    have htu : tu = -6930865 := by
      obtain ⟨k, hk⟩ := hd2
      omega
    subst htl htu
    exact hres
  have r3 : KatanaConfig.calculateOptimalTicks refHost (num (fin (2 ^ 1000)))
      (num (fin ((10000 : ℤ) : ℚ)))
      = .ok { tickLower := fin ((6930600 : ℤ) : ℚ), tickUpper := fin ((6932800 : ℤ) : ℚ) } := by
    obtain ⟨bl, bu, tl, tu, hbl, hbu, hres, hd1, hd2, h1, h2, h3, h4, -⟩ :=
      (calculateOptimalTicks_multiples refHost (num (fin (2 ^ 1000))) 10000 200
        (3048030158694945 / 2 ^ 42) (3048912717747003 / 2 ^ 42) (1844582179798837 / 2 ^ 64)
        (by decide) (by decide!) (by norm_num) (by decide!) (by norm_num [abs_le])
        (by decide!) (by norm_num [abs_le]) (by norm_num)).1
    have ebl : Math_floor (jsDiv (fin (3048030158694945 / 2 ^ 42))
        (fin (1844582179798837 / 2 ^ 64))) = fin ((6930764 : ℤ) : ℚ) := by decide!
    have ebu : Math_ceil (jsDiv (fin (3048912717747003 / 2 ^ 42))
        (fin (1844582179798837 / 2 ^ 64))) = fin ((6932772 : ℤ) : ℚ) := by decide!
    have hbl' : bl = 6930764 := by
      have := hbl.symm.trans ebl
      simp only [fin.injEq] at this
      exact_mod_cast this
    have hbu' : bu = 6932772 := by
      have := hbu.symm.trans ebu
      simp only [fin.injEq] at this
      exact_mod_cast this
    subst hbl' hbu'
    have htl : tl = 6930600 := by
      obtain ⟨k, hk⟩ := hd1
      omega
    have htu : tu = 6932800 := by
      obtain ⟨k, hk⟩ := hd2
      omega
    subst htl htu
    exact hres
  refine ⟨r1, r2, r3, ?_⟩
  have herr := (calculateOptimalTicks_multiples refHost (num (fin 1)) 3000 60
    (-1898006316224599 / 2 ^ 54) (1716955561005491 / 2 ^ 54) (1844582179798837 / 2 ^ 64)
    (by decide) (by decide!) (by norm_num) (by decide!) (by norm_num [abs_le])
    (by decide!) (by norm_num [abs_le]) (by norm_num)).2.1
  have := (herr (num (fin 200))).2 (by decide!)
  rw [this]
  decide!

theorem createPool_unit_ratio :
    CreatePool.BigInt_ofNumber (Math_floor (jsMul (Math_sqrt (jsDiv (fin 1) (fin 1)))
      (fin (2 ^ 96)))) = .ok (2 ^ 96) := by
  decide!

/-- C29: for every positive finite Number `r`, on a host whose `2 ** 96` is
exactly `2 ^ 96`, the local `encodePriceSqrt(r, r)` of `createPool.js` returns
the integer `2 ^ 96`, and the shared `encodePriceSqrt(r, r)` returns the text of
the same integer. -/
theorem createPool_encodePriceSqrt_agrees (h : Host) (q : ℚ) (hq : 0 < q)
    (hpow : Math_pow h (fin 2) (fin 96) = fin (2 ^ 96)) :
    CreatePool.encodePriceSqrt h (num (fin q)) (num (fin q)) = .ok (2 ^ 96)
      ∧ encodePriceSqrt (num (fin q)) (num (fin q)) = .ok (bigIntToString (2 ^ 96))
      ∧ bigIntToString (2 ^ 96) = "79228162514264337593543950336" := by
  refine ⟨?_, ?_, bigIntToString_Q96⟩
  · have hdiv : jsDiv (fin q) (fin q) = jsDiv (fin 1) (fin 1) := by
      simp [jsDiv, ne_of_gt hq]
    simp only [CreatePool.encodePriceSqrt, toNumber, hpow, hdiv]
    exact createPool_unit_ratio
  · rw [encodePriceSqrt_of_pos (num (fin q)) (num (fin q)) q q rfl rfl hq hq, if_pos rfl]
    rfl

/-- The example of C29 on the reference host: the call `encodePriceSqrt(1.0, 1)`
of `createPool.js`. -/
theorem createPool_encodePriceSqrt_agrees_witness :
    Math_pow refHost (fin 2) (fin 96) = fin (2 ^ 96)
      ∧ CreatePool.encodePriceSqrt refHost (num (fin 1)) (num (fin 1)) = .ok (2 ^ 96)
      ∧ encodePriceSqrt (num (fin 1)) (num (fin 1)) = .ok (bigIntToString (2 ^ 96))
      ∧ bigIntToString (2 ^ 96) = "79228162514264337593543950336" :=
  ⟨by decide!, createPool_encodePriceSqrt_agrees refHost 1 (by norm_num) (by decide!)⟩

/-! ### `sortTokens` -/

theorem codeUnitsLt_irrefl (l : List ℕ) : CreatePool.codeUnitsLt l l = false := by
  induction l with
  | nil => rfl
  | cons a l ih => simp [CreatePool.codeUnitsLt, ih]

theorem codeUnitsLt_total : ∀ l1 l2 : List ℕ, l1 ≠ l2 →
    CreatePool.codeUnitsLt l1 l2 = true ∨ CreatePool.codeUnitsLt l2 l1 = true := by
  intro l1
  induction l1 with
  | nil =>
    intro l2 h
    cases l2 with
    | nil => exact absurd rfl h
    | cons b bs => left; rfl
  | cons a as ih =>
    intro l2 h
    cases l2 with
    | nil => right; rfl
    | cons b bs =>
      rcases lt_trichotomy a b with hab | hab | hab
      · left; simp [CreatePool.codeUnitsLt, hab]
      · subst hab
        have hne : as ≠ bs := fun hc => h (by rw [hc])
        rcases ih bs hne with h1 | h1
        · left; simp [CreatePool.codeUnitsLt, h1]
        · right; simp [CreatePool.codeUnitsLt, h1]
      · right; simp [CreatePool.codeUnitsLt, hab]

theorem codeUnitsLt_asymm : ∀ l1 l2 : List ℕ, CreatePool.codeUnitsLt l1 l2 = true →
    CreatePool.codeUnitsLt l2 l1 = false := by
  intro l1
  induction l1 with
  | nil =>
    intro l2 _
    cases l2 <;> rfl
  | cons a as ih =>
    intro l2 h
    cases l2 with
    | nil => simp [CreatePool.codeUnitsLt] at h
    | cons b bs =>
      simp only [CreatePool.codeUnitsLt] at h ⊢
      rcases lt_trichotomy a b with hab | hab | hab
      · simp [hab, not_lt.2 (le_of_lt hab)]
      · subst hab
        simp only [lt_irrefl, if_false] at h ⊢
        exact ih bs h
      · simp [hab, not_lt.2 (le_of_lt hab)] at h

/-- C30: `sortTokens` returns its two arguments unchanged, in one order or the
other.  When the lower-cased forms of the two strings differ, the
lower-cased first component is below the lower-cased second one and the result
does not depend on the order of the arguments; when they are equal the result is
the arguments swapped.  This holds whatever `toLowerCase` computes. -/
theorem sortTokens_sorted (lower : String → String) (a b : String)
    (hdiff : CreatePool.toUTF16 (lower a) ≠ CreatePool.toUTF16 (lower b)) :
    (CreatePool.sortTokens lower a b = (a, b) ∨ CreatePool.sortTokens lower a b = (b, a))
      ∧ CreatePool.jsStringLt (lower (CreatePool.sortTokens lower a b).1)
          (lower (CreatePool.sortTokens lower a b).2) = true
      ∧ CreatePool.sortTokens lower a b = CreatePool.sortTokens lower b a
      ∧ ∀ c d : String, CreatePool.toUTF16 (lower c) = CreatePool.toUTF16 (lower d) →
          CreatePool.sortTokens lower c d = (d, c) := by
  have hlast : ∀ c d : String, CreatePool.toUTF16 (lower c) = CreatePool.toUTF16 (lower d) →
      CreatePool.sortTokens lower c d = (d, c) := by
    intro c d hcd
    simp [CreatePool.sortTokens, CreatePool.jsStringLt, hcd, codeUnitsLt_irrefl]
  rcases codeUnitsLt_total _ _ hdiff with hlt | hlt
  · have hrev := codeUnitsLt_asymm _ _ hlt
    have e1 : CreatePool.sortTokens lower a b = (a, b) := by
      simp [CreatePool.sortTokens, CreatePool.jsStringLt, hlt]
    have e2 : CreatePool.sortTokens lower b a = (a, b) := by
      simp [CreatePool.sortTokens, CreatePool.jsStringLt, hrev]
    refine ⟨Or.inl e1, ?_, by rw [e1, e2], hlast⟩
    rw [e1]
    exact hlt
  · have hrev := codeUnitsLt_asymm _ _ hlt
    have e1 : CreatePool.sortTokens lower a b = (b, a) := by
      simp [CreatePool.sortTokens, CreatePool.jsStringLt, hrev]
    have e2 : CreatePool.sortTokens lower b a = (b, a) := by
      simp [CreatePool.sortTokens, CreatePool.jsStringLt, hlt]
    refine ⟨Or.inr e1, ?_, by rw [e1, e2], hlast⟩
    rw [e1]
    exact hlt

/-- The example of C30: the two token addresses of `katanaConfig.js`, in both
orders. -/
theorem sortTokens_sorted_witness :
    CreatePool.sortTokens CreatePool.asciiToLowerCase
        "0x17B8Ee96E3bcB3b04b3e8334de4524520C51caB4"
        "0xa9012a055bd4e0eDfF8Ce09f960291C09D5322dC"
      = CreatePool.sortTokens CreatePool.asciiToLowerCase
        "0xa9012a055bd4e0eDfF8Ce09f960291C09D5322dC"
        "0x17B8Ee96E3bcB3b04b3e8334de4524520C51caB4"
      ∧ CreatePool.sortTokens CreatePool.asciiToLowerCase
        "0xa9012a055bd4e0eDfF8Ce09f960291C09D5322dC"
        "0x17B8Ee96E3bcB3b04b3e8334de4524520C51caB4"
      = ("0x17B8Ee96E3bcB3b04b3e8334de4524520C51caB4",
         "0xa9012a055bd4e0eDfF8Ce09f960291C09D5322dC") := by
  have h := (sortTokens_sorted CreatePool.asciiToLowerCase
    "0x17B8Ee96E3bcB3b04b3e8334de4524520C51caB4"
    "0xa9012a055bd4e0eDfF8Ce09f960291C09D5322dC" (by decide!)).2.2.1
  exact ⟨h, by decide!⟩
end V3PriceUtils
